import Mathlib

/-! # dmenu (thbrd build): matcher, text insertion and accept handling

A shallow embedding of `src/dmenu.c`, `src/config.h` and
`src/patch/dynamicoptions.c`.

Conventions of the embedding
* a C string is the list of its bytes (`List Nat`); the end of the list plays the
  role of the terminating NUL, and a byte `0` inside a list terminates the
  string early, exactly as it would in memory;
* the query buffer `text[BUFSIZ]` is a list of `BUFSIZ` bytes, so that
  `sizeof text` is the length of that list;
* the doubly linked list `matches .. matchend` is the list of the indices (into
  `items`) of its members, in `right` order; the pointers `prev`, `curr`, `next`
  and `sel` are positions in that list, `none` being `NULL`;
* `stdout` is the list of the lines written by `puts`;
* `exit`, and behaviour the C standard leaves undefined, end in a `Status`.
-/

namespace Dmenu

/-! ## C library -/

/-- Byte of a C string at its head; reading at the end yields the NUL. -/
def peek (s : List Nat) : Nat := s.headD 0

/-- The bytes of a buffer up to (excluding) its first NUL. -/
def cstr (buf : List Nat) : List Nat := buf.takeWhile (fun c => c ≠ 0)

/-- Length of the C string held by a buffer. -/
def strlen (buf : List Nat) : Nat := (cstr buf).length

/-- Lower-casing of the C locale, on bytes. -/
def tolower (c : Nat) : Nat := if 65 ≤ c ∧ c ≤ 90 then c + 32 else c

/-- Comparison of at most `n` bytes (libc `strncmp`). -/
def strncmp : List Nat → List Nat → Nat → Int
  | _, _, 0 => 0
  | a, b, n + 1 =>
    if peek a ≠ peek b then (peek a : Int) - (peek b : Int)
    else if peek a = 0 then 0
    else strncmp a.tail b.tail n

/-- Comparison of at most `n` bytes ignoring case (libc `strncasecmp`). -/
def strncasecmp : List Nat → List Nat → Nat → Int
  | _, _, 0 => 0
  | a, b, n + 1 =>
    if tolower (peek a) ≠ tolower (peek b) then
      (tolower (peek a) : Int) - (tolower (peek b) : Int)
    else if tolower (peek a) = 0 then 0
    else strncasecmp a.tail b.tail n

/-- The scan `for (...; *s; s++) if (!cmp(s, sub, len)) return s; return NULL;`
started at offset `i`; the result is the offset of the returned pointer. -/
def scanFrom (cmp : List Nat → List Nat → Nat → Int) (sub : List Nat) (len : Nat) :
    List Nat → Nat → Option Nat
  | [], _ => none
  | c :: cs, i =>
    if c = 0 then none
    else if cmp (c :: cs) sub len = 0 then some i
    else scanFrom cmp sub len cs (i + 1)

/-- Function `cistrstr` (dmenu.c:159). -/
def cistrstr (s sub : List Nat) : Option Nat :=
  scanFrom strncasecmp sub (strlen sub) s 0

/-- First occurrence of `sub` in `s` (libc `strstr`); an empty `sub` is found at
the start. -/
def strstr (s sub : List Nat) : Option Nat :=
  if strlen sub = 0 then some 0 else scanFrom strncmp sub (strlen sub) s 0

/-- One call of `strtok` with the single delimiter `delim` on the rest of the
buffer: the token and what is left after it, `none` being `NULL`. -/
def strtok (s : List Nat) (delim : Nat) : Option (List Nat × List Nat) :=
  let s1 := s.dropWhile (fun c => c = delim)
  if s1 = [] then none
  else some (s1.takeWhile (fun c => c ≠ delim), (s1.dropWhile (fun c => c ≠ delim)).drop 1)

/-- The loop `for (s = strtok(buf, " "); s; tokv[tokc - 1] = s, s = strtok(NULL, " "))`
of `match` (dmenu.c:337): the vector `tokv`. -/
def tokenize : Nat → List Nat → List (List Nat)
  | 0, _ => []
  | fuel + 1, s =>
    match strtok s 32 with
    | none => []
    | some (tok, rest) => tok :: tokenize fuel rest

/-- The token vector of a query buffer. -/
def tokv (text : List Nat) : List (List Nat) :=
  tokenize ((cstr text).length + 1) (cstr text)

/-- Machine `int`: reduction of an integer to 32 bits, two's complement. -/
def wrapInt (x : Int) : Int := (x + 2147483648) % 4294967296 - 2147483648

/-- Machine `unsigned int`. -/
def wrapUInt (x : Int) : Int := x % 4294967296

/-- Copy of `n` bytes inside one buffer (libc `memmove`). -/
def memmove (buf : List Nat) (dst src n : Nat) : List Nat :=
  buf.take dst ++ (buf.drop src).take n ++ buf.drop (dst + n)

/-- Copy of the first `n` bytes of `data` into a buffer at `dst` (libc `memcpy`). -/
def memcpy (buf : List Nat) (dst : Nat) (data : List Nat) (n : Nat) : List Nat :=
  buf.take dst ++ data.take n ++ buf.drop (dst + n)

/-! ## Data model -/

/-- Record `struct item` (dmenu.c:42). The links `left` and `right` are the
neighbours in `State.matches_`; `distance` is used by the fuzzy matcher only. -/
structure item where
  text : List Nat
  stext : List Nat
  out : Bool
  deriving DecidableEq, Repr

/-- The key symbols that `keypress` tells apart; any other one is `other`. -/
inductive KeySym where
  | a | b | c | d | e | f | g | G | h | i | j | J | k | l | m | M | n | p | u | v | V | w | y | Y
  | bracketleft
  | BackSpace | Tab | Return | Escape | Delete
  | Home | Left | Up | Right | Down | Prior | Next | End
  | KP_Enter | KP_Delete
  | KP_Home | KP_Left | KP_Up | KP_Right | KP_Down | KP_Prior | KP_Next | KP_End
  | other (code : Nat)
  deriving DecidableEq, Repr

/-- The status that `XmbLookupString` reports. -/
inductive LookupStatus where
  | XBufferOverflow
  | XLookupNone
  | XLookupChars
  | XLookupKeySym
  | XLookupBoth
  deriving DecidableEq, Repr

/-- A key press as `keypress` sees it: the modifier mask `ev->state` and what
`XmbLookupString` returns for the event (`status`, `ksym`, the bytes of `buf`
and their number `len`). -/
structure XKeyEvent where
  state : Nat
  status : LookupStatus
  ksym : KeySym
  buf : List Nat
  len : Int
  deriving DecidableEq, Repr

/-- Modifier bit `ShiftMask` of X.h. -/
def ShiftMask : Nat := 1

/-- Modifier bit `ControlMask` of X.h. -/
def ControlMask : Nat := 4

/-- Modifier bit `Mod1Mask` of X.h. -/
def Mod1Mask : Nat := 8

/-- Settings of `config.h` and of the command line that the modelled code reads. -/
structure Config where
  /-- Flag `fuzzy`, toggled by `-F`. -/
  fuzzy : Bool
  /-- Option `-s`: `fstrncmp = strncmp; fstrstr = strstr`. -/
  case_sensitive : Bool
  /-- Option `-dy`, `NULL` by default. -/
  dynamic : Option (List Nat)
  /-- Flag `instant`, toggled by `-n`. -/
  instant : Bool
  /-- Flag `sortmatches`, cleared by `-S`. -/
  sortmatches : Bool
  /-- Flag `reject_no_match`, set by `-R`. -/
  reject_no_match : Bool
  /-- Flag `restrict_return`, set by `-1`. -/
  restrict_return : Bool
  /-- Flag `incremental`, toggled by `-r`. -/
  incremental : Bool
  /-- Setting `vi_mode`. -/
  vi_mode : Bool
  /-- Key `global_esc.ksym`. -/
  global_esc_ksym : KeySym
  /-- Mask `global_esc.state`. -/
  global_esc_state : Nat
  deriving DecidableEq, Repr

/-- How a call ended: still in the event loop, left through `exit(code)`, in
behaviour that C leaves undefined (a `NULL` dereference, an access outside an
object), or in a loop that never ends. -/
inductive Status where
  | running
  | exited (code : Nat)
  | undefined
  | hung
  deriving DecidableEq, Repr

/-- The global variables of dmenu.c that the modelled code reads or writes. -/
structure State where
  /-- Buffer `text[BUFSIZ]`. -/
  text : List Nat
  /-- Variable `cursor`, a `size_t`. -/
  cursor : Nat
  /-- Array `items`, up to its terminating entry. -/
  items : List item
  /-- List `matches .. matchend`, as indices into `items`. -/
  matches_ : List Nat
  /-- Pointer `prev`, as a position in `matches_`. -/
  prev : Option Nat
  /-- Pointer `curr`. -/
  curr : Option Nat
  /-- Pointer `next`. -/
  next : Option Nat
  /-- Pointer `sel`. -/
  sel : Option Nat
  /-- Variable `inputw`. -/
  inputw : Int
  /-- Variable `lines` (`-l`): lines of the vertical list, 0 for the horizontal list. -/
  lines : Nat
  /-- Buffer `numbers` of the match counter. -/
  numbers : List Nat
  /-- Flag `using_vi_mode`. -/
  using_vi_mode : Bool
  /-- Lines written to standard output. -/
  stdout : List (List Nat)
  /-- Whether the process is still running. -/
  status : Status
  deriving DecidableEq, Repr

/-- Services that are not part of the modelled sources: the drawing library,
the dynamic command, and the patches included through `patch/include.c`. -/
structure Env where
  /-- What successive `fgets` calls read from `popen(cmd, "r")`. -/
  popen : List Nat → List (List Nat)
  /-- Function `fuzzymatch` of the fuzzy-match patch. -/
  fuzzymatch : State → State
  /-- Function `drw_fontset_getwidth`. -/
  drw_fontset_getwidth : List Nat → Nat
  /-- Function `drw_fontset_getwidth_clamp`. -/
  drw_fontset_getwidth_clamp : List Nat → Nat → Nat
  /-- Function `drw_font_getexts`, the width it reports. -/
  drw_font_getexts : List Nat → Nat
  /-- Height `bh` of a menu line. -/
  bh : Int
  /-- Width `mw` of the menu. -/
  mw : Int
  /-- Width `promptw` of the prompt. -/
  promptw : Int
  /-- Padding `lrpad`. -/
  lrpad : Int
  /-- Function `vi_keypress` of the vi-mode patch. -/
  vi_keypress : KeySym → XKeyEvent → State → State
  /-- Function `recalculatenumbers` of the numbers patch: the new content of `numbers`. -/
  recalculatenumbers : State → List Nat

/-- Constant `startpipe` of config.h. -/
def startpipe : List Nat := [35]

/-- Constant `pipeout` (dmenu.c:51): the eight bytes of " | dmenu", without NUL. -/
def pipeout : List Nat := [32, 124, 32, 100, 109, 101, 110, 117]

/-- Constant `symbol_1` of config.h. -/
def symbol_1 : List Nat := [60]

/-- Constant `symbol_2` of config.h. -/
def symbol_2 : List Nat := [62]

/-- Test `dynamic && *dynamic`. -/
def dynamicOn (cfg : Config) : Bool :=
  match cfg.dynamic with
  | none => false
  | some cmd => decide (peek cmd ≠ 0)

/-- Pointer `fstrncmp` (dmenu.c:104, reset by `-s`). -/
def fstrncmp (cfg : Config) : List Nat → List Nat → Nat → Int :=
  if cfg.case_sensitive then strncmp else strncasecmp

/-- Pointer `fstrstr` (dmenu.c:105, reset by `-s`). -/
def fstrstr (cfg : Config) : List Nat → List Nat → Option Nat :=
  if cfg.case_sensitive then strstr else cistrstr

/-! ## The classed matcher (dmenu.c:327-378) -/

/-- The three lists that `match` builds: `matches .. matchend`,
`lprefix .. prefixend` and `lsubstr .. substrend`. -/
structure Buckets where
  exact : List Nat
  lpre : List Nat
  lsub : List Nat
  deriving DecidableEq, Repr

/-- Function `appenditem` (dmenu.c:109): the item becomes the last of the list. -/
def appenditem (i : Nat) (list : List Nat) : List Nat := list ++ [i]

/-- The inner loop of `match` ran to its end (`i == tokc`): no token is missing
from the text of the item. -/
def allTokens (cfg : Config) (tv : List (List Nat)) (it : item) : Bool :=
  tv.all (fun tok => (fstrstr cfg it.text tok).isSome)

/-- Body of the loop over `items` (dmenu.c:345-360) for the item of index `i`. -/
def matchStep (cfg : Config) (text : List Nat) (tv : List (List Nat)) (b : Buckets)
    (i : Nat) (it : item) : Buckets :=
  if !allTokens cfg tv it && !dynamicOn cfg then b
  else if !cfg.sortmatches then { b with exact := appenditem i b.exact }
  else if tv.length = 0 ∨ fstrncmp cfg text it.text (strlen text + 1) = 0 then
    { b with exact := appenditem i b.exact }
  else if fstrncmp cfg (tv.headD []) it.text (strlen (tv.headD [])) = 0 then
    { b with lpre := appenditem i b.lpre }
  else { b with lsub := appenditem i b.lsub }

/-- The loop `for (item = items; item && item->text; item++)`, from index `i`. -/
def matchLoop (cfg : Config) (text : List Nat) (tv : List (List Nat)) :
    List item → Nat → Buckets → Buckets
  | [], _, b => b
  | it :: rest, i, b => matchLoop cfg text tv rest (i + 1) (matchStep cfg text tv b i it)

/-- Linking of a bucket behind the list built so far (dmenu.c:362-378). -/
def splice (ms l : List Nat) : List Nat :=
  if l ≠ [] then (if ms ≠ [] then ms ++ l else l) else ms

/-- The buckets after the loop, for a query buffer and an item array. -/
def buckets (cfg : Config) (text : List Nat) (items : List item) : Buckets :=
  matchLoop cfg text (tokv text) items 0 ⟨[], [], []⟩

/-- The list `matches .. matchend` at dmenu.c:379. -/
def classed (cfg : Config) (text : List Nat) (items : List item) : List Nat :=
  splice (splice (buckets cfg text items).exact (buckets cfg text items).lpre)
    (buckets cfg text items).lsub

/-- Text of the item of index `m`. -/
def itemText (items : List item) (m : Nat) : List Nat :=
  match items.get? m with
  | some it => it.text
  | none => []

/-- Head of a list as a pointer: `none` when the list is empty. -/
def headPos (ms : List Nat) : Option Nat := if ms = [] then none else some 0

/-! ## Paging (dmenu.c:78-83, 122-140) -/

/-- Macro `TEXTW` (dmenu.c:27), an `unsigned int`. -/
def TEXTW (env : Env) (x : List Nat) : Int :=
  wrapUInt ((env.drw_fontset_getwidth x : Int) + env.lrpad)

/-- Function `textw_clamp` (dmenu.c:78); `n` is converted to `unsigned int`. -/
def textw_clamp (env : Env) (str : List Nat) (n : Int) : Int :=
  min (wrapUInt ((env.drw_fontset_getwidth_clamp str (wrapUInt n).toNat : Int) + env.lrpad))
    (wrapUInt n)

/-- The budget `n` of `calcoffsets`. -/
def budget (env : Env) (s : State) : Int :=
  if s.lines > 0 then wrapInt ((s.lines : Int) * env.bh)
  else wrapInt (env.mw - (env.promptw + s.inputw + TEXTW env symbol_1 + TEXTW env symbol_2
    + wrapInt (TEXTW env s.numbers)))

/-- What one item adds to `i` in the loops of `calcoffsets`. -/
def cost (env : Env) (s : State) (m : Nat) : Int :=
  if s.lines > 0 then wrapUInt env.bh else textw_clamp env (itemText s.items m) (budget env s)

/-- The loop `for (i = 0, next = curr; next; next = next->right)` over the items
from `curr` on; `p` is the position of `next`. -/
def nextLoop (c : Nat → Int) (n : Int) : List Nat → Int → Nat → Option Nat
  | [], _, _ => none
  | m :: rest, i, p =>
    if wrapInt (i + c m) > n then some p
    else nextLoop c n rest (wrapInt (i + c m)) (p + 1)

/-- The loop `for (i = 0, prev = curr; prev && prev->left; prev = prev->left)`
over the items to the left of `prev`, nearest first; `p` is the position of `prev`. -/
def prevLoop (c : Nat → Int) (n : Int) : List Nat → Int → Nat → Nat
  | [], _, p => p
  | m :: rest, i, p =>
    if wrapInt (i + c m) > n then p
    else prevLoop c n rest (wrapInt (i + c m)) (p - 1)

/-- Function `calcoffsets` (dmenu.c:122). -/
def calcoffsets (env : Env) (s : State) : State :=
  match s.curr with
  | none => { s with next := none, prev := none }
  | some c =>
    { s with
      next := nextLoop (cost env s) (budget env s) (s.matches_.drop c) 0 c
      prev := some (prevLoop (cost env s) (budget env s) (s.matches_.take c).reverse 0 c) }

/-! ## The dynamic command (patch/dynamicoptions.c) -/

/-- The cut `if ((p = strchr(buf, c))) *p = 0` followed by `strdup(buf)`. -/
def cutAt (c : Nat) (buf : List Nat) : List Nat := (cstr buf).takeWhile (fun b => b ≠ c)

/-- The item that `readstream` makes of one line. -/
def mkItem (line : List Nat) : item :=
  { text := cutAt 10 line, stext := cutAt 9 (cutAt 10 line), out := false }

/-- The pair `(inputw, imax)` after the loop of `readstream` has seen the lines
from index `i` on. -/
def widest (env : Env) : List (List Nat) → Nat → Int × Nat → Int × Nat
  | [], _, acc => acc
  | line :: rest, i, acc =>
    if (env.drw_font_getexts (cutAt 9 (cutAt 10 line)) : Int) > wrapUInt acc.1 then
      widest env rest (i + 1) (wrapInt (env.drw_font_getexts (cutAt 9 (cutAt 10 line))), i)
    else widest env rest (i + 1) acc

/-- Function `readstream` (dynamicoptions.c:20) on the lines that `fgets` reads. -/
def readstream (cfg : Config) (env : Env) (s : State) (lns : List (List Nat)) : State :=
  if lns.length = 0 then s
  else
    let its := lns.map mkItem
    let s1 := { s with
      items := its
      inputw := wrapInt (TEXTW env (itemText its (widest env lns 0 (s.inputw, 0)).2)) }
    if !dynamicOn cfg then { s1 with lines := min s1.lines lns.length }
    else { s1 with text := s1.text.set 0 0, cursor := 0 }

/-- Function `refreshoptions` (dynamicoptions.c:1). Its last statement,
`curr = sel = items`, points both at the first item, which is in no list at that
moment; `match` assigns both again at dmenu.c:379 before anything reads them, and
the model leaves them as they were. -/
def refreshoptions (cfg : Config) (env : Env) (s : State) : State :=
  readstream cfg env s (env.popen (cstr (cfg.dynamic.getD []) ++ [32] ++ cstr s.text))

/-! ## Function `match` (dmenu.c:317) -/

/-- The statement `if (dynamic && *dynamic) refreshoptions();` (dmenu.c:320). -/
def refreshed (cfg : Config) (env : Env) (s : State) : State :=
  if dynamicOn cfg then refreshoptions cfg env s else s

/-- Function `match`. -/
def match_ (cfg : Config) (env : Env) (s0 : State) : State :=
  let s := refreshed cfg env s0
  if cfg.fuzzy then env.fuzzymatch s
  else
    let ms := classed cfg s.text s.items
    let s1 := { s with matches_ := ms, curr := headPos ms, sel := headPos ms }
    if cfg.instant ∧ ms ≠ [] ∧ ms.length = 1 ∧ (buckets cfg s.text s.items).lsub = [] then
      { s1 with
        stdout := s1.stdout ++ [cstr (itemText s1.items (ms.headD 0))]
        status := Status.exited 0 }
    else calcoffsets env s1

/-! ## Function `insert` (dmenu.c:390) -/

/-- Machine `size_t`: reduction of an integer modulo 2^64. -/
def wrapSize (x : Int) : Nat := (x % 18446744073709551616).toNat

/-- Machine `ssize_t`: reduction of an integer to 64 bits, two's complement. -/
def toSsize (x : Int) : Int :=
  (x + 9223372036854775808) % 18446744073709551616 - 9223372036854775808

/-- The state after behaviour that C leaves undefined. -/
def undef (s : State) : State := { s with status := Status.undefined }

/-- The text after `memmove(&text[cursor + n], &text[cursor], sizeof text - cursor - MAX(n, 0))`
and `if (n > 0) memcpy(&text[cursor], str, n)`. -/
def edited (s : State) (str : List Nat) (n : Int) : List Nat :=
  if n > 0 then
    memcpy (memmove s.text (wrapSize (s.cursor + n)) s.cursor
      (wrapSize (s.text.length - s.cursor - max n 0))) s.cursor str n.toNat
  else
    memmove s.text (wrapSize (s.cursor + n)) s.cursor
      (wrapSize (s.text.length - s.cursor - max n 0))

/-- The copies of `insert` stay inside `text` and inside the `n` bytes at `str`. -/
def insertInBounds (s : State) (str : List Nat) (n : Int) : Prop :=
  wrapSize (s.cursor + n) + wrapSize (s.text.length - s.cursor - max n 0) ≤ s.text.length ∧
  s.cursor + wrapSize (s.text.length - s.cursor - max n 0) ≤ s.text.length ∧
  (n > 0 → n.toNat ≤ str.length ∧ s.cursor + n.toNat ≤ s.text.length)

instance (s : State) (str : List Nat) (n : Int) : Decidable (insertInBounds s str n) := by
  unfold insertInBounds; infer_instance

/-- Function `insert`. The buffer `last` is written and read inside one call only,
so it is a local value here. A call of `match` that ends the process ends `insert`. -/
def insert (cfg : Config) (env : Env) (str : List Nat) (n : Int) (s : State) : State :=
  if wrapSize (strlen s.text + n) > wrapSize (s.text.length - 1) then s
  else if ¬ insertInBounds s str n then undef s
  else
    let s1 := match_ cfg env { s with text := edited s str n, cursor := wrapSize (s.cursor + n) }
    if s1.status ≠ Status.running then s1
    else if s1.matches_ = [] ∧ cfg.reject_no_match = true then
      match_ cfg env { s1 with text := s.text, cursor := wrapSize (s1.cursor - n) }
    else s1

/-! ## Cursor motion (dmenu.c:417-442) -/

/-- The loop of `nextrune` from the offset `n`; `none` when it reads outside `text`. -/
def nextruneLoop (text : List Nat) (inc : Int) : Nat → Int → Option Int
  | 0, _ => none
  | fuel + 1, n =>
    if n + inc ≥ 0 then
      if n < 0 then none
      else
        match text.get? n.toNat with
        | none => none
        | some b => if b &&& 192 = 128 then nextruneLoop text inc fuel (n + inc) else some n
    else some n

/-- Function `nextrune`; `none` when it reads outside `text`. -/
def nextrune (s : State) (inc : Int) : Option Nat :=
  (nextruneLoop s.text inc (s.text.length + 1) (toSsize (s.cursor + inc))).map
    (fun n => wrapSize n)

/-- Test `strchr(worddelimiters, c)`, with `worddelimiters = " "`: the terminating
NUL of the delimiters is found as well. -/
def isDelimiter (c : Nat) : Bool := c = 32 || c = 0

/-- The loops `while (cursor > 0 && [!]strchr(worddelimiters, text[nextrune(-1)]))
cursor = nextrune(-1);` of `movewordedge`; `want` tells whether delimiters are skipped. -/
def wordLeft (want : Bool) : Nat → State → State
  | 0, s => { s with status := Status.hung }
  | fuel + 1, s =>
    if s.cursor > 0 then
      match nextrune s (-1) with
      | none => undef s
      | some r =>
        match s.text.get? r with
        | none => undef s
        | some b => if isDelimiter b = want then wordLeft want fuel { s with cursor := r } else s
    else s

/-- The loops `while (text[cursor] && [!]strchr(worddelimiters, text[cursor]))
cursor = nextrune(+1);` of `movewordedge`. -/
def wordRight (want : Bool) : Nat → State → State
  | 0, s => { s with status := Status.hung }
  | fuel + 1, s =>
    match s.text.get? s.cursor with
    | none => undef s
    | some b =>
      if b ≠ 0 ∧ isDelimiter b = want then
        match nextrune s 1 with
        | none => undef s
        | some r => wordRight want fuel { s with cursor := r }
      else s

/-- Function `movewordedge`. -/
def movewordedge (dir : Int) (s : State) : State :=
  if dir < 0 then
    let s1 := wordLeft true (s.text.length + 1) s
    if s1.status ≠ Status.running then s1 else wordLeft false (s.text.length + 1) s1
  else
    let s1 := wordRight true (s.text.length + 1) s
    if s1.status ≠ Status.running then s1 else wordRight false (s.text.length + 1) s1

/-! ## Function `keypress` (dmenu.c:444) -/

/-- Call `puts(line)`. -/
def puts (line : List Nat) (s : State) : State := { s with stdout := s.stdout ++ [line] }

/-- Call `puts` on a part of the buffer `text`: the bytes up to the first NUL;
without a NUL in the buffer the call reads outside it. -/
def putsText (buf : List Nat) (s : State) : State :=
  if 0 ∈ buf then puts (cstr buf) s else undef s

/-- The loop `for (item = curr; item != next; item = item->right)` of `drawmenu`
(dmenu.c:250 and dmenu.c:262), which reads every `item` it visits: whether it
meets `next` before it runs off the list. From the item at position `c` it visits
the positions `c`, `c + 1`, ... of `matches_`; behind the last one `item` is
`NULL`, which the loop reads unless `next` is `NULL` too. -/
def walkMeetsNext (s : State) : Bool :=
  match s.curr, s.next with
  | none, none => true
  | none, some _ => false
  | some c, none => decide (c < s.matches_.length)
  | some c, some q => decide (c ≤ q ∧ q < s.matches_.length)

/-- The reads of the list pointers in `drawmenu` stay on items: the vertical list
(`lines > 0`) is drawn by the loop from `curr` to `next` (dmenu.c:250); the
horizontal list (`lines = 0` and `matches` set) reads `curr->left` (dmenu.c:256)
before the same loop (dmenu.c:262); without a list nothing is read. -/
def listReadable (s : State) : Bool :=
  if s.lines > 0 then walkMeetsNext s
  else if s.matches_ ≠ [] then
    if s.curr = none then false else walkMeetsNext s
  else true

/-- The read `char vi_char[] = {text[cursor], 0}` of `drawmenu` (dmenu.c:234), made
in vi mode when the query is not empty, stays inside `text`. -/
def viCharReadable (s : State) : Bool :=
  if s.using_vi_mode = true ∧ peek s.text ≠ 0 then decide (s.cursor < s.text.length) else true

/-- Function `drawmenu` (dmenu.c:195), as far as it writes the modelled state and
reads the query and the list pointers itself: in vi mode it reads `text[cursor]`,
`recalculatenumbers()` rewrites `numbers`, then the list is drawn from `curr` to
`next`. What is drawn (the prompt, the query from `text` and from `&text[cursor]`,
the items) is handed to the drawing library and leaves no trace in the state. -/
def drawmenu (env : Env) (s : State) : State :=
  if viCharReadable s = true ∧
      listReadable { s with numbers := env.recalculatenumbers s } = true then
    { s with numbers := env.recalculatenumbers s }
  else undef { s with numbers := env.recalculatenumbers s }

/-- The statements behind the label `draw:` (dmenu.c:682-690). -/
def draw (cfg : Config) (env : Env) (s : State) : State :=
  if s.status ≠ Status.running then s
  else
    let s1 := if cfg.incremental then putsText s.text s else s
    if s1.status ≠ Status.running then s1
    else if s1.using_vi_mode then
      match s1.text.get? s1.cursor with
      | none => undef s1
      | some b =>
        drawmenu env (if b = 0 then { s1 with cursor := wrapSize (s1.cursor - 1) } else s1)
    else drawmenu env s1

/-- How a part of `keypress` is left: on to the next statement with the key symbol
and modifier mask as they are now, to the label `draw`, or by `return`. -/
inductive Flow where
  | cont (ksym : KeySym) (state : Nat) (s : State)
  | draw (s : State)
  | ret (s : State)

/-- The item `sel` points at, with its index. -/
def selItem (s : State) : Option (Nat × item) :=
  match s.sel with
  | none => none
  | some p =>
    match s.matches_.get? p with
    | none => none
    | some m =>
      match s.items.get? m with
      | none => none
      | some it => some (m, it)

/-- Pointer `matchend`. -/
def matchend (s : State) : Option Nat :=
  if s.matches_ = [] then none else some (s.matches_.length - 1)

/-- Test `iscntrl` of the C locale. -/
def iscntrl (c : Nat) : Bool := c < 32 || c = 127

/-- The loops of the case `XK_w` (dmenu.c:503-506). -/
def deleteWord (cfg : Config) (env : Env) (want : Bool) : Nat → State → State
  | 0, s => { s with status := Status.hung }
  | fuel + 1, s =>
    if s.status ≠ Status.running then s
    else if s.cursor > 0 then
      match nextrune s (-1) with
      | none => undef s
      | some r =>
        match s.text.get? r with
        | none => undef s
        | some b =>
          if isDelimiter b = want then
            deleteWord cfg env want fuel (insert cfg env [] (toSsize ((r : Int) - s.cursor)) s)
          else s
    else s

/-- The switch on `ksym` under `ControlMask` (dmenu.c:477-536). -/
def ctrlSwitch (cfg : Config) (env : Env) (ksym : KeySym) (st : Nat) (s : State) : Flow :=
  match ksym with
  | KeySym.a => Flow.cont KeySym.Home st s
  | KeySym.b => Flow.cont KeySym.Left st s
  | KeySym.c => Flow.cont KeySym.Escape st s
  | KeySym.d => Flow.cont KeySym.Delete st s
  | KeySym.e => Flow.cont KeySym.End st s
  | KeySym.f => Flow.cont KeySym.Right st s
  | KeySym.g => Flow.cont KeySym.Escape st s
  | KeySym.h => Flow.cont KeySym.BackSpace st s
  | KeySym.i => Flow.cont KeySym.Tab st s
  | KeySym.j => Flow.cont KeySym.Return (st &&& 4294967291) s
  | KeySym.J => Flow.cont KeySym.Return (st &&& 4294967291) s
  | KeySym.m => Flow.cont KeySym.Return (st &&& 4294967291) s
  | KeySym.M => Flow.cont KeySym.Return (st &&& 4294967291) s
  | KeySym.n => Flow.cont KeySym.Down st s
  | KeySym.p => Flow.cont KeySym.Up st s
  | KeySym.k =>
    if s.cursor < s.text.length then
      Flow.cont KeySym.k st (match_ cfg env { s with text := s.text.set s.cursor 0 })
    else Flow.ret (undef s)
  | KeySym.u => Flow.cont KeySym.u st (insert cfg env [] (toSsize (0 - (s.cursor : Int))) s)
  | KeySym.w =>
    let s1 := deleteWord cfg env true (s.text.length + 1) s
    if s1.status ≠ Status.running then Flow.ret s1
    else Flow.cont KeySym.w st (deleteWord cfg env false (s.text.length + 1) s1)
  | KeySym.v => Flow.ret s
  | KeySym.V => Flow.ret s
  | KeySym.y => Flow.ret s
  | KeySym.Y => Flow.ret s
  | KeySym.Left => Flow.draw (movewordedge (-1) s)
  | KeySym.KP_Left => Flow.draw (movewordedge (-1) s)
  | KeySym.Right => Flow.draw (movewordedge 1 s)
  | KeySym.KP_Right => Flow.draw (movewordedge 1 s)
  | KeySym.Return => Flow.cont KeySym.Return st s
  | KeySym.KP_Enter => Flow.cont KeySym.KP_Enter st s
  | KeySym.bracketleft => Flow.ret { s with status := Status.exited 1 }
  | _ => Flow.ret s

/-- The switch on `ksym` under `Mod1Mask` (dmenu.c:537-553). -/
def mod1Switch (ksym : KeySym) (st : Nat) (s : State) : Flow :=
  match ksym with
  | KeySym.b => Flow.draw (movewordedge (-1) s)
  | KeySym.f => Flow.draw (movewordedge 1 s)
  | KeySym.g => Flow.cont KeySym.Home st s
  | KeySym.G => Flow.cont KeySym.End st s
  | KeySym.h => Flow.cont KeySym.Up st s
  | KeySym.j => Flow.cont KeySym.Next st s
  | KeySym.k => Flow.cont KeySym.Prior st s
  | KeySym.l => Flow.cont KeySym.Down st s
  | _ => Flow.ret s

/-- The label `insert:` (dmenu.c:558-561). When `XmbLookupString` has written no
byte (a key symbol without text), `*buf` is read uninitialised and its
indeterminate value is handed to `iscntrl`. -/
def keyInsert (cfg : Config) (env : Env) (ev : XKeyEvent) (s : State) : Flow :=
  match ev.buf with
  | [] => Flow.ret (undef s)
  | b :: _ => if !iscntrl b then Flow.draw (insert cfg env ev.buf ev.len s) else Flow.draw s

/-- Case `XK_BackSpace` (dmenu.c:568-572). -/
def keyBackSpace (cfg : Config) (env : Env) (s : State) : Flow :=
  if s.cursor = 0 then Flow.ret s
  else
    match nextrune s (-1) with
    | none => Flow.ret (undef s)
    | some r => Flow.draw (insert cfg env [] (toSsize ((r : Int) - s.cursor)) s)

/-- Case `XK_Delete` (dmenu.c:562-567), which falls through to `XK_BackSpace`. -/
def keyDelete (cfg : Config) (env : Env) (s : State) : Flow :=
  match s.text.get? s.cursor with
  | none => Flow.ret (undef s)
  | some b =>
    if b = 0 then Flow.ret s
    else
      match nextrune s 1 with
      | none => Flow.ret (undef s)
      | some r => keyBackSpace cfg env { s with cursor := r }

/-- The loop `while (next && (curr = curr->right)) calcoffsets();` (dmenu.c:585). -/
def endLoop (env : Env) : Nat → State → State
  | 0, s => { s with status := Status.hung }
  | fuel + 1, s =>
    if s.next ≠ none then
      match s.curr with
      | none => undef s
      | some c =>
        if c + 1 < s.matches_.length then
          endLoop env fuel (calcoffsets env { s with curr := some (c + 1) })
        else { s with curr := none }
    else s

/-- Case `XK_End` (dmenu.c:573-589). -/
def keyEnd (env : Env) (s : State) : Flow :=
  match s.text.get? s.cursor with
  | none => Flow.ret (undef s)
  | some b =>
    if b ≠ 0 then Flow.draw { s with cursor := strlen s.text }
    else if s.next ≠ none then
      let s1 := calcoffsets env { s with curr := matchend s }
      let s2 := calcoffsets env { s1 with curr := s1.prev }
      let s3 := endLoop env (s2.matches_.length + 1) s2
      Flow.draw { s3 with sel := matchend s3 }
    else Flow.draw { s with sel := matchend s }

/-- Case `XK_Home` (dmenu.c:593-601). -/
def keyHome (env : Env) (s : State) : Flow :=
  if s.sel = headPos s.matches_ then Flow.draw { s with cursor := 0 }
  else Flow.draw (calcoffsets env { s with sel := headPos s.matches_, curr := headPos s.matches_ })

/-- Case `XK_Up` (dmenu.c:611-617). -/
def keyUp (env : Env) (s : State) : Flow :=
  match s.sel with
  | some (p + 1) =>
    if s.curr = some (p + 1) then
      Flow.draw (calcoffsets env { s with sel := some p, curr := s.prev })
    else Flow.draw { s with sel := some p }
  | _ => Flow.draw s

/-- Case `XK_Left` (dmenu.c:602-610), which may fall through to `XK_Up`. -/
def keyLeft (env : Env) (s : State) : Flow :=
  if s.cursor > 0 ∧ (s.sel = none ∨ s.sel = some 0 ∨ s.lines > 0) then
    match nextrune s (-1) with
    | none => Flow.ret (undef s)
    | some r => Flow.draw { s with cursor := r }
  else if s.lines > 0 then Flow.ret s
  else keyUp env s

/-- Case `XK_Down` (dmenu.c:665-671). -/
def keyDown (env : Env) (s : State) : Flow :=
  match s.sel with
  | some p =>
    if p + 1 < s.matches_.length then
      if s.next = some (p + 1) then
        Flow.draw (calcoffsets env { s with sel := some (p + 1), curr := s.next })
      else Flow.draw { s with sel := some (p + 1) }
    else Flow.draw s
  | none => Flow.draw s

/-- Case `XK_Right` (dmenu.c:656-664), which may fall through to `XK_Down`. -/
def keyRight (env : Env) (s : State) : Flow :=
  match s.text.get? s.cursor with
  | none => Flow.ret (undef s)
  | some b =>
    if b ≠ 0 then
      match nextrune s 1 with
      | none => Flow.ret (undef s)
      | some r => Flow.draw { s with cursor := r }
    else if s.lines > 0 then Flow.ret s
    else keyDown env s

/-- Case `XK_Next` (dmenu.c:618-624). -/
def keyNext (env : Env) (s : State) : Flow :=
  if s.next = none then Flow.ret s
  else Flow.draw (calcoffsets env { s with sel := s.next, curr := s.next })

/-- Case `XK_Prior` (dmenu.c:625-631). -/
def keyPrior (env : Env) (s : State) : Flow :=
  if s.prev = none then Flow.ret s
  else Flow.draw (calcoffsets env { s with sel := s.prev, curr := s.prev })

/-- The statements of dmenu.c:640-652: what the case `XK_Return` writes. With
`ControlMask` clear the text is `sel->text`, read through `sel` even when it is
`NULL`; for a text with the marker, `strncpy` writes the eight bytes of `pipeout`
at its end, and for `sel->text` that is outside the `strlen + 1` bytes which
`strdup` allocated. -/
def emit (st : Nat) (s : State) : State :=
  if st &&& ControlMask = 0 then
    match selItem s with
    | none => undef s
    | some (_, it) =>
      if peek it.text = peek startpipe then undef s
      else puts (cstr it.text) s
  else if peek s.text = peek startpipe then
    if strlen s.text + 8 ≤ s.text.length then
      let s1 := putsText ((memcpy s.text (strlen s.text) pipeout 8).drop 1)
        { s with text := memcpy s.text (strlen s.text) pipeout 8 }
      if s1.status ≠ Status.running then s1 else putsText s1.text s1
    else undef s
  else putsText s.text s

/-- The statements `if (sel) sel->out = 1;` (dmenu.c:653). -/
def markOut (s : State) : State :=
  match selItem s with
  | none => s
  | some (m, it) => { s with items := s.items.set m { it with out := true } }

/-- Case `XK_Return` (dmenu.c:632-655). -/
def keyReturn (cfg : Config) (st : Nat) (s : State) : Flow :=
  if cfg.restrict_return = true ∧ (s.sel = none ∨ st &&& (ShiftMask ||| ControlMask) ≠ 0) then
    Flow.draw s
  else if s.sel ≠ none ∧ st &&& ShiftMask = 0 then
    Flow.ret { s with status := Status.exited 0 }
  else if (emit st s).status ≠ Status.running then Flow.ret (emit st s)
  else Flow.draw (markOut (emit st s))

/-- Case `XK_Tab` (dmenu.c:672-679). -/
def keyTab (cfg : Config) (env : Env) (s : State) : Flow :=
  if s.sel = none then Flow.ret s
  else
    match selItem s with
    | none => Flow.ret (undef s)
    | some (_, it) =>
      if min (strlen it.text) (wrapSize (s.text.length - 1)) < s.text.length then
        Flow.draw (match_ cfg env { s with
          cursor := min (strlen it.text) (wrapSize (s.text.length - 1))
          text := (memcpy s.text 0 (cstr it.text)
            (min (strlen it.text) (wrapSize (s.text.length - 1)))).set
              (min (strlen it.text) (wrapSize (s.text.length - 1))) 0 })
      else Flow.ret (undef s)

/-- The switch on `ksym` of dmenu.c:556-680. -/
def mainSwitch (cfg : Config) (env : Env) (ev : XKeyEvent) (ksym : KeySym) (st : Nat)
    (s : State) : Flow :=
  match ksym with
  | KeySym.Delete => keyDelete cfg env s
  | KeySym.KP_Delete => keyDelete cfg env s
  | KeySym.BackSpace => keyBackSpace cfg env s
  | KeySym.End => keyEnd env s
  | KeySym.KP_End => keyEnd env s
  | KeySym.Escape => Flow.ret { s with status := Status.exited 1 }
  | KeySym.Home => keyHome env s
  | KeySym.KP_Home => keyHome env s
  | KeySym.Left => keyLeft env s
  | KeySym.KP_Left => keyLeft env s
  | KeySym.Up => keyUp env s
  | KeySym.KP_Up => keyUp env s
  | KeySym.Next => keyNext env s
  | KeySym.KP_Next => keyNext env s
  | KeySym.Prior => keyPrior env s
  | KeySym.KP_Prior => keyPrior env s
  | KeySym.Return => keyReturn cfg st s
  | KeySym.KP_Enter => keyReturn cfg st s
  | KeySym.Right => keyRight env s
  | KeySym.KP_Right => keyRight env s
  | KeySym.Down => keyDown env s
  | KeySym.KP_Down => keyDown env s
  | KeySym.Tab => keyTab cfg env s
  | _ => keyInsert cfg env ev s

/-- The end of `keypress` for each way of leaving its switches. -/
def finish (cfg : Config) (env : Env) (fl : Flow) : State :=
  match fl with
  | Flow.cont _ _ s => s
  | Flow.draw s => draw cfg env s
  | Flow.ret s => s

/-- The switches of dmenu.c:477-680, entered with a key symbol. -/
def dispatch (cfg : Config) (env : Env) (ev : XKeyEvent) (s : State) : Flow :=
  if ev.state &&& ControlMask ≠ 0 then
    match ctrlSwitch cfg env ev.ksym ev.state s with
    | Flow.cont ksym st s1 =>
      if s1.status ≠ Status.running then Flow.ret s1 else mainSwitch cfg env ev ksym st s1
    | fl => fl
  else if ev.state &&& Mod1Mask ≠ 0 then
    match mod1Switch ev.ksym ev.state s with
    | Flow.cont ksym st s1 => mainSwitch cfg env ev ksym st s1
    | fl => fl
  else mainSwitch cfg env ev ev.ksym ev.state s

/-- Function `keypress`. A process that has ended handles no key. -/
def keypress (cfg : Config) (env : Env) (ev : XKeyEvent) (s : State) : State :=
  if s.status ≠ Status.running then s
  else
    match ev.status with
    | LookupStatus.XLookupChars => finish cfg env (keyInsert cfg env ev s)
    | LookupStatus.XLookupKeySym | LookupStatus.XLookupBoth =>
      if s.using_vi_mode then env.vi_keypress ev.ksym ev s
      else if cfg.vi_mode = true ∧ ev.ksym = cfg.global_esc_ksym ∧
          ev.state &&& cfg.global_esc_state = cfg.global_esc_state then
        if s.cursor ≠ 0 then
          match nextrune s (-1) with
          | none => undef s
          | some r => draw cfg env { s with using_vi_mode := true, cursor := r }
        else draw cfg env { s with using_vi_mode := true }
      else finish cfg env (dispatch cfg env ev s)
    | _ => s

/-! ## The comparison of the configuration, in terms of lists -/

/-- The case folding under which the configured comparison works: none with
`-s`, lower-casing otherwise. -/
def fold (cfg : Config) (c : Nat) : Nat := if cfg.case_sensitive then c else tolower c

/-- The token occurs in the text as a run of consecutive bytes. -/
def occursIn (cfg : Config) (tok t : List Nat) : Prop :=
  (tok.map (fold cfg)) <:+: ((cstr t).map (fold cfg))

/-- The text starts with the token. -/
def startsWith (cfg : Config) (tok t : List Nat) : Prop :=
  (tok.map (fold cfg)) <+: ((cstr t).map (fold cfg))

/-- The text of the item is the whole query. -/
def sameText (cfg : Config) (q t : List Nat) : Prop :=
  (cstr q).map (fold cfg) = (cstr t).map (fold cfg)

instance (cfg : Config) (tok t : List Nat) : Decidable (occursIn cfg tok t) := by
  unfold occursIn; infer_instance

instance (cfg : Config) (tok t : List Nat) : Decidable (startsWith cfg tok t) := by
  unfold startsWith; infer_instance

instance (cfg : Config) (q t : List Nat) : Decidable (sameText cfg q t) := by
  unfold sameText; infer_instance

/-! ## Selections of items by a property -/

/-- The indices, counted from `i`, of the items that have the property `P`, in
the order of the array. -/
def pickFrom (P : item → Bool) : List item → Nat → List Nat
  | [], _ => []
  | it :: rest, i => if P it then i :: pickFrom P rest (i + 1) else pickFrom P rest (i + 1)

/-- The indices of the items that have the property `P`, in the order of the array. -/
def pick (P : item → Bool) (items : List item) : List Nat := pickFrom P items 0

/-- The item is not skipped by the `continue` of dmenu.c:350. -/
def keeps (cfg : Config) (tv : List (List Nat)) (it : item) : Bool :=
  allTokens cfg tv it || dynamicOn cfg

/-- The item is appended to `matches` inside the loop. -/
def toExact (cfg : Config) (text : List Nat) (tv : List (List Nat)) (it : item) : Bool :=
  !cfg.sortmatches ||
    decide (tv.length = 0 ∨ fstrncmp cfg text it.text (strlen text + 1) = 0)

/-- The item passes the test of dmenu.c:357. -/
def toPre (cfg : Config) (tv : List (List Nat)) (it : item) : Bool :=
  decide (fstrncmp cfg (tv.headD []) it.text (strlen (tv.headD [])) = 0)

/-! ## The buckets in the words of the specification -/

/-- Every token of the query occurs in the text of the item. -/
def hasAllTokens (cfg : Config) (text : List Nat) (it : item) : Prop :=
  ∀ tok ∈ tokv text, occursIn cfg tok it.text

/-- The item takes part in the ranking: it has all the tokens, or a dynamic
command is configured, in which case no item is dropped. -/
def Kept (cfg : Config) (text : List Nat) (it : item) : Prop :=
  hasAllTokens cfg text it ∨ dynamicOn cfg = true

/-- The top bucket: the text is the whole query, or the query has no token. -/
def ExactBucket (cfg : Config) (text : List Nat) (it : item) : Prop :=
  tokv text = [] ∨ sameText cfg text it.text

/-- The second bucket: not in the first, and the text starts with the first token. -/
def PrefixBucket (cfg : Config) (text : List Nat) (it : item) : Prop :=
  ¬ ExactBucket cfg text it ∧ startsWith cfg ((tokv text).headD []) it.text

/-- The third bucket: what is in neither of the first two. -/
def SubstringBucket (cfg : Config) (text : List Nat) (it : item) : Prop :=
  ¬ ExactBucket cfg text it ∧ ¬ startsWith cfg ((tokv text).headD []) it.text

instance (cfg : Config) (text : List Nat) (it : item) : Decidable (hasAllTokens cfg text it) := by
  unfold hasAllTokens; infer_instance

instance (cfg : Config) (text : List Nat) (it : item) : Decidable (Kept cfg text it) := by
  unfold Kept; infer_instance

instance (cfg : Config) (text : List Nat) (it : item) : Decidable (ExactBucket cfg text it) := by
  unfold ExactBucket; infer_instance

instance (cfg : Config) (text : List Nat) (it : item) : Decidable (PrefixBucket cfg text it) := by
  unfold PrefixBucket; infer_instance

instance (cfg : Config) (text : List Nat) (it : item) :
    Decidable (SubstringBucket cfg text it) := by
  unfold SubstringBucket; infer_instance

/-! ## Paging in the words of the specification -/

/-- The accumulated cost of the first `j` items of a list. -/
def spent (f : Nat → Int) (l : List Nat) (j : Nat) : Int := ((l.take j).map f).sum

/-- The navigation commands of the specification. -/
inductive NavCmd where
  | up
  | down
  | pageUp
  | pageDown
  | home
  | toEnd
  deriving DecidableEq, Repr

/-- The key of a navigation command. -/
def navKey : NavCmd → KeySym
  | NavCmd.up => KeySym.Up
  | NavCmd.down => KeySym.Down
  | NavCmd.pageUp => KeySym.Prior
  | NavCmd.pageDown => KeySym.Next
  | NavCmd.home => KeySym.Home
  | NavCmd.toEnd => KeySym.End

/-- Every single item fits the budget, and the budget is small enough for the
sums of `calcoffsets` to stay inside `int`. -/
def Fits (env : Env) (s : State) : Prop :=
  budget env s < 1073741824 ∧ ∀ m ∈ s.matches_, cost env s m ≤ budget env s

/-- The pointers `next` and `prev` are the ones `calcoffsets` computes for the
anchor at position `c`. -/
def AnchoredAt (env : Env) (s : State) (c : Nat) : Prop :=
  c < s.matches_.length ∧
  s.next = nextLoop (cost env s) (budget env s) (s.matches_.drop c) 0 c ∧
  s.prev = some (prevLoop (cost env s) (budget env s) (s.matches_.take c).reverse 0 c)

/-- The selection lies in the visible window: at or behind `curr`, before `next`. -/
def Visible (s : State) : Prop :=
  ∃ c p, s.curr = some c ∧ s.sel = some p ∧ c ≤ p ∧ p < s.matches_.length ∧
    ∀ q, s.next = some q → p < q

/-- The state invariant of navigation outside vi mode. -/
def Paged (env : Env) (s : State) : Prop :=
  s.using_vi_mode = false ∧ Fits env s ∧
  (s.matches_ ≠ [] → (∃ c, s.curr = some c ∧ AnchoredAt env s c) ∧ Visible s)

/-- The state with which a part of `keypress` is left. -/
def flowState : Flow → State
  | Flow.cont _ _ s => s
  | Flow.draw s => s
  | Flow.ret s => s

/-- Two states show the same page of the same list: they agree on everything
that `calcoffsets` and the navigation keys read, but for the budget. -/
def SamePage (s t : State) : Prop :=
  t.using_vi_mode = s.using_vi_mode ∧ t.lines = s.lines ∧ t.items = s.items ∧
  t.inputw = s.inputw ∧ t.matches_ = s.matches_ ∧ t.curr = s.curr ∧ t.next = s.next ∧
  t.prev = s.prev ∧ t.sel = s.sel

/-! ## Example data -/

/-- The bytes of a string literal. -/
def str (s : String) : List Nat := s.toList.map Char.toNat

/-- An item read from a line without a tab. -/
def plainItem (s : String) : item := { text := str s, stext := str s, out := false }

/-- A configuration for the classed matcher: `-F`, everything else as in config.h. -/
def exCfg : Config :=
  { fuzzy := false, case_sensitive := false, dynamic := none, instant := false,
    sortmatches := true, reject_no_match := false, restrict_return := false,
    incremental := false, vi_mode := true, global_esc_ksym := KeySym.n,
    global_esc_state := Mod1Mask }

/-- An environment with a fixed-width font of 8 pixels and a dynamic command that
prints nothing. -/
def exEnv : Env :=
  { popen := fun _ => []
    fuzzymatch := fun s => s
    drw_fontset_getwidth := fun x => 8 * strlen x
    drw_fontset_getwidth_clamp := fun x n => min (8 * strlen x) n
    drw_font_getexts := fun x => 8 * strlen x
    bh := 20
    mw := 400
    promptw := 0
    lrpad := 10
    vi_keypress := fun _ _ s => s
    recalculatenumbers := fun s => s.numbers }

/-- A session with the given query in a buffer of 16 bytes, the cursor at its
end, and the given items; nothing is matched or written yet. -/
def exState (query : String) (its : List item) : State :=
  { text := str query ++ List.replicate (16 - (str query).length) 0
    cursor := (str query).length
    items := its
    matches_ := []
    prev := none
    curr := none
    next := none
    sel := none
    inputw := 0
    lines := 0
    numbers := []
    using_vi_mode := false
    stdout := []
    status := Status.running }

/-- A key press that `XmbLookupString` reports as a key symbol without text. -/
def keyEv (ksym : KeySym) (mods : Nat) : XKeyEvent :=
  { state := mods, status := LookupStatus.XLookupKeySym, ksym := ksym, buf := [], len := 0 }

/-- A key press that yields the text `c`. -/
def charEv (c : String) : XKeyEvent :=
  { state := 0, status := LookupStatus.XLookupBoth, ksym := KeySym.other 0, buf := str c,
    len := (str c).length }

/-- The configuration `exCfg` with `-R`. -/
def exCfgReject : Config := { exCfg with reject_no_match := true }

/-- The session after start-up with `-R`, an empty query and the items apple and
banana: both match, the first is selected. -/
def exStarted : State :=
  match_ exCfgReject exEnv (exState "" [plainItem "apple", plainItem "banana"])

/-- The session after start-up with an empty query and the items apple and
banana: both match, apple is selected. -/
def exSelected : State :=
  match_ exCfg exEnv (exState "" [plainItem "apple", plainItem "banana"])

/-- The session with the query "xyz" over the items apple and banana: nothing
matches and nothing is selected. -/
def exNoMatch : State :=
  match_ exCfg exEnv (exState "xyz" [plainItem "apple", plainItem "banana"])

/-- The session with the query "#foo" over the items apple and banana: nothing
matches and nothing is selected. -/
def exPipe : State :=
  match_ exCfg exEnv (exState "#foo" [plainItem "apple", plainItem "banana"])

/-- The configuration `exCfg` with `-S`. -/
def exCfgUnsorted : Config := { exCfg with sortmatches := false }

/-- The environment `exEnv` with a dynamic command that prints the line "x". -/
def exEnvLine : Env := { exEnv with popen := fun _ => [str "x"] }

/-- A key press for which the input method delivers composed text. -/
def composedEv (bytes : List Nat) : XKeyEvent :=
  { state := 0, status := LookupStatus.XLookupChars, ksym := KeySym.other 0, buf := bytes,
    len := bytes.length }

/-- The session `exSelected` started in vi mode (`-vi` with `start_mode = 1`):
the query is empty and the cursor is 0. -/
def exViStart : State := { exSelected with using_vi_mode := true }

/-- The session after a sequence of navigation commands, each a key press
without modifiers. -/
def navigate (cfg : Config) (env : Env) (cmds : List NavCmd) (s : State) : State :=
  cmds.foldl (fun st k => keypress cfg env (keyEv (navKey k) 0) st) s

/-- The session with three items in a vertical list of two lines. -/
def exLines : State :=
  match_ exCfg exEnv
    { exState "" [plainItem "apple", plainItem "apply", plainItem "banana"] with lines := 2 }

/-- The environment `exEnv` with a counter that shows the number of matches and
the number of items, one decimal digit each, as in "2/3". -/
def exEnvCount : Env :=
  { exEnv with
    recalculatenumbers := fun s => [48 + s.matches_.length % 10, 47, 48 + s.items.length % 10] }

/-- The session `exLines` under the counter of `exEnvCount`. -/
def exLinesCount : State :=
  match_ exCfg exEnvCount
    { exState "" [plainItem "apple", plainItem "apply", plainItem "banana"] with lines := 2 }

/-- The environment `exEnvCount` with a menu of 170 pixels. -/
def exEnvRow : Env := { exEnvCount with mw := 170 }

/-- The session with three items in a horizontal list of 170 pixels, after a
`drawmenu` has set the counter to "3/3": the budget is 100, apple and apply cost
50 each and banana 58. -/
def exRow : State :=
  match_ exCfg exEnvRow
    { exState "" [plainItem "apple", plainItem "apply", plainItem "banana"] with
      numbers := str "3/3" }

/-- The environment `exEnvCount` with a prompt of 200 pixels in a menu of 100
pixels: the budget of a horizontal list is negative. -/
def exEnvNoRoom : Env := { exEnvCount with mw := 100, promptw := 200 }

/-- The session after start-up under `exEnvNoRoom` with an empty query and the
items apple and banana: both match, and no item fits the budget. -/
def exNoRoom : State :=
  match_ exCfg exEnvNoRoom (exState "" [plainItem "apple", plainItem "banana"])

/-- The session with `-R` and the query "#foo" over the items "#foo" and
"#foo | dmenu": both match, the first is selected. -/
def exPipeList : State :=
  match_ exCfgReject exEnv (exState "#foo" [plainItem "#foo", plainItem "#foo | dmenu"])

/-- The session `exPipeList` after Return with Control and Shift: the query has
been written and " | dmenu" appended to it in the buffer, with no `match`. -/
def exStale : State :=
  keypress exCfgReject exEnv (keyEv KeySym.Return (ShiftMask ||| ControlMask)) exPipeList

/-- The item read from the line "apple<TAB>fruit". -/
def exTabItem : item := mkItem (str "apple" ++ 9 :: str "fruit")

/-! # Theorems -/

/-! ## Facts about the C library model -/

theorem tolower_eq_zero {c : Nat} (h : tolower c = 0) : c = 0 := by
  unfold tolower at h
  split at h <;> omega

theorem tolower_zero : tolower 0 = 0 := rfl

theorem cstr_cons_of_ne {c : Nat} (cs : List Nat) (h : c ≠ 0) : cstr (c :: cs) = c :: cstr cs := by
  simp [cstr, List.takeWhile_cons, h]

theorem mem_cstr_ne_zero {buf : List Nat} {c : Nat} (h : c ∈ cstr buf) : c ≠ 0 := by
  have := List.mem_takeWhile_imp h
  simpa using this

theorem cstr_of_no_zero {l : List Nat} (h : ∀ c ∈ l, c ≠ 0) : cstr l = l := by
  unfold cstr
  rw [List.takeWhile_eq_self_iff]
  intro c hc
  simpa using h c hc

/-- A buffer either holds the empty string or starts with a byte other than NUL. -/
theorem cstr_view (a : List Nat) :
    (peek a = 0 ∧ cstr a = []) ∨ ∃ x a1, a = x :: a1 ∧ x ≠ 0 := by
  cases a with
  | nil => left; simp [peek, cstr]
  | cons x a1 =>
    by_cases hx : x = 0
    · left; simp [peek, cstr, hx]
    · right; exact ⟨x, a1, rfl, hx⟩

/-- The result of `strncasecmp` is zero exactly when the first `n` bytes of the
two strings agree after lower-casing. -/
theorem strncasecmp_eq_zero_iff : ∀ (n : Nat) (a b : List Nat),
    strncasecmp a b n = 0 ↔
      ((cstr a).take n).map tolower = ((cstr b).take n).map tolower := by
  intro n
  induction n with
  | zero => intro a b; simp [strncasecmp]
  | succ n ih =>
    intro a b
    unfold strncasecmp
    rcases cstr_view a with ⟨ha, hca⟩ | ⟨x, a1, rfl, hx⟩ <;>
      rcases cstr_view b with ⟨hb, hcb⟩ | ⟨y, b1, rfl, hy⟩
    · simp [ha, hb, hca, hcb, tolower_zero]
    · have hty : tolower y ≠ 0 := fun e => hy (tolower_eq_zero e)
      have hp : peek (y :: b1) = y := rfl
      rw [ha, hp, tolower_zero, hca, cstr_cons_of_ne _ hy, if_pos (Ne.symm hty)]
      simp
      omega
    · have htx : tolower x ≠ 0 := fun e => hx (tolower_eq_zero e)
      have hp : peek (x :: a1) = x := rfl
      rw [hb, hp, tolower_zero, hcb, cstr_cons_of_ne _ hx, if_pos htx]
      simp
      omega
    · have htx : tolower x ≠ 0 := fun e => hx (tolower_eq_zero e)
      have hp : peek (x :: a1) = x := rfl
      have hq : peek (y :: b1) = y := rfl
      rw [hp, hq, cstr_cons_of_ne _ hx, cstr_cons_of_ne _ hy]
      by_cases hxy : tolower x = tolower y
      · rw [if_neg (not_not.mpr hxy), if_neg htx]
        simp [hxy, ih a1 b1]
      · rw [if_pos hxy]
        simp [hxy]
        omega

/-- The result of `strncmp` is zero exactly when the first `n` bytes of the two
strings agree. -/
theorem strncmp_eq_zero_iff : ∀ (n : Nat) (a b : List Nat),
    strncmp a b n = 0 ↔ (cstr a).take n = (cstr b).take n := by
  intro n
  induction n with
  | zero => intro a b; simp [strncmp]
  | succ n ih =>
    intro a b
    unfold strncmp
    rcases cstr_view a with ⟨ha, hca⟩ | ⟨x, a1, rfl, hx⟩ <;>
      rcases cstr_view b with ⟨hb, hcb⟩ | ⟨y, b1, rfl, hy⟩
    · simp [ha, hb, hca, hcb]
    · have hp : peek (y :: b1) = y := rfl
      rw [ha, hp, hca, cstr_cons_of_ne _ hy, if_pos (Ne.symm hy)]
      simp
      omega
    · have hp : peek (x :: a1) = x := rfl
      rw [hb, hp, hcb, cstr_cons_of_ne _ hx, if_pos hx]
      simp
      omega
    · have hp : peek (x :: a1) = x := rfl
      have hq : peek (y :: b1) = y := rfl
      rw [hp, hq, cstr_cons_of_ne _ hx, cstr_cons_of_ne _ hy]
      by_cases hxy : x = y
      · rw [if_neg (not_not.mpr hxy), if_neg hx]
        simp [hxy, ih a1 b1]
      · rw [if_pos hxy]
        simp [hxy]
        omega

theorem fstrncmp_eq_zero_iff (cfg : Config) (n : Nat) (a b : List Nat) :
    fstrncmp cfg a b n = 0 ↔
      ((cstr a).take n).map (fold cfg) = ((cstr b).take n).map (fold cfg) := by
  unfold fstrncmp
  cases h : cfg.case_sensitive
  · have : fold cfg = tolower := by funext c; simp [fold, h]
    simp [this, strncasecmp_eq_zero_iff]
  · have : fold cfg = fun c => c := by funext c; simp [fold, h]
    simp [this, strncmp_eq_zero_iff]

/-- The test `!fstrncmp(tok, item->text, strlen(tok))`: the text starts with the token. -/
theorem fstrncmp_pre_iff (cfg : Config) (tok t : List Nat) (htok : ∀ c ∈ tok, c ≠ 0) :
    fstrncmp cfg tok t (strlen tok) = 0 ↔ startsWith cfg tok t := by
  rw [fstrncmp_eq_zero_iff]
  unfold startsWith strlen
  rw [cstr_of_no_zero htok, List.take_length, List.prefix_iff_eq_take, List.length_map,
    List.map_take]

/-- The test `!fstrncmp(text, item->text, strlen(text) + 1)`: the text of the item
is the whole query. -/
theorem fstrncmp_whole_iff (cfg : Config) (q t : List Nat) :
    fstrncmp cfg q t (strlen q + 1) = 0 ↔ sameText cfg q t := by
  rw [fstrncmp_eq_zero_iff]
  unfold sameText strlen
  rw [List.take_of_length_le (Nat.le_succ _)]
  constructor
  · intro h
    have hl := congrArg List.length h
    simp only [List.length_map, List.length_take] at hl
    have : (cstr t).length ≤ (cstr q).length + 1 := by omega
    rw [List.take_of_length_le this] at h
    exact h
  · intro h
    have hl := congrArg List.length h
    simp only [List.length_map] at hl
    rw [List.take_of_length_le (by omega)]
    exact h

/-- The scan finds a place exactly when the (non-empty) token occurs in the string. -/
theorem scanFrom_isSome_iff (cmp : List Nat → List Nat → Nat → Int) (sub : List Nat) (len : Nat)
    (f : Nat → Nat) (L : List Nat) (hL : L ≠ [])
    (hcmp : ∀ a, cmp a sub len = 0 ↔ L <+: (cstr a).map f) :
    ∀ (s : List Nat) (i : Nat), (scanFrom cmp sub len s i).isSome = true ↔
      L <:+: (cstr s).map f := by
  intro s
  induction s with
  | nil =>
    intro i
    simp [scanFrom, cstr, hL]
  | cons c cs ih =>
    intro i
    unfold scanFrom
    by_cases hc : c = 0
    · simp [hc, cstr, hL]
    · rw [if_neg hc, cstr_cons_of_ne _ hc, List.map_cons, List.infix_cons_iff]
      by_cases h0 : cmp (c :: cs) sub len = 0
      · rw [if_pos h0]
        have := (hcmp _).mp h0
        rw [cstr_cons_of_ne _ hc, List.map_cons] at this
        simp [this]
      · rw [if_neg h0, ih (i + 1)]
        have := (not_congr (hcmp (c :: cs))).mp h0
        rw [cstr_cons_of_ne _ hc, List.map_cons] at this
        simp [this]

/-- A non-`NULL` result of `fstrstr` on a token: the token occurs in the text. -/
theorem fstrstr_isSome_iff (cfg : Config) (s tok : List Nat) (hne : tok ≠ [])
    (htok : ∀ c ∈ tok, c ≠ 0) :
    (fstrstr cfg s tok).isSome = true ↔ occursIn cfg tok s := by
  have hlen : strlen tok ≠ 0 := by
    unfold strlen
    rw [cstr_of_no_zero htok]
    exact fun e => hne (List.length_eq_zero.mp e)
  have key : (scanFrom (fstrncmp cfg) tok (strlen tok) s 0).isSome = true ↔
      occursIn cfg tok s :=
    scanFrom_isSome_iff (fstrncmp cfg) tok (strlen tok) (fold cfg) (tok.map (fold cfg))
      (by simpa using hne)
      (fun a => by
        have h1 := fstrncmp_pre_iff cfg tok a htok
        unfold startsWith at h1
        rw [← h1, fstrncmp_eq_zero_iff, fstrncmp_eq_zero_iff]
        exact eq_comm) s 0
  unfold fstrstr
  unfold fstrncmp at key
  cases h : cfg.case_sensitive
  · simpa [h, cistrstr] using key
  · simpa [h, strstr, hlen] using key

/-- An occurrence under the configured comparison is an occurrence ignoring case. -/
theorem occursIn_ignoring_case {cfg : Config} {tok t : List Nat} (h : occursIn cfg tok t) :
    (tok.map tolower) <:+: ((cstr t).map tolower) := by
  unfold occursIn at h
  cases hc : cfg.case_sensitive
  · have : fold cfg = tolower := by funext c; simp [fold, hc]
    rwa [this] at h
  · have : fold cfg = fun c => c := by funext c; simp [fold, hc]
    rw [this] at h
    simp only [List.map_id'] at h
    obtain ⟨u, v, huv⟩ := h
    exact ⟨u.map tolower, v.map tolower, by rw [← huv]; simp⟩

/-! ## Facts about the tokens -/

theorem strtok_mem {s tok rest : List Nat} {d : Nat} (h : strtok s d = some (tok, rest)) :
    (∀ c ∈ tok, c ∈ s) ∧ (∀ c ∈ rest, c ∈ s) ∧ tok ≠ [] ∧ rest.length < s.length := by
  unfold strtok at h
  simp only at h
  split at h
  · simp at h
  · rename_i hne
    simp only [Option.some.injEq, Prod.mk.injEq] at h
    obtain ⟨h1, h2⟩ := h
    have hd : ∀ c ∈ s.dropWhile (fun c => decide (c = d)), c ∈ s :=
      fun c hc => (List.dropWhile_sublist _).subset hc
    refine ⟨?_, ?_, ?_, ?_⟩
    · intro c hc
      rw [← h1] at hc
      exact hd c ((List.takeWhile_sublist _).subset hc)
    · intro c hc
      rw [← h2] at hc
      exact hd c ((List.dropWhile_sublist _).subset (List.mem_of_mem_drop hc))
    · rw [← h1]
      cases hs : s.dropWhile (fun c => decide (c = d)) with
      | nil => exact absurd hs hne
      | cons x xs =>
        have hx : ¬ (decide (x = d) = true) := by
          have := List.head_dropWhile_not (fun c => decide (c = d)) s (by rw [hs]; simp)
          simpa [hs] using this
        simp only [decide_eq_true_eq] at hx
        simp [List.takeWhile_cons, hx]
    · rw [← h2]
      have l1 : (s.dropWhile (fun c => decide (c = d))).length ≤ s.length :=
        (List.dropWhile_sublist _).length_le
      have l2 : ((s.dropWhile (fun c => decide (c = d))).dropWhile
          (fun c => decide (c ≠ d))).length ≤ (s.dropWhile (fun c => decide (c = d))).length :=
        (List.dropWhile_sublist _).length_le
      have l3 : 0 < (s.dropWhile (fun c => decide (c = d))).length :=
        List.length_pos.mpr hne
      by_cases hz : ((s.dropWhile (fun c => decide (c = d))).dropWhile
          (fun c => decide (c ≠ d))).length = 0
      · simp only [List.length_drop]; omega
      · simp only [List.length_drop]; omega

theorem tokenize_mem : ∀ (fuel : Nat) (s : List Nat), ∀ tok ∈ tokenize fuel s, ∀ c ∈ tok, c ∈ s := by
  intro fuel
  induction fuel with
  | zero => intro s tok h; simp [tokenize] at h
  | succ fuel ih =>
    intro s tok h c hc
    unfold tokenize at h
    cases hs : strtok s 32 with
    | none => simp [hs] at h
    | some p =>
      obtain ⟨t, rest⟩ := p
      simp only [hs, List.mem_cons] at h
      have hm := strtok_mem hs
      rcases h with h | h
      · subst h; exact hm.1 c hc
      · exact hm.2.1 c (ih rest tok h c hc)

theorem tokenize_fuel_irrel : ∀ (f1 f2 : Nat) (s : List Nat), s.length < f1 → s.length < f2 →
    tokenize f1 s = tokenize f2 s := by
  intro f1
  induction f1 with
  | zero => intro f2 s h; omega
  | succ f1 ih =>
    intro f2 s h1 h2
    cases f2 with
    | zero => omega
    | succ f2 =>
      unfold tokenize
      cases hs : strtok s 32 with
      | none => rfl
      | some p =>
        obtain ⟨t, rest⟩ := p
        have hm := (strtok_mem hs).2.2.2
        simp only
        rw [ih f2 rest (by omega) (by omega)]

/-- More fuel than the string is long changes nothing: the loop has ended
before the fuel of `tokv` runs out. -/
theorem tokenize_fuel (fuel : Nat) (s : List Nat) (h : s.length < fuel) :
    tokenize fuel s = tokenize (s.length + 1) s :=
  tokenize_fuel_irrel fuel (s.length + 1) s h (by omega)

theorem tokv_no_zero {text tok : List Nat} (h : tok ∈ tokv text) : ∀ c ∈ tok, c ≠ 0 :=
  fun c hc => mem_cstr_ne_zero (tokenize_mem _ _ tok h c hc)

theorem tokv_of_empty {text : List Nat} (h : cstr text = []) : tokv text = [] := by
  unfold tokv
  rw [h]
  rfl

theorem tokenize_ne_nil : ∀ (fuel : Nat) (s : List Nat), ∀ tok ∈ tokenize fuel s, tok ≠ [] := by
  intro fuel
  induction fuel with
  | zero => intro s tok h; simp [tokenize] at h
  | succ fuel ih =>
    intro s tok h
    unfold tokenize at h
    cases hs : strtok s 32 with
    | none => simp [hs] at h
    | some p =>
      obtain ⟨t, rest⟩ := p
      simp only [hs, List.mem_cons] at h
      rcases h with h | h
      · subst h; exact (strtok_mem hs).2.2.1
      · exact ih rest tok h

theorem tokv_ne_nil {text tok : List Nat} (h : tok ∈ tokv text) : tok ≠ [] :=
  tokenize_ne_nil _ _ tok h

theorem pickFrom_cons (P : item → Bool) (it : item) (rest : List item) (i : Nat) :
    pickFrom P (it :: rest) i =
      if P it then i :: pickFrom P rest (i + 1) else pickFrom P rest (i + 1) := rfl

theorem mem_pickFrom (P : item → Bool) : ∀ (items : List item) (i m : Nat),
    m ∈ pickFrom P items i ↔ i ≤ m ∧ ∃ it, items.get? (m - i) = some it ∧ P it = true := by
  intro items
  induction items with
  | nil => intro i m; simp [pickFrom]
  | cons it rest ih =>
    intro i m
    unfold pickFrom
    have step : ∀ x : item, (i + 1 ≤ m ∧ rest.get? (m - (i + 1)) = some x) ↔
        (i ≤ m ∧ m ≠ i ∧ (it :: rest).get? (m - i) = some x) := by
      intro x
      constructor
      · rintro ⟨h1, h2⟩
        refine ⟨by omega, by omega, ?_⟩
        have : m - i = (m - (i + 1)) + 1 := by omega
        rw [this]; simpa using h2
      · rintro ⟨h1, h2, h3⟩
        refine ⟨by omega, ?_⟩
        have : m - i = (m - (i + 1)) + 1 := by omega
        rw [this] at h3; simpa using h3
    by_cases hP : P it = true
    · rw [if_pos hP, List.mem_cons, ih]
      constructor
      · rintro (h | ⟨h1, x, h2, h3⟩)
        · subst h; exact ⟨le_refl _, it, by simp, hP⟩
        · have := (step x).mp ⟨h1, h2⟩
          exact ⟨this.1, x, this.2.2, h3⟩
      · rintro ⟨h1, x, h2, h3⟩
        by_cases hm : m = i
        · left; exact hm
        · right
          have := (step x).mpr ⟨h1, hm, h2⟩
          exact ⟨this.1, x, this.2, h3⟩
    · rw [if_neg hP, ih]
      constructor
      · rintro ⟨h1, x, h2, h3⟩
        have := (step x).mp ⟨h1, h2⟩
        exact ⟨this.1, x, this.2.2, h3⟩
      · rintro ⟨h1, x, h2, h3⟩
        by_cases hm : m = i
        · subst hm
          simp at h2
          subst h2
          exact absurd h3 hP
        · have := (step x).mpr ⟨h1, hm, h2⟩
          exact ⟨this.1, x, this.2, h3⟩

/-- An index is picked exactly when it is the index of an item with the property. -/
theorem mem_pick (P : item → Bool) (items : List item) (m : Nat) :
    m ∈ pick P items ↔ ∃ it, items.get? m = some it ∧ P it = true := by
  unfold pick
  rw [mem_pickFrom]
  simp

theorem pickFrom_sorted (P : item → Bool) : ∀ (items : List item) (i : Nat),
    (pickFrom P items i).Pairwise (fun a b => a < b) := by
  intro items
  induction items with
  | nil => intro i; simp [pickFrom]
  | cons it rest ih =>
    intro i
    unfold pickFrom
    split
    · rw [List.pairwise_cons]
      refine ⟨?_, ih (i + 1)⟩
      intro b hb
      have := ((mem_pickFrom P rest (i + 1) b).mp hb).1
      omega
    · exact ih (i + 1)

/-- The picked indices come in the order of the array. -/
theorem pick_sorted (P : item → Bool) (items : List item) :
    (pick P items).Pairwise (fun a b => a < b) := pickFrom_sorted P items 0

theorem pickFrom_congr {P Q : item → Bool} : ∀ (items : List item) (i : Nat),
    (∀ it ∈ items, P it = Q it) → pickFrom P items i = pickFrom Q items i := by
  intro items
  induction items with
  | nil => intro i _; rfl
  | cons it rest ih =>
    intro i h
    unfold pickFrom
    rw [h it (List.mem_cons_self _ _), ih (i + 1) (fun x hx => h x (List.mem_cons_of_mem _ hx))]

theorem pickFrom_all : ∀ (items : List item) (i : Nat),
    pickFrom (fun _ => true) items i = List.range' i items.length := by
  intro items
  induction items with
  | nil => intro i; rfl
  | cons it rest ih =>
    intro i
    simp [pickFrom, ih (i + 1), List.range'_succ]

theorem pickFrom_none : ∀ (items : List item) (i : Nat),
    pickFrom (fun _ => false) items i = [] := by
  intro items
  induction items with
  | nil => intro i; rfl
  | cons it rest ih =>
    intro i
    simp [pickFrom, ih (i + 1)]

/-- Splitting a selection by a second property gives a rearrangement of it. -/
theorem pickFrom_split_perm (P Q : item → Bool) : ∀ (items : List item) (i : Nat),
    (pickFrom (fun it => P it && Q it) items i ++ pickFrom (fun it => P it && !Q it) items i).Perm
      (pickFrom P items i) := by
  intro items
  induction items with
  | nil => intro i; simp [pickFrom]
  | cons it rest ih =>
    intro i
    unfold pickFrom
    cases hP : P it <;> cases hQ : Q it <;> simp
    · exact ih (i + 1)
    · exact ih (i + 1)
    · exact List.perm_middle.trans ((ih (i + 1)).cons i)
    · exact ih (i + 1)

/-! ## What the loop of `match` computes -/

theorem matchLoop_eq (cfg : Config) (text : List Nat) (tv : List (List Nat)) :
    ∀ (items : List item) (i : Nat) (b : Buckets),
    matchLoop cfg text tv items i b =
      { exact := b.exact ++
          pickFrom (fun it => keeps cfg tv it && toExact cfg text tv it) items i
        lpre := b.lpre ++
          pickFrom (fun it => (keeps cfg tv it && !toExact cfg text tv it) && toPre cfg tv it)
            items i
        lsub := b.lsub ++
          pickFrom (fun it => (keeps cfg tv it && !toExact cfg text tv it) && !toPre cfg tv it)
            items i } := by
  intro items
  induction items with
  | nil => intro i b; simp [matchLoop, pickFrom]
  | cons it rest ih =>
    intro i b
    unfold matchLoop
    rw [ih]
    unfold matchStep
    simp only [pickFrom_cons]
    cases hk : keeps cfg tv it
    · have hk2 : (!allTokens cfg tv it && !dynamicOn cfg) = true := by
        unfold keeps at hk
        revert hk
        cases allTokens cfg tv it <;> cases dynamicOn cfg <;> simp
      simp [hk2]
    · have hk2 : (!allTokens cfg tv it && !dynamicOn cfg) = false := by
        unfold keeps at hk
        revert hk
        cases allTokens cfg tv it <;> cases dynamicOn cfg <;> simp
      simp only [hk2, Bool.false_eq_true, if_false, Bool.true_and]
      cases hs : cfg.sortmatches
      · have hE : toExact cfg text tv it = true := by simp [toExact, hs]
        simp only [hE, Bool.not_true, Bool.false_and, Bool.false_eq_true, if_false, if_true,
          Bool.not_false]
        simp [appenditem]
      · simp only [Bool.not_true, Bool.false_eq_true, if_false]
        by_cases he : tv.length = 0 ∨ fstrncmp cfg text it.text (strlen text + 1) = 0
        · have hE : toExact cfg text tv it = true := by
            unfold toExact; rw [hs]; simpa using he
          rw [if_pos he]
          simp only [hE, Bool.not_true, Bool.false_and, Bool.false_eq_true, if_false, if_true]
          simp [appenditem]
        · have hE : toExact cfg text tv it = false := by
            unfold toExact; rw [hs]; simpa using he
          rw [if_neg he]
          by_cases hp : fstrncmp cfg (tv.headD []) it.text (strlen (tv.headD [])) = 0
          · have hP : toPre cfg tv it = true := by unfold toPre; simpa using hp
            rw [if_pos hp]
            simp only [hE, hP, Bool.not_true, Bool.not_false, Bool.true_and, Bool.and_false,
              Bool.false_eq_true, if_false, if_true]
            simp [appenditem]
          · have hP : toPre cfg tv it = false := by unfold toPre; simpa using hp
            rw [if_neg hp]
            simp only [hE, hP, Bool.not_true, Bool.not_false, Bool.true_and, Bool.and_false,
              Bool.and_true, Bool.false_eq_true, if_false, if_true]
            simp [appenditem]

theorem splice_eq (ms l : List Nat) : splice ms l = ms ++ l := by
  unfold splice
  by_cases hl : l = []
  · simp [hl]
  · by_cases hm : ms = []
    · simp [hl, hm]
    · simp [hl, hm]

theorem classed_eq (cfg : Config) (text : List Nat) (items : List item) :
    classed cfg text items =
      pick (fun it => keeps cfg (tokv text) it && toExact cfg text (tokv text) it) items ++
      pick (fun it => (keeps cfg (tokv text) it && !toExact cfg text (tokv text) it)
        && toPre cfg (tokv text) it) items ++
      pick (fun it => (keeps cfg (tokv text) it && !toExact cfg text (tokv text) it)
        && !toPre cfg (tokv text) it) items := by
  unfold classed buckets
  rw [matchLoop_eq]
  simp [splice_eq, pick]

/-! ## The state after `match` -/

theorem calcoffsets_fields (env : Env) (s : State) :
    (calcoffsets env s).text = s.text ∧ (calcoffsets env s).cursor = s.cursor ∧
    (calcoffsets env s).items = s.items ∧ (calcoffsets env s).matches_ = s.matches_ ∧
    (calcoffsets env s).curr = s.curr ∧ (calcoffsets env s).sel = s.sel ∧
    (calcoffsets env s).stdout = s.stdout ∧ (calcoffsets env s).status = s.status := by
  unfold calcoffsets
  cases s.curr <;> simp

theorem refreshed_off (cfg : Config) (env : Env) (s : State) (hd : dynamicOn cfg = false) :
    refreshed cfg env s = s := by
  simp [refreshed, hd]

/-- In classed mode `match` leaves the query, the cursor and the items as they are
after the refresh, and the list of matches is the one the loop builds from them. -/
theorem match__fields (cfg : Config) (env : Env) (s : State) (hf : cfg.fuzzy = false) :
    (match_ cfg env s).text = (refreshed cfg env s).text ∧
    (match_ cfg env s).cursor = (refreshed cfg env s).cursor ∧
    (match_ cfg env s).items = (refreshed cfg env s).items ∧
    (match_ cfg env s).matches_ =
      classed cfg (refreshed cfg env s).text (refreshed cfg env s).items ∧
    (match_ cfg env s).sel =
      headPos (classed cfg (refreshed cfg env s).text (refreshed cfg env s).items) ∧
    (match_ cfg env s).curr =
      headPos (classed cfg (refreshed cfg env s).text (refreshed cfg env s).items) := by
  unfold match_
  simp only [hf, Bool.false_eq_true, if_false]
  split
  · simp
  · simp [calcoffsets_fields]

theorem cstr_set_zero (l : List Nat) : cstr (l.set 0 0) = [] := by
  cases l <;> simp [cstr]

theorem refreshed_empty_query (cfg : Config) (env : Env) (s : State) (h : cstr s.text = []) :
    cstr (refreshed cfg env s).text = [] := by
  unfold refreshed
  split
  · unfold refreshoptions readstream
    split
    · exact h
    · split
      · exact h
      · exact cstr_set_zero _
  · exact h

theorem allTokens_iff (cfg : Config) (text : List Nat) (it : item) :
    allTokens cfg (tokv text) it = true ↔ hasAllTokens cfg text it := by
  unfold allTokens hasAllTokens
  rw [List.all_eq_true]
  constructor
  · intro h tok ht
    exact (fstrstr_isSome_iff cfg it.text tok (tokv_ne_nil ht) (tokv_no_zero ht)).mp (h tok ht)
  · intro h tok ht
    exact (fstrstr_isSome_iff cfg it.text tok (tokv_ne_nil ht) (tokv_no_zero ht)).mpr (h tok ht)

theorem keeps_iff (cfg : Config) (text : List Nat) (it : item) :
    keeps cfg (tokv text) it = true ↔ Kept cfg text it := by
  unfold keeps Kept
  rw [Bool.or_eq_true, allTokens_iff]

theorem toExact_iff (cfg : Config) (text : List Nat) (it : item) (hs : cfg.sortmatches = true) :
    toExact cfg text (tokv text) it = true ↔ ExactBucket cfg text it := by
  unfold toExact ExactBucket
  simp [hs, fstrncmp_whole_iff]

theorem toPre_iff (cfg : Config) (text : List Nat) (it : item) (hne : tokv text ≠ []) :
    toPre cfg (tokv text) it = true ↔ startsWith cfg ((tokv text).headD []) it.text := by
  unfold toPre
  have hmem : (tokv text).headD [] ∈ tokv text := by
    cases h : tokv text with
    | nil => exact absurd h hne
    | cons a l => simp
  rw [decide_eq_true_eq]
  exact fstrncmp_pre_iff cfg _ it.text (tokv_no_zero hmem)

theorem bool_eq_decide {b : Bool} {P : Prop} [Decidable P] (h : b = true ↔ P) : b = decide P := by
  cases b
  · have : ¬ P := fun hp => absurd (h.mpr hp) (by simp)
    simp [this]
  · have : P := h.mp rfl
    simp [this]

/-- With bucketing on, the list that `match` builds is the three buckets of the
specification, one after the other, each in the order of the input. -/
theorem classed_spec (cfg : Config) (text : List Nat) (items : List item)
    (hs : cfg.sortmatches = true) :
    classed cfg text items =
      pick (fun it => decide (Kept cfg text it ∧ ExactBucket cfg text it)) items ++
      pick (fun it => decide (Kept cfg text it ∧ PrefixBucket cfg text it)) items ++
      pick (fun it => decide (Kept cfg text it ∧ SubstringBucket cfg text it)) items := by
  rw [classed_eq]
  have hpre : ∀ it, ¬ ExactBucket cfg text it →
      (toPre cfg (tokv text) it = true ↔ startsWith cfg ((tokv text).headD []) it.text) := by
    intro it hne
    exact toPre_iff cfg text it (fun e => hne (Or.inl e))
  have e1 : ∀ it ∈ items, (keeps cfg (tokv text) it && toExact cfg text (tokv text) it) =
      decide (Kept cfg text it ∧ ExactBucket cfg text it) := by
    intro it _
    apply bool_eq_decide
    rw [Bool.and_eq_true, keeps_iff, toExact_iff cfg text it hs]
  have e2 : ∀ it ∈ items,
      ((keeps cfg (tokv text) it && !toExact cfg text (tokv text) it)
        && toPre cfg (tokv text) it) =
      decide (Kept cfg text it ∧ PrefixBucket cfg text it) := by
    intro it _
    apply bool_eq_decide
    unfold PrefixBucket
    rw [Bool.and_eq_true, Bool.and_eq_true, keeps_iff, Bool.not_eq_true', ← Bool.not_eq_true,
      toExact_iff cfg text it hs]
    constructor
    · rintro ⟨⟨a, b⟩, c⟩
      exact ⟨a, b, (hpre it b).mp c⟩
    · rintro ⟨a, b, c⟩
      exact ⟨⟨a, b⟩, (hpre it b).mpr c⟩
  have e3 : ∀ it ∈ items,
      ((keeps cfg (tokv text) it && !toExact cfg text (tokv text) it)
        && !toPre cfg (tokv text) it) =
      decide (Kept cfg text it ∧ SubstringBucket cfg text it) := by
    intro it _
    apply bool_eq_decide
    unfold SubstringBucket
    rw [Bool.and_eq_true, Bool.and_eq_true, keeps_iff, Bool.not_eq_true', ← Bool.not_eq_true,
      Bool.not_eq_true', ← Bool.not_eq_true, toExact_iff cfg text it hs]
    constructor
    · rintro ⟨⟨a, b⟩, c⟩
      exact ⟨a, b, fun h => c ((hpre it b).mpr h)⟩
    · rintro ⟨a, b, c⟩
      exact ⟨⟨a, b⟩, fun h => c ((hpre it b).mp h)⟩
  unfold pick
  rw [pickFrom_congr items 0 e1, pickFrom_congr items 0 e2, pickFrom_congr items 0 e3]

/-- The list that `match` builds is a rearrangement of the kept items. -/
theorem classed_perm (cfg : Config) (text : List Nat) (items : List item) :
    (classed cfg text items).Perm (pick (keeps cfg (tokv text)) items) := by
  rw [classed_eq, List.append_assoc]
  unfold pick
  refine List.Perm.trans ?_ (pickFrom_split_perm (keeps cfg (tokv text))
    (toExact cfg text (tokv text)) items 0)
  exact List.Perm.append_left _ (pickFrom_split_perm _ (toPre cfg (tokv text)) items 0)

theorem mem_classed (cfg : Config) (text : List Nat) (items : List item) (m : Nat) :
    m ∈ classed cfg text items ↔ ∃ it, items.get? m = some it ∧ Kept cfg text it := by
  rw [(classed_perm cfg text items).mem_iff, mem_pick]
  simp only [keeps_iff]

theorem classed_nodup (cfg : Config) (text : List Nat) (items : List item) :
    (classed cfg text items).Nodup := by
  rw [(classed_perm cfg text items).nodup_iff]
  exact (pick_sorted _ items).imp (fun h => Nat.ne_of_lt h)

/-- Without query tokens every item lands in `matches`, in input order, and the
other two lists stay empty. -/
theorem buckets_no_tokens (cfg : Config) (text : List Nat) (items : List item)
    (h : tokv text = []) :
    buckets cfg text items = { exact := List.range items.length, lpre := [], lsub := [] } := by
  unfold buckets
  rw [matchLoop_eq, h]
  have e1 : ∀ it ∈ items, (keeps cfg [] it && toExact cfg text [] it) = (fun _ => true) it := by
    intro it _; simp [keeps, allTokens, toExact]
  have e2 : ∀ it ∈ items, ((keeps cfg [] it && !toExact cfg text [] it) && toPre cfg [] it)
      = (fun _ => false) it := by
    intro it _; simp [toExact]
  have e3 : ∀ it ∈ items, ((keeps cfg [] it && !toExact cfg text [] it) && !toPre cfg [] it)
      = (fun _ => false) it := by
    intro it _; simp [toExact]
  rw [pickFrom_congr items 0 e1, pickFrom_congr items 0 e2, pickFrom_congr items 0 e3,
    pickFrom_all, pickFrom_none, List.range_eq_range']
  simp

theorem classed_no_tokens (cfg : Config) (text : List Nat) (items : List item)
    (h : tokv text = []) : classed cfg text items = List.range items.length := by
  unfold classed
  rw [buckets_no_tokens cfg text items h]
  simp [splice_eq]

/-! ## The claims about the classed matcher -/

/-- C1 (amended). In classed mode with no dynamic command configured, for every
candidate list and every query, every entry of the list that `match` builds is
the index of a candidate whose text contains every space-separated token of the
query as a case-insensitive substring, and with it every part of such a token
(a token delimited by other white space is such a part). -/
theorem match_entries_contain_tokens (cfg : Config) (env : Env) (s : State)
    (hf : cfg.fuzzy = false) (hd : dynamicOn cfg = false) :
    ∀ m ∈ (match_ cfg env s).matches_, m < s.items.length ∧
      ∀ tok ∈ tokv s.text, ∀ w, w <:+: tok →
        (w.map tolower) <:+: ((cstr (itemText s.items m)).map tolower) := by
  intro m hm
  rw [(match__fields cfg env s hf).2.2.2.1, refreshed_off cfg env s hd, mem_classed] at hm
  obtain ⟨it, hit, hk⟩ := hm
  have hlt : m < s.items.length := by
    rw [List.get?_eq_some] at hit
    exact hit.1
  refine ⟨hlt, ?_⟩
  intro tok htok w hw
  have hall : hasAllTokens cfg s.text it := by
    rcases hk with h | h
    · exact h
    · rw [hd] at h; exact absurd h (by simp)
  have : itemText s.items m = it.text := by unfold itemText; rw [hit]
  rw [this]
  obtain ⟨u, v, huv⟩ := hw
  have hwm : (w.map tolower) <:+: (tok.map tolower) :=
    ⟨u.map tolower, v.map tolower, by rw [← huv]; simp⟩
  exact hwm.trans (occursIn_ignoring_case (hall tok htok))

/-- C1, an instance: query "app" over apple, apply and banana. -/
theorem match_entries_contain_tokens_witness :
    exCfg.fuzzy = false ∧ dynamicOn exCfg = false ∧
    ∀ m ∈ (match_ exCfg exEnv (exState "app"
        [plainItem "apple", plainItem "apply", plainItem "banana"])).matches_,
      m < (exState "app" [plainItem "apple", plainItem "apply", plainItem "banana"]).items.length ∧
      ∀ tok ∈ tokv (exState "app"
          [plainItem "apple", plainItem "apply", plainItem "banana"]).text,
        ∀ w, w <:+: tok →
        (w.map tolower) <:+: ((cstr (itemText (exState "app"
          [plainItem "apple", plainItem "apply", plainItem "banana"]).items m)).map tolower) :=
  ⟨rfl, rfl, match_entries_contain_tokens exCfg exEnv _ rfl rfl⟩

/-- C1 as stated fails when a dynamic command is configured (`-dy`): with the
query "xyz", the item "apple" and a command that prints nothing, `match` keeps
"apple" (dmenu.c:349 skips the `continue`), which does not contain "xyz". -/
theorem match_dynamic_keeps_nonmatching :
    (match_ { exCfg with dynamic := some (str "true") } exEnv
      (exState "xyz" [plainItem "apple"])).matches_ = [0] ∧
    tokv (exState "xyz" [plainItem "apple"]).text = [str "xyz"] ∧
    itemText (exState "xyz" [plainItem "apple"]).items 0 = str "apple" ∧
    ¬ (((str "xyz").map tolower) <:+: ((cstr (str "apple")).map tolower)) := by
  decide

/-- C2 (amended). In classed mode with bucketing on, for every query and candidate
list, the list that `match` builds is the top bucket, then the Prefix bucket, then
the Substring bucket, each holding its entries in input order (`pick`). The top
bucket holds the kept candidates whose text is the whole query under the
configured comparison, and every kept candidate when the query has no token; the
Prefix bucket the other kept candidates whose text starts with the first token;
the Substring bucket the remaining kept candidates. With the default comparison
and no dynamic command, apple, apply, banana and the query "app" give apple, apply. -/
theorem match_bucket_order (cfg : Config) (env : Env) (s : State)
    (hf : cfg.fuzzy = false) (hs : cfg.sortmatches = true) :
    (match_ cfg env s).matches_ =
      pick (fun it => decide (Kept cfg (match_ cfg env s).text it ∧
          ExactBucket cfg (match_ cfg env s).text it)) (match_ cfg env s).items ++
      pick (fun it => decide (Kept cfg (match_ cfg env s).text it ∧
          PrefixBucket cfg (match_ cfg env s).text it)) (match_ cfg env s).items ++
      pick (fun it => decide (Kept cfg (match_ cfg env s).text it ∧
          SubstringBucket cfg (match_ cfg env s).text it)) (match_ cfg env s).items ∧
    (dynamicOn cfg = false →
      (match_ cfg env s).text = s.text ∧ (match_ cfg env s).items = s.items) ∧
    (match_ exCfg exEnv (exState "app"
      [plainItem "apple", plainItem "apply", plainItem "banana"])).matches_ = [0, 1] := by
  obtain ⟨h1, _, h3, h4, _⟩ := match__fields cfg env s hf
  refine ⟨?_, ?_, by decide⟩
  · rw [h4, h1, h3]
    exact classed_spec cfg _ _ hs
  · intro hd
    rw [h1, h3, refreshed_off cfg env s hd]
    exact ⟨rfl, rfl⟩

/-- C2, an instance: the query "b" over abc, bcd, B, xb, b and Bb. -/
theorem match_bucket_order_witness :
    exCfg.fuzzy = false ∧ exCfg.sortmatches = true ∧
    (match_ exCfg exEnv (exState "b" [plainItem "abc", plainItem "bcd", plainItem "B",
      plainItem "xb", plainItem "b", plainItem "Bb"])).matches_ = [2, 4] ++ [1, 5] ++ [0, 3] := by
  refine ⟨rfl, rfl, ?_⟩
  rw [(match_bucket_order exCfg exEnv _ rfl rfl).1]
  decide

/-- C2 as stated fails in three ways. A query of one space has no token, and
every item goes to the top bucket in input order: "a" comes before " ", although
only " " equals the query. With a dynamic command that prints nothing, the query
"app" keeps banana. With `-s` the comparison is case-sensitive: for the query
"ab a" the item "ab A", equal to the query when case is ignored, is ranked as a
prefix match behind "ab ax". -/
theorem match_ranking_exceptions :
    ((match_ exCfg exEnv (exState " " [plainItem "a", plainItem " "])).matches_ = [0, 1] ∧
      (cstr (exState " " []).text).map tolower = (cstr (str " ")).map tolower ∧
      (cstr (exState " " []).text).map tolower ≠ (cstr (str "a")).map tolower) ∧
    (match_ { exCfg with dynamic := some (str "true") } exEnv (exState "app"
      [plainItem "apple", plainItem "apply", plainItem "banana"])).matches_ = [0, 1, 2] ∧
    ((match_ { exCfg with case_sensitive := true } exEnv
        (exState "ab a" [plainItem "ab ax", plainItem "ab A"])).matches_ = [0, 1] ∧
      (cstr (exState "ab a" []).text).map tolower = (cstr (str "ab A")).map tolower ∧
      (cstr (exState "ab a" []).text).map tolower ≠ (cstr (str "ab ax")).map tolower) := by
  decide

/-- C3. In classed mode, for every query and candidate list, the list that `match`
builds has no duplicates, each of its entries is the index of a candidate, and
every candidate whose text contains all the tokens of the query occurs in it
exactly once. The candidates are those of the call: without a dynamic command
`match` changes neither the query nor the items. -/
theorem match_selection_nodup (cfg : Config) (env : Env) (s : State) (hf : cfg.fuzzy = false) :
    (match_ cfg env s).matches_.Nodup ∧
    (∀ m ∈ (match_ cfg env s).matches_, m < (match_ cfg env s).items.length) ∧
    (∀ m it, (match_ cfg env s).items.get? m = some it →
      hasAllTokens cfg (match_ cfg env s).text it → (match_ cfg env s).matches_.count m = 1) ∧
    (dynamicOn cfg = false →
      (match_ cfg env s).text = s.text ∧ (match_ cfg env s).items = s.items) := by
  obtain ⟨h1, _, h3, h4, _⟩ := match__fields cfg env s hf
  rw [h4, h1, h3]
  refine ⟨classed_nodup cfg _ _, ?_, ?_, ?_⟩
  · intro m hm
    obtain ⟨it, hit, _⟩ := (mem_classed cfg _ _ m).mp hm
    rw [List.get?_eq_some] at hit
    exact hit.1
  · intro m it hit hall
    exact List.count_eq_one_of_mem (classed_nodup cfg _ _)
      ((mem_classed cfg _ _ m).mpr ⟨it, hit, Or.inl hall⟩)
  · intro hd
    rw [refreshed_off cfg env s hd]
    exact ⟨rfl, rfl⟩

/-- C3, an instance: the query "app" over apple, apply and banana. -/
theorem match_selection_nodup_witness :
    exCfg.fuzzy = false ∧
    (match_ exCfg exEnv (exState "app"
      [plainItem "apple", plainItem "apply", plainItem "banana"])).matches_.Nodup :=
  ⟨rfl, (match_selection_nodup exCfg exEnv _ rfl).1⟩

/-- C4. In classed mode, for the empty query and every candidate list, the list
that `match` builds is all the candidates in input order, with bucketing on or
off: every candidate is appended to `matches` in the loop, none to the Prefix or
Substring list. -/
theorem match_empty_query (cfg : Config) (env : Env) (s : State) (hf : cfg.fuzzy = false)
    (hq : cstr s.text = []) :
    (match_ cfg env s).matches_ = List.range (match_ cfg env s).items.length ∧
    buckets cfg (match_ cfg env s).text (match_ cfg env s).items =
      { exact := List.range (match_ cfg env s).items.length, lpre := [], lsub := [] } ∧
    (dynamicOn cfg = false → (match_ cfg env s).items = s.items) := by
  obtain ⟨h1, _, h3, h4, _⟩ := match__fields cfg env s hf
  have ht := tokv_of_empty (refreshed_empty_query cfg env s hq)
  rw [h4, h3, h1]
  refine ⟨classed_no_tokens cfg _ _ ht, buckets_no_tokens cfg _ _ ht, ?_⟩
  intro hd
  rw [refreshed_off cfg env s hd]

/-- C4, an instance: the empty query over apple, apply and banana. -/
theorem match_empty_query_witness :
    exCfg.fuzzy = false ∧
    cstr (exState "" [plainItem "apple", plainItem "apply", plainItem "banana"]).text = [] ∧
    (match_ exCfg exEnv (exState ""
      [plainItem "apple", plainItem "apply", plainItem "banana"])).matches_ = [0, 1, 2] :=
  ⟨rfl, by decide, (match_empty_query exCfg exEnv _ rfl (by decide)).1⟩

/-! ## Instant accept and the rejection of edits without a match -/

theorem refreshed_stdout_status (cfg : Config) (env : Env) (s : State) :
    (refreshed cfg env s).stdout = s.stdout ∧ (refreshed cfg env s).status = s.status := by
  unfold refreshed
  split
  · unfold refreshoptions readstream
    split
    · exact ⟨rfl, rfl⟩
    · split <;> exact ⟨rfl, rfl⟩
  · exact ⟨rfl, rfl⟩

/-- In classed mode `match` ends the process only through the instant accept. -/
theorem match__status (cfg : Config) (env : Env) (s : State) (hf : cfg.fuzzy = false) :
    (match_ cfg env s).status = s.status ∨ (match_ cfg env s).status = Status.exited 0 := by
  unfold match_
  simp only [hf, Bool.false_eq_true, if_false]
  split
  · right; rfl
  · left
    rw [(calcoffsets_fields env _).2.2.2.2.2.2.2]
    exact (refreshed_stdout_status cfg env s).2

/-- Without a match, or without instant accept, `match` returns. -/
theorem match__returns (cfg : Config) (env : Env) (s : State) (hf : cfg.fuzzy = false)
    (h : cfg.instant = false ∨
      classed cfg (refreshed cfg env s).text (refreshed cfg env s).items = []) :
    (match_ cfg env s).status = s.status ∧ (match_ cfg env s).stdout = s.stdout := by
  unfold match_
  simp only [hf, Bool.false_eq_true, if_false]
  have hno : ¬ (cfg.instant = true ∧
      classed cfg (refreshed cfg env s).text (refreshed cfg env s).items ≠ [] ∧
      (classed cfg (refreshed cfg env s).text (refreshed cfg env s).items).length = 1 ∧
      (buckets cfg (refreshed cfg env s).text (refreshed cfg env s).items).lsub = []) := by
    rintro ⟨h1, h2, _, _⟩
    rcases h with h | h
    · rw [h] at h1; exact absurd h1 (by simp)
    · exact h2 h
  rw [if_neg hno]
  rw [(calcoffsets_fields env _).2.2.2.2.2.2.2, (calcoffsets_fields env _).2.2.2.2.2.2.1]
  exact ⟨(refreshed_stdout_status cfg env s).2, (refreshed_stdout_status cfg env s).1⟩

theorem wrapSize_add_sub (c : Nat) (n : Int) (hc : c < 18446744073709551616) :
    wrapSize ((wrapSize ((c : Int) + n) : Int) - n) = c := by
  unfold wrapSize
  omega

theorem cutAt_no_zero (c : Nat) (buf : List Nat) : ∀ b ∈ cutAt c buf, b ≠ 0 := by
  intro b hb
  unfold cutAt at hb
  exact mem_cstr_ne_zero ((List.takeWhile_sublist _).subset hb)

/-- An item as the readers make it of a line: the text is a C string, and the
displayed text `stext` is the text cut at its first tab, so the two are equal
exactly when the text holds no tab. -/
theorem mkItem_stext (line : List Nat) :
    cstr (mkItem line).text = (mkItem line).text ∧
    (mkItem line).stext = (mkItem line).text.takeWhile (fun b => b ≠ 9) ∧
    ((mkItem line).text = (mkItem line).stext ↔ 9 ∉ (mkItem line).text) := by
  have hc : cstr (cutAt 10 line) = cutAt 10 line := cstr_of_no_zero (cutAt_no_zero 10 line)
  have hs : (mkItem line).stext = (mkItem line).text.takeWhile (fun b => b ≠ 9) := by
    show cutAt 9 (cutAt 10 line) = (cutAt 10 line).takeWhile (fun b => b ≠ 9)
    unfold cutAt
    rw [cstr_of_no_zero (fun b hb => mem_cstr_ne_zero ((List.takeWhile_sublist _).subset hb))]
  refine ⟨hc, hs, ?_⟩
  rw [hs]
  constructor
  · intro h h9
    have := (List.takeWhile_eq_self_iff.mp h.symm) 9 h9
    simp at this
  · intro h
    symm
    rw [List.takeWhile_eq_self_iff]
    intro b hb
    have : b ≠ 9 := fun e => h (e ▸ hb)
    simpa using this

/-- C10 (amended). With instant accept enabled in classed mode, whenever the list
that `match` builds has exactly one entry and the Substring list is empty,
`match` writes the text of that entry, `item->text`, and ends the process with
exit code 0. For an entry read from a line, the text written is the whole line;
it is the displayed text `item->stext` exactly when the line holds no tab. -/
theorem match_instant_accept (cfg : Config) (env : Env) (s : State)
    (hf : cfg.fuzzy = false) (hi : cfg.instant = true)
    (h1 : (match_ cfg env s).matches_.length = 1)
    (h2 : (buckets cfg (match_ cfg env s).text (match_ cfg env s).items).lsub = []) :
    (match_ cfg env s).status = Status.exited 0 ∧
    (match_ cfg env s).stdout = s.stdout ++
      [cstr (itemText (match_ cfg env s).items ((match_ cfg env s).matches_.headD 0))] ∧
    (∀ line, (match_ cfg env s).items.get? ((match_ cfg env s).matches_.headD 0) =
        some (mkItem line) →
      cstr (itemText (match_ cfg env s).items ((match_ cfg env s).matches_.headD 0)) =
        (mkItem line).text ∧
      ((mkItem line).text = (mkItem line).stext ↔ 9 ∉ (mkItem line).text)) := by
  have hline : ∀ line, (match_ cfg env s).items.get? ((match_ cfg env s).matches_.headD 0) =
        some (mkItem line) →
      cstr (itemText (match_ cfg env s).items ((match_ cfg env s).matches_.headD 0)) =
        (mkItem line).text ∧
      ((mkItem line).text = (mkItem line).stext ↔ 9 ∉ (mkItem line).text) := by
    intro line hl
    unfold itemText
    rw [hl]
    exact ⟨(mkItem_stext line).1, (mkItem_stext line).2.2⟩
  have hmain : (match_ cfg env s).status = Status.exited 0 ∧
      (match_ cfg env s).stdout = s.stdout ++
        [cstr (itemText (match_ cfg env s).items ((match_ cfg env s).matches_.headD 0))] := by
    clear hline
    obtain ⟨ht, _, hit, hm, _⟩ := match__fields cfg env s hf
    rw [hm] at h1
    rw [ht, hit] at h2
    rw [hit, hm]
    have hne : classed cfg (refreshed cfg env s).text (refreshed cfg env s).items ≠ [] := by
      intro e
      rw [e] at h1
      exact absurd h1 (by simp)
    unfold match_
    simp only [hf, Bool.false_eq_true, if_false]
    rw [if_pos ⟨hi, hne, h1, h2⟩]
    exact ⟨rfl, by simp [(refreshed_stdout_status cfg env s).1]⟩
  exact ⟨hmain.1, hmain.2, hline⟩

/-- C10, an instance: with `-n`, the query "apple" over the lines apple and
apply; the line written, "apple", holds no tab and is the displayed text. -/
theorem match_instant_accept_witness :
    (match_ { exCfg with instant := true } exEnv
      (exState "apple" [mkItem (str "apple"), mkItem (str "apply")])).matches_.length = 1 ∧
    (match_ { exCfg with instant := true } exEnv
      (exState "apple" [mkItem (str "apple"), mkItem (str "apply")])).status = Status.exited 0 ∧
    (match_ { exCfg with instant := true } exEnv
      (exState "apple" [mkItem (str "apple"), mkItem (str "apply")])).stdout = [str "apple"] ∧
    (mkItem (str "apple")).stext = str "apple" ∧
    (∀ line, (match_ { exCfg with instant := true } exEnv
      (exState "apple" [mkItem (str "apple"), mkItem (str "apply")])).items.get?
        ((match_ { exCfg with instant := true } exEnv
      (exState "apple" [mkItem (str "apple"), mkItem (str "apply")])).matches_.headD 0) = some (mkItem line) →
      cstr (itemText (match_ { exCfg with instant := true } exEnv
      (exState "apple" [mkItem (str "apple"), mkItem (str "apply")])).items
        ((match_ { exCfg with instant := true } exEnv
      (exState "apple" [mkItem (str "apple"), mkItem (str "apply")])).matches_.headD 0)) = (mkItem line).text ∧
      ((mkItem line).text = (mkItem line).stext ↔ 9 ∉ (mkItem line).text)) :=
  ⟨by decide,
   (match_instant_accept { exCfg with instant := true } exEnv
     (exState "apple" [mkItem (str "apple"), mkItem (str "apply")]) rfl rfl (by decide)
     (by decide)).1,
   by decide, by decide,
   (match_instant_accept { exCfg with instant := true } exEnv
     (exState "apple" [mkItem (str "apple"), mkItem (str "apply")]) rfl rfl (by decide)
     (by decide)).2.2⟩

/-- C10 as stated fails: with `-n`, the query "app" over the lines
"apple<TAB>fruit" and "banana" leaves the first line as the only match; its
displayed text is "apple", and what `match` writes before it ends the process
with code 0 is the whole line, "apple<TAB>fruit". -/
theorem match_instant_writes_whole_line :
    exTabItem.stext = str "apple" ∧ exTabItem.text = str "apple" ++ 9 :: str "fruit" ∧
    (match_ { exCfg with instant := true } exEnv
      (exState "app" [exTabItem, plainItem "banana"])).matches_ = [0] ∧
    (buckets { exCfg with instant := true } (match_ { exCfg with instant := true } exEnv
      (exState "app" [exTabItem, plainItem "banana"])).text
      (match_ { exCfg with instant := true } exEnv
      (exState "app" [exTabItem, plainItem "banana"])).items).lsub = [] ∧
    (match_ { exCfg with instant := true } exEnv
      (exState "app" [exTabItem, plainItem "banana"])).status = Status.exited 0 ∧
    (match_ { exCfg with instant := true } exEnv
      (exState "app" [exTabItem, plainItem "banana"])).stdout = [str "apple" ++ 9 :: str "fruit"] := by
  decide

/-- The state after the first `match` of `insert`, when the edited query matches
nothing: the edit is in place, the list is empty and the process runs on. -/
theorem insert_first_match (cfg : Config) (env : Env) (s : State) (t : List Nat) (c : Nat)
    (hf : cfg.fuzzy = false) (hd : dynamicOn cfg = false)
    (hzero : classed cfg t s.items = []) :
    (match_ cfg env { s with text := t, cursor := c }).matches_ = [] ∧
    (match_ cfg env { s with text := t, cursor := c }).status = s.status ∧
    (match_ cfg env { s with text := t, cursor := c }).cursor = c ∧
    (match_ cfg env { s with text := t, cursor := c }).items = s.items ∧
    (match_ cfg env { s with text := t, cursor := c }).stdout = s.stdout := by
  obtain ⟨_, h2, h3, h4, _⟩ := match__fields cfg env { s with text := t, cursor := c } hf
  rw [refreshed_off cfg env _ hd] at h2 h3 h4
  have hr := match__returns cfg env { s with text := t, cursor := c } hf
    (Or.inr (by rw [refreshed_off cfg env _ hd]; exact hzero))
  exact ⟨h4.trans hzero, hr.1, h2, h3, hr.2⟩

/-- With reject-no-match, an edit inside the buffer whose query matches nothing
ends in a second `match` on the saved text and the old cursor. -/
theorem insert_reject_eq (cfg : Config) (env : Env) (s : State) (str : List Nat) (n : Int)
    (hf : cfg.fuzzy = false) (hd : dynamicOn cfg = false) (hr : cfg.reject_no_match = true)
    (hrun : s.status = Status.running) (hc : s.cursor < 18446744073709551616)
    (hzero : classed cfg (edited s str n) s.items = [])
    (hg : ¬ wrapSize (strlen s.text + n) > wrapSize (s.text.length - 1))
    (hb : insertInBounds s str n) :
    insert cfg env str n s =
      match_ cfg env
        { (match_ cfg env { s with text := edited s str n, cursor := wrapSize (s.cursor + n) })
          with text := s.text, cursor := s.cursor } := by
  obtain ⟨m1, m2, m3, _, _⟩ :=
    insert_first_match cfg env s (edited s str n) (wrapSize (s.cursor + n)) hf hd hzero
  unfold insert
  rw [if_neg hg, if_neg (not_not.mpr hb)]
  simp only
  rw [if_neg (not_not.mpr (m2.trans hrun)), if_pos ⟨m1, hr⟩, m3, wrapSize_add_sub _ _ hc]

/-- C8 (amended). With reject-no-match enabled, in classed mode and without a
dynamic command, for every query, cursor and edit passed to `insert` from a
running session: if the edited query has no match, then when `insert` is over
without undefined behaviour the query buffer and the cursor are what they were
before the edit. The list of matches is the list from before the edit when the
edit does not fit the buffer (`insert` returns at once), and otherwise the list
that `match` builds for the restored query; that is the list from before the
edit whenever that list was the one `match` builds for the query before the
edit. Without instant accept the session runs on. -/
theorem insert_reject_restores (cfg : Config) (env : Env) (s : State) (str : List Nat) (n : Int)
    (hf : cfg.fuzzy = false) (hd : dynamicOn cfg = false) (hr : cfg.reject_no_match = true)
    (hrun : s.status = Status.running)
    (hc : s.cursor < 18446744073709551616)
    (hzero : classed cfg (edited s str n) s.items = [])
    (hret : (insert cfg env str n s).status ≠ Status.undefined) :
    (insert cfg env str n s).text = s.text ∧
    (insert cfg env str n s).cursor = s.cursor ∧
    (insert cfg env str n s).matches_ =
      (if wrapSize (strlen s.text + n) > wrapSize (s.text.length - 1) then s.matches_
        else classed cfg s.text s.items) ∧
    (s.matches_ = classed cfg s.text s.items → (insert cfg env str n s).matches_ = s.matches_) ∧
    (cfg.instant = false → (insert cfg env str n s).status = Status.running) := by
  by_cases hg : wrapSize (strlen s.text + n) > wrapSize (s.text.length - 1)
  · have : insert cfg env str n s = s := by unfold insert; rw [if_pos hg]
    rw [this, if_pos hg]
    exact ⟨rfl, rfl, rfl, fun _ => rfl, fun _ => hrun⟩
  · by_cases hb : insertInBounds s str n
    · rw [insert_reject_eq cfg env s str n hf hd hr hrun hc hzero hg hb, if_neg hg]
      obtain ⟨_, m2, _, m4, _⟩ :=
        insert_first_match cfg env s (edited s str n) (wrapSize (s.cursor + n)) hf hd hzero
      obtain ⟨h1, h2, h3, h4, _⟩ := match__fields cfg env
        { (match_ cfg env { s with text := edited s str n, cursor := wrapSize (s.cursor + n) })
          with text := s.text, cursor := s.cursor } hf
      rw [refreshed_off cfg env _ hd] at h1 h2 h3 h4
      have hm := h4.trans (congrArg (classed cfg s.text) m4)
      refine ⟨h1, h2, hm, fun hcons => hm.trans hcons.symm, ?_⟩
      intro hi
      rw [(match__returns cfg env _ hf (Or.inl hi)).1]
      exact m2.trans hrun
    · have : insert cfg env str n s = undef s := by
        unfold insert; rw [if_neg hg, if_pos hb]
      rw [this] at hret
      exact absurd rfl hret

theorem strlen_le_length (buf : List Nat) : strlen buf ≤ buf.length := by
  unfold strlen cstr
  exact (List.takeWhile_sublist _).length_le

/-- In a session whose cursor lies inside the query, an edit that passes the
length test of `insert`, removes no more than the bytes before the cursor and
reads no more than the bytes at `str`, stays inside the buffer. The buffer is an
object of C (shorter than 2^63 bytes) and `n` an `ssize_t`. -/
theorem insertInBounds_of_wellformed (s : State) (str : List Nat) (n : Int)
    (h0 : 0 < s.text.length) (hl : s.text.length < 9223372036854775808)
    (hcur : s.cursor ≤ strlen s.text) (hn : -(s.cursor : Int) ≤ n) (hs : n ≤ str.length)
    (hn2 : n < 9223372036854775808)
    (hg : ¬ wrapSize (strlen s.text + n) > wrapSize (s.text.length - 1)) :
    insertInBounds s str n := by
  have hle := strlen_le_length s.text
  unfold insertInBounds
  unfold wrapSize at hg ⊢
  rcases le_total n 0 with hn0 | hn0
  · rw [max_eq_right hn0]
    refine ⟨?_, ?_, ?_⟩
    · omega
    · omega
    · intro hpos
      omega
  · rw [max_eq_left hn0]
    refine ⟨?_, ?_, ?_⟩
    · omega
    · omega
    · intro hpos
      omega

/-- In classed mode `insert` is over without undefined behaviour whenever the
session is well-formed: it returns, or `match` ends the process with code 0. -/
theorem insert_defined (cfg : Config) (env : Env) (s : State) (str : List Nat) (n : Int)
    (hf : cfg.fuzzy = false) (hrun : s.status = Status.running)
    (h0 : 0 < s.text.length) (hl : s.text.length < 9223372036854775808)
    (hcur : s.cursor ≤ strlen s.text) (hn : -(s.cursor : Int) ≤ n) (hs : n ≤ str.length)
    (hn2 : n < 9223372036854775808) :
    (insert cfg env str n s).status = Status.running ∨
    (insert cfg env str n s).status = Status.exited 0 := by
  unfold insert
  by_cases hg : wrapSize (strlen s.text + n) > wrapSize (s.text.length - 1)
  · rw [if_pos hg]; exact Or.inl hrun
  · rw [if_neg hg,
      if_neg (not_not.mpr (insertInBounds_of_wellformed s str n h0 hl hcur hn hs hn2 hg))]
    simp only
    have h1 := match__status cfg env
      { s with text := edited s str n, cursor := wrapSize (s.cursor + n) } hf
    split
    · rcases h1 with h1 | h1
      · rename_i hne
        exact absurd (h1.trans hrun) hne
      · exact Or.inr h1
    · rename_i hr1
      have hr2 := not_not.mp hr1
      split
      · rcases match__status cfg env
          { (match_ cfg env { s with text := edited s str n, cursor := wrapSize (s.cursor + n) })
            with text := s.text,
                 cursor := wrapSize (((match_ cfg env
                   { s with text := edited s str n,
                            cursor := wrapSize (s.cursor + n) }).cursor : Int) - n) } hf
          with h | h
        · exact Or.inl (h.trans hr2)
        · exact Or.inr h
      · exact Or.inl hr2

/-- C8, an instance: with `-R`, typing "z" when the items are apple and banana;
the list of matches was built by `match` and is the same after the edit. -/
theorem insert_reject_restores_witness :
    exStarted.matches_ = classed exCfgReject exStarted.text exStarted.items ∧
    classed exCfgReject (edited exStarted (str "z") 1) exStarted.items = [] ∧
    (insert exCfgReject exEnv (str "z") 1 exStarted).status ≠ Status.undefined ∧
    (insert exCfgReject exEnv (str "z") 1 exStarted).text = exStarted.text ∧
    (insert exCfgReject exEnv (str "z") 1 exStarted).cursor = exStarted.cursor ∧
    (insert exCfgReject exEnv (str "z") 1 exStarted).matches_ =
      (if wrapSize (strlen exStarted.text + 1) > wrapSize (exStarted.text.length - 1)
        then exStarted.matches_
        else classed exCfgReject exStarted.text exStarted.items) ∧
    (exStarted.matches_ = classed exCfgReject exStarted.text exStarted.items →
      (insert exCfgReject exEnv (str "z") 1 exStarted).matches_ = exStarted.matches_) ∧
    (exCfgReject.instant = false →
      (insert exCfgReject exEnv (str "z") 1 exStarted).status = Status.running) :=
  ⟨by decide, by decide, by decide,
   insert_reject_restores exCfgReject exEnv exStarted (str "z") 1 rfl rfl rfl (by decide)
     (by decide) (by decide) (by decide)⟩

/-- C8 as stated fails: with `-R`, the query "#foo" over the items "#foo" and
"#foo | dmenu" matches both; Return with Control and Shift writes the query and
leaves " | dmenu" appended to it in the buffer without a call of `match`
(dmenu.c:647-651), so the list is still the one of "#foo". Typing "z" then
matches nothing; the query and the cursor are restored, but the list is built
anew for "#foo | dmenu" and holds the second item only. -/
theorem insert_reject_stale_list :
    exPipeList.matches_ = [0, 1] ∧
    exStale.status = Status.running ∧ cstr exStale.text = str "#foo | dmenu" ∧
    exStale.matches_ = [0, 1] ∧
    classed exCfgReject (edited exStale (str "z") 1) exStale.items = [] ∧
    (keypress exCfgReject exEnv (charEv "z") exStale).status = Status.running ∧
    (keypress exCfgReject exEnv (charEv "z") exStale).text = exStale.text ∧
    (keypress exCfgReject exEnv (charEv "z") exStale).cursor = exStale.cursor ∧
    (keypress exCfgReject exEnv (charEv "z") exStale).matches_ = [1] := by
  decide

/-- C9 (amended). With reject-no-match enabled, in classed mode and without a
dynamic command, an edit that fits the buffer and yields no match restores the
query buffer and the cursor, builds the list of matches anew for the restored
query, and leaves the selection and the page anchor on the first match of that
list (unset when the list is empty), whatever was selected before. The list is
the one from before the edit whenever that one was the list `match` builds for
the query before the edit. -/
theorem insert_reject_selects_first (cfg : Config) (env : Env) (s : State) (str : List Nat)
    (n : Int) (hf : cfg.fuzzy = false) (hd : dynamicOn cfg = false)
    (hr : cfg.reject_no_match = true) (hrun : s.status = Status.running)
    (hc : s.cursor < 18446744073709551616)
    (hzero : classed cfg (edited s str n) s.items = [])
    (hg : ¬ wrapSize (strlen s.text + n) > wrapSize (s.text.length - 1))
    (hb : insertInBounds s str n) :
    (insert cfg env str n s).text = s.text ∧
    (insert cfg env str n s).cursor = s.cursor ∧
    (insert cfg env str n s).matches_ = classed cfg s.text s.items ∧
    (insert cfg env str n s).sel = headPos (classed cfg s.text s.items) ∧
    (insert cfg env str n s).curr = headPos (classed cfg s.text s.items) ∧
    (s.matches_ = classed cfg s.text s.items →
      (insert cfg env str n s).matches_ = s.matches_ ∧
      (insert cfg env str n s).sel = headPos s.matches_ ∧
      (insert cfg env str n s).curr = headPos s.matches_) := by
  rw [insert_reject_eq cfg env s str n hf hd hr hrun hc hzero hg hb]
  obtain ⟨_, _, _, m4, _⟩ :=
    insert_first_match cfg env s (edited s str n) (wrapSize (s.cursor + n)) hf hd hzero
  obtain ⟨h1, h2, h3, h4, h5, h6⟩ := match__fields cfg env
    { (match_ cfg env { s with text := edited s str n, cursor := wrapSize (s.cursor + n) })
      with text := s.text, cursor := s.cursor } hf
  rw [refreshed_off cfg env _ hd] at h1 h2 h3 h4 h5 h6
  have hm : classed cfg s.text
      (match_ cfg env { s with text := edited s str n, cursor := wrapSize (s.cursor + n) }).items
        = classed cfg s.text s.items :=
    congrArg (classed cfg s.text) m4
  have e4 := h4.trans hm
  have e5 := h5.trans (congrArg headPos hm)
  have e6 := h6.trans (congrArg headPos hm)
  refine ⟨h1, h2, e4, e5, e6, fun hcons => ?_⟩
  exact ⟨e4.trans hcons.symm, e5.trans (congrArg headPos hcons.symm),
    e6.trans (congrArg headPos hcons.symm)⟩

/-- C9, an instance: with `-R`, typing "z" when the items are apple and banana. -/
theorem insert_reject_selects_first_witness :
    classed exCfgReject (edited exStarted (str "z") 1) exStarted.items = [] ∧
    insertInBounds exStarted (str "z") 1 ∧
    exStarted.matches_ = classed exCfgReject exStarted.text exStarted.items ∧
    (insert exCfgReject exEnv (str "z") 1 exStarted).text = exStarted.text ∧
    (insert exCfgReject exEnv (str "z") 1 exStarted).cursor = exStarted.cursor ∧
    (insert exCfgReject exEnv (str "z") 1 exStarted).matches_ = classed exCfgReject exStarted.text exStarted.items ∧
    (insert exCfgReject exEnv (str "z") 1 exStarted).sel = headPos (classed exCfgReject exStarted.text exStarted.items) ∧
    (insert exCfgReject exEnv (str "z") 1 exStarted).curr = headPos (classed exCfgReject exStarted.text exStarted.items) ∧
    (exStarted.matches_ = classed exCfgReject exStarted.text exStarted.items →
      (insert exCfgReject exEnv (str "z") 1 exStarted).matches_ = exStarted.matches_ ∧
      (insert exCfgReject exEnv (str "z") 1 exStarted).sel = headPos exStarted.matches_ ∧
      (insert exCfgReject exEnv (str "z") 1 exStarted).curr = headPos exStarted.matches_) :=
  ⟨by decide, by decide, by decide,
   insert_reject_selects_first exCfgReject exEnv exStarted (str "z") 1 rfl rfl rfl (by decide)
     (by decide) (by decide) (by decide) (by decide)⟩

/-- C9 as stated fails: with `-R` and the items apple and banana, the key Down
selects banana; typing "z" then matches nothing, the query, the cursor and the
list of matches are restored, but the selection is back on apple. -/
theorem insert_reject_loses_selection :
    (keypress exCfgReject exEnv (keyEv KeySym.Down 0) exStarted).sel = some 1 ∧
    classed exCfgReject
      (edited (keypress exCfgReject exEnv (keyEv KeySym.Down 0) exStarted) (str "z") 1)
      (keypress exCfgReject exEnv (keyEv KeySym.Down 0) exStarted).items = [] ∧
    (keypress exCfgReject exEnv (charEv "z")
      (keypress exCfgReject exEnv (keyEv KeySym.Down 0) exStarted)).text =
        (keypress exCfgReject exEnv (keyEv KeySym.Down 0) exStarted).text ∧
    (keypress exCfgReject exEnv (charEv "z")
      (keypress exCfgReject exEnv (keyEv KeySym.Down 0) exStarted)).matches_ =
        (keypress exCfgReject exEnv (keyEv KeySym.Down 0) exStarted).matches_ ∧
    (keypress exCfgReject exEnv (charEv "z")
      (keypress exCfgReject exEnv (keyEv KeySym.Down 0) exStarted)).status = Status.running ∧
    (keypress exCfgReject exEnv (charEv "z")
      (keypress exCfgReject exEnv (keyEv KeySym.Down 0) exStarted)).sel = some 0 := by
  decide

/-! ## The Return key -/

theorem cstr_append_zero {l : List Nat} (r : List Nat) (h : ∀ c ∈ l, c ≠ 0) :
    cstr (l ++ 0 :: r) = l := by
  induction l with
  | nil => simp [cstr]
  | cons x xs ih =>
    have hx : x ≠ 0 := h x (List.mem_cons_self _ _)
    rw [List.cons_append, cstr_cons_of_ne _ hx, ih (fun c hc => h c (List.mem_cons_of_mem _ hc))]

/-- The Return key outside vi mode, with Control or without Mod1, reaches the
case `XK_Return` with the modifiers of the event. -/
theorem keypress_return (cfg : Config) (env : Env) (s : State) (mods : Nat)
    (hrun : s.status = Status.running) (hvi : s.using_vi_mode = false)
    (hesc : cfg.global_esc_ksym ≠ KeySym.Return)
    (hmod : mods &&& ControlMask ≠ 0 ∨ mods &&& Mod1Mask = 0) :
    keypress cfg env (keyEv KeySym.Return mods) s =
      finish cfg env (keyReturn cfg mods s) := by
  unfold keypress
  rw [if_neg (not_not.mpr hrun)]
  simp only [keyEv, hvi, Bool.false_eq_true, if_false]
  rw [if_neg (fun h => hesc h.2.1.symm)]
  unfold dispatch
  by_cases hc : mods &&& ControlMask ≠ 0
  · rw [if_pos hc]
    simp only [ctrlSwitch, mainSwitch]
    rw [if_neg (not_not.mpr hrun)]
  · rw [if_neg hc]
    have hm : mods &&& Mod1Mask = 0 := hmod.resolve_left hc
    rw [if_neg (not_not.mpr hm)]
    simp only [mainSwitch]

/-- C5, what the code does. For every running session outside vi mode in which a
match is selected, Return without modifiers ends the process with exit code 0
and changes nothing else: no line is written and no output mark is set. -/
theorem return_plain_exits_silently (cfg : Config) (env : Env) (s : State)
    (hrun : s.status = Status.running) (hvi : s.using_vi_mode = false)
    (hesc : cfg.global_esc_ksym ≠ KeySym.Return) (hsel : s.sel ≠ none) :
    keypress cfg env (keyEv KeySym.Return 0) s = { s with status := Status.exited 0 } := by
  rw [keypress_return cfg env s 0 hrun hvi hesc (Or.inr (by decide))]
  unfold keyReturn
  rw [if_neg (fun h => h.2.elim hsel (fun h2 => h2 (by decide))), if_pos ⟨hsel, by decide⟩]
  rfl

/-- C5, the failing input: apple is selected, Return is pressed; the process
ends with code 0 and the output is empty. -/
theorem return_plain_exits_silently_witness :
    exSelected.sel = some 0 ∧
    (keypress exCfg exEnv (keyEv KeySym.Return 0) exSelected).status = Status.exited 0 ∧
    (keypress exCfg exEnv (keyEv KeySym.Return 0) exSelected).stdout = [] ∧
    (keypress exCfg exEnv (keyEv KeySym.Return 0) exSelected).items = exSelected.items := by
  rw [return_plain_exits_silently exCfg exEnv exSelected (by decide) (by decide) (by decide)
    (by decide)]
  decide

/-- C6, what the code does. For every running session outside vi mode without a
selection, and without `-1`, Return without modifiers evaluates `sel->text`
through the `NULL` pointer `sel` (dmenu.c:641): nothing is written. -/
theorem return_plain_without_selection (cfg : Config) (env : Env) (s : State)
    (hrun : s.status = Status.running) (hvi : s.using_vi_mode = false)
    (hesc : cfg.global_esc_ksym ≠ KeySym.Return) (hrr : cfg.restrict_return = false)
    (hsel : s.sel = none) :
    keypress cfg env (keyEv KeySym.Return 0) s = undef s := by
  rw [keypress_return cfg env s 0 hrun hvi hesc (Or.inr (by decide))]
  have he : emit 0 s = undef s := by
    unfold emit selItem
    rw [if_pos (by decide), hsel]
  unfold keyReturn
  rw [if_neg (fun h => by rw [hrr] at h; exact absurd h.1 (by simp)),
    if_neg (fun h => h.1 hsel), he, if_pos (by simp [undef])]
  rfl

/-- C6, the failing input: the query "xyz" matches neither apple nor banana,
Return is pressed; no line is written and the behaviour is undefined. -/
theorem return_plain_without_selection_witness :
    exNoMatch.sel = none ∧ cstr exNoMatch.text = str "xyz" ∧
    (keypress exCfg exEnv (keyEv KeySym.Return 0) exNoMatch).status = Status.undefined ∧
    (keypress exCfg exEnv (keyEv KeySym.Return 0) exNoMatch).stdout = [] := by
  rw [return_plain_without_selection exCfg exEnv exNoMatch (by decide) (by decide) (by decide)
    (by decide) (by decide)]
  decide

theorem pipeout_ne_zero : ∀ c ∈ pipeout, c ≠ 0 := by decide

/-- The write `strncpy(text + strlen(text), pipeout, 8)` on a buffer that holds a
string followed by nine NUL bytes. -/
theorem memcpy_pipeout (a rest : List Nat) (ha : ∀ c ∈ a, c ≠ 0) :
    strlen (a ++ List.replicate 9 0 ++ rest) = a.length ∧
    memcpy (a ++ List.replicate 9 0 ++ rest) a.length pipeout 8 = a ++ pipeout ++ 0 :: rest := by
  have e : a ++ List.replicate 9 0 ++ rest = a ++ 0 :: (List.replicate 8 0 ++ rest) := by
    simp [List.replicate]
  constructor
  · unfold strlen
    rw [e, cstr_append_zero _ ha]
  · have t1 : (a ++ List.replicate 9 0 ++ rest).take a.length = a := by
      rw [List.append_assoc]
      exact List.take_left' rfl
    have t2 : (a ++ List.replicate 9 0 ++ rest).drop (a.length + 8) = 0 :: rest := by
      rw [List.append_assoc, List.drop_append]
      rfl
    have t3 : pipeout.take 8 = pipeout := rfl
    unfold memcpy
    rw [t1, t2, t3]

/-- What the case `XK_Return` writes for a query with the marker when Control is
held: two lines, and the suffix stays in the query buffer. -/
theorem emit_pipe (mods : Nat) (s : State) (q rest : List Nat)
    (hrun : s.status = Status.running) (hctl : mods &&& ControlMask ≠ 0)
    (htext : s.text = (35 :: q) ++ List.replicate 9 0 ++ rest) (hq : ∀ c ∈ q, c ≠ 0) :
    emit mods s =
      { s with
        text := (35 :: q) ++ pipeout ++ 0 :: rest
        stdout := s.stdout ++ [q ++ pipeout, (35 :: q) ++ pipeout] } := by
  have ha : ∀ c ∈ (35 :: q), c ≠ 0 := by
    intro c hc
    rcases List.mem_cons.mp hc with h | h
    · rw [h]; decide
    · exact hq c h
  obtain ⟨hlen, hcpy⟩ := memcpy_pipeout (35 :: q) rest ha
  rw [← htext] at hlen hcpy
  have hpeek : peek s.text = peek startpipe := by rw [htext]; rfl
  have hfit : strlen s.text + 8 ≤ s.text.length := by
    rw [hlen, htext]
    simp
  have hz1 : ∀ c ∈ q ++ pipeout, c ≠ 0 := by
    intro c hc
    rcases List.mem_append.mp hc with h | h
    · exact hq c h
    · exact pipeout_ne_zero c h
  have hz2 : ∀ c ∈ (35 :: q) ++ pipeout, c ≠ 0 := by
    intro c hc
    rcases List.mem_append.mp hc with h | h
    · exact ha c h
    · exact pipeout_ne_zero c h
  have hd : ((35 :: q) ++ pipeout ++ 0 :: rest).drop 1 = (q ++ pipeout) ++ 0 :: rest := by
    simp
  have hc1 : cstr ((q ++ pipeout) ++ 0 :: rest) = q ++ pipeout := cstr_append_zero _ hz1
  have hc2 : cstr ((35 :: q) ++ pipeout ++ 0 :: rest) = (35 :: q) ++ pipeout :=
    cstr_append_zero _ hz2
  have hm1 : 0 ∈ (q ++ pipeout) ++ 0 :: rest := by simp
  have hm2 : 0 ∈ (35 :: q) ++ pipeout ++ 0 :: rest := by simp
  unfold emit
  rw [if_neg hctl, if_pos hpeek, if_pos hfit, hlen, hcpy, hd]
  simp only [putsText, if_pos hm1, if_pos hm2, puts, hc1, hc2]
  rw [if_neg (not_not.mpr hrun)]
  simp

theorem markOut_fields (s : State) :
    (markOut s).stdout = s.stdout ∧ (markOut s).status = s.status ∧
    (markOut s).text = s.text ∧ (markOut s).using_vi_mode = s.using_vi_mode := by
  unfold markOut
  split <;> simp

theorem markOut_pointers (s : State) :
    (markOut s).lines = s.lines ∧ (markOut s).matches_ = s.matches_ ∧
    (markOut s).curr = s.curr ∧ (markOut s).next = s.next := by
  unfold markOut
  split <;> simp

/-- The reads of `drawmenu` depend on `lines`, `matches`, `curr` and `next` only. -/
theorem listReadable_congr (s t : State) (hl : t.lines = s.lines)
    (hm : t.matches_ = s.matches_) (hc : t.curr = s.curr) (hn : t.next = s.next) :
    listReadable t = listReadable s := by
  unfold listReadable walkMeetsNext
  rw [hl, hm, hc, hn]

theorem viCharReadable_off (s : State) (hvi : s.using_vi_mode = false) :
    viCharReadable s = true := by
  unfold viCharReadable
  rw [if_neg (by rw [hvi]; simp)]

/-- Function `drawmenu` ends the session in undefined behaviour exactly when one
of its reads leaves the query buffer or the list. -/
theorem drawmenu_status (env : Env) (s : State) :
    (drawmenu env s).status =
      if viCharReadable s = true ∧ listReadable s = true then s.status
      else Status.undefined := by
  have h : listReadable { s with numbers := env.recalculatenumbers s } = listReadable s :=
    listReadable_congr s _ rfl rfl rfl rfl
  unfold drawmenu
  rw [h]
  split <;> rfl

/-- Function `drawmenu` writes nothing but `numbers` (and ends the session when
its reads leave the list). -/
theorem drawmenu_frame (env : Env) (s : State) :
    (drawmenu env s).stdout = s.stdout ∧ (drawmenu env s).matches_ = s.matches_ ∧
    (drawmenu env s).curr = s.curr ∧ (drawmenu env s).next = s.next ∧
    (drawmenu env s).prev = s.prev ∧ (drawmenu env s).sel = s.sel ∧
    (drawmenu env s).lines = s.lines ∧ (drawmenu env s).items = s.items ∧
    (drawmenu env s).inputw = s.inputw ∧ (drawmenu env s).using_vi_mode = s.using_vi_mode ∧
    (drawmenu env s).text = s.text ∧ (drawmenu env s).cursor = s.cursor ∧
    (drawmenu env s).numbers = env.recalculatenumbers s := by
  unfold drawmenu
  split <;> exact ⟨rfl, rfl, rfl, rfl, rfl, rfl, rfl, rfl, rfl, rfl, rfl, rfl, rfl⟩

/-- C7 (amended). For every running session outside vi mode, without `-1` and
`-r`, whose query starts with the marker '#' and is followed in its buffer by at
least nine NUL bytes: when the query is accepted (Return with Control held, and
either no selection or Shift held as well), exactly two lines are written, first
the query with the marker stripped and " | dmenu" appended, then the query with
the marker and " | dmenu" appended; the session runs on when `drawmenu` can read
the list pointers. -/
theorem return_pipe_writes_two_lines (cfg : Config) (env : Env) (s : State) (mods : Nat)
    (q rest : List Nat)
    (hrun : s.status = Status.running) (hvi : s.using_vi_mode = false)
    (hesc : cfg.global_esc_ksym ≠ KeySym.Return) (hrr : cfg.restrict_return = false)
    (hinc : cfg.incremental = false)
    (hctl : mods &&& ControlMask ≠ 0) (hsel : s.sel = none ∨ mods &&& ShiftMask ≠ 0)
    (htext : s.text = (35 :: q) ++ List.replicate 9 0 ++ rest) (hq : ∀ c ∈ q, c ≠ 0) :
    (keypress cfg env (keyEv KeySym.Return mods) s).stdout =
      s.stdout ++ [q ++ pipeout, (35 :: q) ++ pipeout] ∧
    (listReadable s = true →
      (keypress cfg env (keyEv KeySym.Return mods) s).status = Status.running) := by
  rw [keypress_return cfg env s mods hrun hvi hesc (Or.inl hctl)]
  have he := emit_pipe mods s q rest hrun hctl htext hq
  have hst : (emit mods s).status = Status.running := by rw [he]; exact hrun
  have hout : (emit mods s).stdout = s.stdout ++ [q ++ pipeout, (35 :: q) ++ pipeout] := by
    rw [he]
  have hv : (emit mods s).using_vi_mode = false := by rw [he]; exact hvi
  unfold keyReturn
  rw [if_neg (fun h => by rw [hrr] at h; exact absurd h.1 (by simp)),
    if_neg (fun h => hsel.elim (fun h1 => h.1 h1) (fun h2 => h2 h.2)),
    if_neg (not_not.mpr hst)]
  obtain ⟨m1, m2, _, m4⟩ := markOut_fields (emit mods s)
  unfold finish draw
  simp only [m2, hst, ne_eq, not_true_eq_false, if_false, hinc, Bool.false_eq_true, m4, hv]
  obtain ⟨p1, p2, p3, p4⟩ := markOut_pointers (emit mods s)
  have hl : listReadable (markOut (emit mods s)) = listReadable s :=
    listReadable_congr s _ (p1.trans (by rw [he])) (p2.trans (by rw [he]))
      (p3.trans (by rw [he])) (p4.trans (by rw [he]))
  refine ⟨(drawmenu_frame env _).1.trans (m1.trans hout), fun hr => ?_⟩
  rw [drawmenu_status, hl, hr, if_pos ⟨viCharReadable_off _ (m4.trans hv), rfl⟩]
  exact m2.trans hst

/-- C7, an instance: the query "#foo" without a match, Return with Control. -/
theorem return_pipe_writes_two_lines_witness :
    exPipe.sel = none ∧ cstr exPipe.text = str "#foo" ∧
    (keypress exCfg exEnv (keyEv KeySym.Return ControlMask) exPipe).stdout =
      exPipe.stdout ++ [str "foo" ++ pipeout, (35 :: str "foo") ++ pipeout] ∧
    (keypress exCfg exEnv (keyEv KeySym.Return ControlMask) exPipe).status = Status.running :=
  ⟨by decide, by decide,
   (return_pipe_writes_two_lines exCfg exEnv exPipe ControlMask (str "foo")
     (List.replicate 3 0) (by decide) (by decide) (by decide) rfl rfl (by decide)
     (Or.inl (by decide)) (by decide) (by decide)).1,
   (return_pipe_writes_two_lines exCfg exEnv exPipe ControlMask (str "foo")
     (List.replicate 3 0) (by decide) (by decide) (by decide) rfl rfl (by decide)
     (Or.inl (by decide)) (by decide) (by decide)).2 (by decide)⟩

/-- C7 as stated fails: for the accepted query "#foo" two lines are written,
"foo | dmenu" and then "#foo | dmenu" (dmenu.c:649 and 651), not one. -/
theorem return_pipe_second_line :
    cstr exPipe.text = str "#foo" ∧ exPipe.stdout = [] ∧
    (keypress exCfg exEnv (keyEv KeySym.Return ControlMask) exPipe).stdout =
      [str "foo | dmenu", str "#foo | dmenu"] := by
  decide

/-! ## Matching without bucketing -/

/-- With `-S` every kept item is appended to `matches`, in input order. -/
theorem classed_unsorted (cfg : Config) (text : List Nat) (items : List item)
    (hs : cfg.sortmatches = false) :
    classed cfg text items = pick (fun it => decide (Kept cfg text it)) items := by
  rw [classed_eq]
  have e1 : ∀ it ∈ items,
      (keeps cfg (tokv text) it && toExact cfg text (tokv text) it) =
        decide (Kept cfg text it) := by
    intro it _
    apply bool_eq_decide
    rw [Bool.and_eq_true, keeps_iff]
    simp [toExact, hs]
  have e2 : ∀ it ∈ items,
      ((keeps cfg (tokv text) it && !toExact cfg text (tokv text) it)
        && toPre cfg (tokv text) it) = (fun _ => false) it := by
    intro it _; simp [toExact, hs]
  have e3 : ∀ it ∈ items,
      ((keeps cfg (tokv text) it && !toExact cfg text (tokv text) it)
        && !toPre cfg (tokv text) it) = (fun _ => false) it := by
    intro it _; simp [toExact, hs]
  unfold pick
  rw [pickFrom_congr items 0 e1, pickFrom_congr items 0 e2, pickFrom_congr items 0 e3,
    pickFrom_none]
  simp

/-- C16 (amended). In classed mode with the preserve-input-order flag set
(`sortmatches = 0`) and no dynamic command configured, for every query and
candidate list, the list that `match` builds is exactly the candidates whose
text contains every token of the query, in input order (`pick`), with no
bucketing: for the query "b" over abc, bcd and b, the exact match b stays last. -/
theorem match_unsorted (cfg : Config) (env : Env) (s : State)
    (hf : cfg.fuzzy = false) (hs : cfg.sortmatches = false) (hd : dynamicOn cfg = false) :
    (match_ cfg env s).matches_ =
      pick (fun it => decide (hasAllTokens cfg s.text it)) s.items ∧
    (match_ exCfgUnsorted exEnv
      (exState "b" [plainItem "abc", plainItem "bcd", plainItem "b"])).matches_ = [0, 1, 2] := by
  refine ⟨?_, by decide⟩
  rw [(match__fields cfg env s hf).2.2.2.1, refreshed_off cfg env s hd, classed_unsorted cfg _ _ hs]
  unfold pick
  apply pickFrom_congr
  intro it _
  unfold Kept
  simp [hd]

/-- C16, an instance: with `-S`, the query "a" over xyz, b and cab. -/
theorem match_unsorted_witness :
    exCfgUnsorted.fuzzy = false ∧ exCfgUnsorted.sortmatches = false ∧
    dynamicOn exCfgUnsorted = false ∧
    (match_ exCfgUnsorted exEnv
      (exState "a" [plainItem "xyz", plainItem "b", plainItem "cab"])).matches_ = [2] := by
  refine ⟨rfl, rfl, rfl, ?_⟩
  rw [(match_unsorted exCfgUnsorted exEnv _ rfl rfl rfl).1]
  decide

/-- C16 as stated fails when a dynamic command is configured (`-dy`): with `-S`,
the query "xyz" and a command that prints nothing, "apple" is in the list
although it does not contain "xyz". -/
theorem match_unsorted_dynamic :
    (match_ { exCfgUnsorted with dynamic := some (str "true") } exEnv
      (exState "xyz" [plainItem "apple"])).matches_ = [0] ∧
    pick (fun it => decide (hasAllTokens { exCfgUnsorted with dynamic := some (str "true") }
      (exState "xyz" [plainItem "apple"]).text it)) (exState "xyz" [plainItem "apple"]).items
        = [] := by
  decide

/-! ## Insertion of text -/

/-- A buffer with a NUL is its string, the NUL, and what follows. -/
theorem cstr_split (buf : List Nat) (h : strlen buf < buf.length) :
    buf = cstr buf ++ 0 :: buf.drop (strlen buf + 1) := by
  unfold strlen cstr at *
  induction buf with
  | nil => simp at h
  | cons x xs ih =>
    by_cases hx : x = 0
    · subst hx; simp [List.takeWhile_cons]
    · have h2 : (List.takeWhile (fun c => decide (c ≠ 0)) xs).length < xs.length := by
        simp [List.takeWhile_cons, hx] at h
        simpa using h
      have := ih h2
      simp only [List.takeWhile_cons, hx, ne_eq, not_false_eq_true, decide_True, ite_true,
        List.length_cons, List.cons_append, List.drop_succ_cons]
      rw [← this]

/-- The buffer after the two copies of `insert`, for an insertion inside it. -/
theorem edited_eq (s : State) (str : List Nat) (n : Nat) (hn : 0 < n)
    (hfit : s.cursor + n ≤ s.text.length) (hl : s.text.length < 9223372036854775808) :
    edited s str (n : Int) =
      s.text.take s.cursor ++ str.take n ++
        (s.text.drop s.cursor).take (s.text.length - s.cursor - n) := by
  have h1 : wrapSize ((s.cursor : Int) + n) = s.cursor + n := by unfold wrapSize; omega
  have h2 : wrapSize ((s.text.length : Int) - s.cursor - max (n : Int) 0)
      = s.text.length - s.cursor - n := by
    rw [max_eq_left (by omega)]
    unfold wrapSize
    omega
  unfold edited
  rw [if_pos (by omega), h1, h2]
  unfold memmove memcpy
  simp only [Int.toNat_ofNat]
  have e1 : s.cursor + n + (s.text.length - s.cursor - n) = s.text.length := by omega
  rw [e1, List.drop_length, List.append_nil]
  have e2 : (List.take (s.cursor + n) s.text ++
      List.take (s.text.length - s.cursor - n) (List.drop s.cursor s.text)).take s.cursor
        = s.text.take s.cursor := by
    rw [List.take_append_of_le_length (by simp; omega), List.take_take]
    congr 1
    omega
  have e3 : (List.take (s.cursor + n) s.text ++
      List.take (s.text.length - s.cursor - n) (List.drop s.cursor s.text)).drop (s.cursor + n)
        = List.take (s.text.length - s.cursor - n) (List.drop s.cursor s.text) := by
    apply List.drop_left'
    simp; omega
  rw [e2, e3]

/-- The string in the buffer after an insertion that leaves room for the NUL. -/
theorem cstr_edited (s : State) (str : List Nat) (n : Nat) (hn : 0 < n)
    (hz : ∀ b ∈ str.take n, b ≠ 0) (hc : s.cursor ≤ strlen s.text)
    (hroom : strlen s.text + n ≤ s.text.length - 1)
    (hl : s.text.length < 9223372036854775808) :
    cstr (edited s str (n : Int)) =
      (cstr s.text).take s.cursor ++ str.take n ++ (cstr s.text).drop s.cursor := by
  have hL : strlen s.text < s.text.length := by omega
  have hsplit := cstr_split s.text hL
  have hlen : (cstr s.text).length = strlen s.text := rfl
  rw [edited_eq s str n hn (by omega) hl]
  have t1 : s.text.take s.cursor = (cstr s.text).take s.cursor := by
    conv_lhs => rw [hsplit]
    rw [List.take_append_of_le_length (by omega)]
  have key : ∀ (T q rest : List Nat) (c k : Nat), T = q ++ 0 :: rest → c ≤ q.length →
      q.length - c < k →
      (T.drop c).take k = q.drop c ++ 0 :: rest.take (k - (q.length - c) - 1) := by
    intro T q rest c k hT hcq hk
    subst hT
    rw [List.drop_append_of_le_length hcq, List.take_append_eq_append_take,
      List.take_of_length_le (by simp; omega)]
    have : k - (List.drop c q).length = (k - (q.length - c) - 1) + 1 := by
      simp; omega
    rw [this, List.take_succ_cons]
  have t2 := key s.text (cstr s.text) (s.text.drop (strlen s.text + 1)) s.cursor
    (s.text.length - s.cursor - n) hsplit (by omega) (by omega)
  rw [t1, t2, ← List.append_assoc]
  apply cstr_append_zero
  intro b hb
  rcases List.mem_append.mp hb with h | h
  · rcases List.mem_append.mp h with h | h
    · exact mem_cstr_ne_zero (List.mem_of_mem_take h)
    · exact hz b h
  · exact mem_cstr_ne_zero (List.mem_of_mem_drop h)

/-- Without a dynamic command `match` leaves the query buffer and the cursor
alone, provided the fuzzy matcher does. -/
theorem match__text_cursor (cfg : Config) (env : Env) (s : State) (hd : dynamicOn cfg = false)
    (hfz : cfg.fuzzy = true →
      ∀ t, (env.fuzzymatch t).text = t.text ∧ (env.fuzzymatch t).cursor = t.cursor) :
    (match_ cfg env s).text = s.text ∧ (match_ cfg env s).cursor = s.cursor := by
  cases hf : cfg.fuzzy
  · obtain ⟨h1, h2, _⟩ := match__fields cfg env s hf
    rw [refreshed_off cfg env s hd] at h1 h2
    exact ⟨h1, h2⟩
  · unfold match_
    simp only [hf, if_true, refreshed_off cfg env s hd]
    exact hfz hf s

/-- Length of the buffer after an insertion inside it. -/
theorem edited_length (s : State) (str : List Nat) (n : Nat) (hn : 0 < n)
    (hstr : n ≤ str.length) (hfit : s.cursor + n ≤ s.text.length)
    (hl : s.text.length < 9223372036854775808) :
    (edited s str (n : Int)).length = s.text.length := by
  rw [edited_eq s str n hn hfit hl]
  simp
  omega

/-- C17 (amended). With no dynamic command configured and reject-no-match off,
for every query text of length L (in a buffer shorter than 2^63 bytes),
cursor c <= L, and insertion of n > 0 bytes s, none of them NUL: if
L + n <= BUFSIZ - 1 then after `insert(s, n)` the query is
old[0..c) ++ s[0..n) ++ old[c..L) and the cursor is c + n; otherwise the state is
left unchanged; so the query length never exceeds BUFSIZ - 1. The fuzzy matcher,
which is not part of the sources, is taken to leave the query and the cursor
alone. -/
theorem insert_text (cfg : Config) (env : Env) (s : State) (str : List Nat) (n : Nat)
    (hd : dynamicOn cfg = false) (hr : cfg.reject_no_match = false)
    (hfz : cfg.fuzzy = true →
      ∀ t, (env.fuzzymatch t).text = t.text ∧ (env.fuzzymatch t).cursor = t.cursor)
    (hn : 0 < n) (hn2 : n < 9223372036854775808) (hstr : n ≤ str.length)
    (hz : ∀ b ∈ str.take n, b ≠ 0)
    (hc : s.cursor ≤ strlen s.text) (h0 : 0 < s.text.length)
    (hl : s.text.length < 9223372036854775808) :
    (strlen s.text + n ≤ s.text.length - 1 →
      cstr (insert cfg env str n s).text =
        (cstr s.text).take s.cursor ++ str.take n ++ (cstr s.text).drop s.cursor ∧
      (insert cfg env str n s).cursor = s.cursor + n ∧
      (insert cfg env str n s).text.length = s.text.length ∧
      strlen (insert cfg env str n s).text ≤ s.text.length - 1) ∧
    (¬ strlen s.text + n ≤ s.text.length - 1 → insert cfg env str n s = s) := by
  have hle := strlen_le_length s.text
  constructor
  · intro hroom
    have hg : ¬ wrapSize ((strlen s.text : Int) + n) > wrapSize ((s.text.length : Int) - 1) := by
      unfold wrapSize; omega
    have hb : insertInBounds s str n :=
      insertInBounds_of_wellformed s str n h0 hl hc (by omega) (by omega) (by omega) hg
    have hw : wrapSize ((s.cursor : Int) + n) = s.cursor + n := by unfold wrapSize; omega
    have hins : insert cfg env str n s =
        match_ cfg env { s with text := edited s str n, cursor := s.cursor + n } := by
      unfold insert
      rw [if_neg hg, if_neg (not_not.mpr hb), hw]
      simp only [hr, Bool.false_eq_true, and_false, if_false]
      split <;> rfl
    obtain ⟨m1, m2⟩ := match__text_cursor cfg env
      { s with text := edited s str n, cursor := s.cursor + n } hd hfz
    rw [hins, m1, m2]
    have hcs := cstr_edited s str n hn hz hc hroom hl
    refine ⟨hcs, rfl, edited_length s str n hn hstr (by omega) hl, ?_⟩
    show strlen (edited s str (n : Int)) ≤ s.text.length - 1
    unfold strlen
    rw [hcs]
    have : (cstr s.text).length = strlen s.text := rfl
    simp
    omega
  · intro hroom
    have hg : wrapSize ((strlen s.text : Int) + n) > wrapSize ((s.text.length : Int) - 1) := by
      unfold wrapSize; omega
    unfold insert
    rw [if_pos hg]

/-- C17, an instance: typing "c" at the end of the query "ab" in a buffer of 16
bytes. -/
theorem insert_text_witness :
    dynamicOn exCfg = false ∧ exCfg.reject_no_match = false ∧
    (exState "ab" [plainItem "abc"]).cursor ≤ strlen (exState "ab" [plainItem "abc"]).text ∧
    cstr (insert exCfg exEnv (str "c") 1 (exState "ab" [plainItem "abc"])).text = str "abc" ∧
    (insert exCfg exEnv (str "c") 1 (exState "ab" [plainItem "abc"])).cursor = 3 := by
  have h := (insert_text exCfg exEnv (exState "ab" [plainItem "abc"]) (str "c") 1 rfl rfl
    (fun h => absurd h (by decide)) (by decide) (by decide) (by decide) (by decide) (by decide)
    (by decide) (by decide)).1 (by decide)
  exact ⟨rfl, rfl, by decide, h.1, h.2.1⟩

/-- C17 as stated fails when a dynamic command is configured (`-dy`): when the
command prints a line, `readstream` empties the query and resets the cursor
(dynamicoptions.c:57-60), so after typing "c" behind "ab" the query is empty and
the cursor is 0. -/
theorem insert_dynamic_clears_query :
    cstr (exState "ab" [plainItem "abc"]).text = str "ab" ∧
    (exState "ab" [plainItem "abc"]).cursor = 2 ∧
    cstr (insert { exCfg with dynamic := some (str "true") } exEnvLine (str "c") 1
      (exState "ab" [plainItem "abc"])).text = [] ∧
    (insert { exCfg with dynamic := some (str "true") } exEnvLine (str "c") 1
      (exState "ab" [plainItem "abc"])).cursor = 0 := by
  decide

/-! ## The cursor on entering and inside vi mode -/

/-- C14, what the code does. For every running session outside vi mode with an
empty query and the cursor at 0, without `-r`, the key that enters vi mode runs
`--cursor` at dmenu.c:687-688 on the cursor 0: the `size_t` wraps to 2^64 - 1,
far behind the end of the query. -/
theorem enter_vi_wraps_cursor (cfg : Config) (env : Env) (s : State)
    (hrun : s.status = Status.running) (hvi : s.using_vi_mode = false)
    (hmode : cfg.vi_mode = true) (hinc : cfg.incremental = false)
    (hcur : s.cursor = 0) (htext : s.text.get? 0 = some 0) :
    keypress cfg env (keyEv cfg.global_esc_ksym cfg.global_esc_state) s =
      drawmenu env { s with using_vi_mode := true, cursor := 18446744073709551615 } := by
  unfold keypress
  rw [if_neg (not_not.mpr hrun)]
  simp only [keyEv, hvi, Bool.false_eq_true, if_false]
  rw [if_pos ⟨hmode, trivial, Nat.and_self _⟩, if_neg (not_not.mpr hcur)]
  unfold draw
  simp only [hrun, ne_eq, not_true_eq_false, if_false, hinc, Bool.false_eq_true, if_true,
    hcur, htext]
  rfl

/-- C14, the failing input: the empty query, the key Alt+n of config.h; after
it the cursor is 2^64 - 1 and the query still has length 0. -/
theorem enter_vi_wraps_cursor_witness :
    exSelected.cursor = 0 ∧ strlen exSelected.text = 0 ∧
    (keypress exCfg exEnv (keyEv KeySym.n Mod1Mask) exSelected).cursor
      = 18446744073709551615 ∧
    strlen (keypress exCfg exEnv (keyEv KeySym.n Mod1Mask) exSelected).text = 0 ∧
    (keypress exCfg exEnv (keyEv KeySym.n Mod1Mask) exSelected).status = Status.running := by
  have h := enter_vi_wraps_cursor exCfg exEnv exSelected (by decide) (by decide) rfl rfl
    (by decide) (by decide)
  have e : keyEv exCfg.global_esc_ksym exCfg.global_esc_state = keyEv KeySym.n Mod1Mask := rfl
  rw [e] at h
  rw [h]
  decide

/-- C15, the failing input. In vi mode with an empty query, the composed input
"é" (the bytes C3 A9) is inserted and leaves the cursor behind it, on the NUL;
`--cursor` at dmenu.c:687-688 then steps back one byte, not one rune: the cursor
is 1 and the byte there, A9, is a continuation byte. -/
theorem vi_input_cursor_inside_rune :
    exViStart.using_vi_mode = true ∧ cstr exViStart.text = [] ∧ exViStart.cursor = 0 ∧
    cstr (keypress exCfg exEnv (composedEv [195, 169]) exViStart).text = [195, 169] ∧
    (keypress exCfg exEnv (composedEv [195, 169]) exViStart).cursor = 1 ∧
    (keypress exCfg exEnv (composedEv [195, 169]) exViStart).text.get? 1 = some 169 ∧
    169 &&& 192 = 128 ∧
    (keypress exCfg exEnv (composedEv [195, 169]) exViStart).status = Status.running := by
  decide

/-! ## The loops of `calcoffsets` -/

theorem wrapInt_small (x : Int) (h1 : -2147483648 ≤ x) (h2 : x < 2147483648) :
    wrapInt x = x := by
  unfold wrapInt
  omega

theorem spent_zero (f : Nat → Int) (l : List Nat) : spent f l 0 = 0 := by
  simp [spent]

theorem spent_cons (f : Nat → Int) (m : Nat) (l : List Nat) (j : Nat) :
    spent f (m :: l) (j + 1) = f m + spent f l j := by
  simp [spent]

theorem spent_nonneg (f : Nat → Int) : ∀ (l : List Nat) (j : Nat),
    (∀ m ∈ l, 0 ≤ f m) → 0 ≤ spent f l j := by
  intro l
  induction l with
  | nil => intro j _; simp [spent]
  | cons m rest ih =>
    intro j h
    cases j with
    | zero => simp [spent]
    | succ j =>
      rw [spent_cons]
      have h1 := h m (List.mem_cons_self _ _)
      have h2 := ih j (fun x hx => h x (List.mem_cons_of_mem _ hx))
      omega

/-- The first loop of `calcoffsets`, when no sum leaves the range of `int`: it
stops at the first item with which the accumulated cost exceeds the budget. So
there is a number `k` of items such that the runs of `1 ≤ j` items within the
budget are those with `j ≤ k`, and `next` is the item behind them, if any. -/
theorem nextLoop_spec (f : Nat → Int) (n : Int) (hn : n < 1073741824) :
    ∀ (l : List Nat) (i : Int) (p : Nat), 0 ≤ i → i < 1073741824 →
      (∀ m ∈ l, 0 ≤ f m ∧ f m < 1073741824) →
      ∃ k, k ≤ l.length ∧
        (∀ j, 1 ≤ j → j ≤ l.length → (i + spent f l j ≤ n ↔ j ≤ k)) ∧
        nextLoop f n l i p = if k < l.length then some (p + k) else none := by
  intro l
  induction l with
  | nil =>
    intro i p _ _ _
    exact ⟨0, le_refl _, fun j h1 h2 => by simp at h2; omega, rfl⟩
  | cons m rest ih =>
    intro i p hi0 hi1 hf
    obtain ⟨hm0, hm1⟩ := hf m (List.mem_cons_self _ _)
    have hrest : ∀ x ∈ rest, 0 ≤ f x ∧ f x < 1073741824 :=
      fun x hx => hf x (List.mem_cons_of_mem _ hx)
    have hw : wrapInt (i + f m) = i + f m := wrapInt_small _ (by omega) (by omega)
    unfold nextLoop
    rw [hw]
    by_cases hgt : i + f m > n
    · refine ⟨0, Nat.zero_le _, ?_, ?_⟩
      · intro j h1 _
        obtain ⟨j1, rfl⟩ : ∃ j1, j = j1 + 1 := ⟨j - 1, by omega⟩
        rw [spent_cons]
        have := spent_nonneg f rest j1 (fun x hx => (hrest x hx).1)
        constructor
        · intro h; omega
        · intro h; omega
      · rw [if_pos hgt]
        simp
    · obtain ⟨k, hk, hiff, hres⟩ := ih (i + f m) (p + 1) (by omega) (by omega) hrest
      refine ⟨k + 1, by simp; omega, ?_, ?_⟩
      · intro j h1 h2
        obtain ⟨j1, rfl⟩ : ∃ j1, j = j1 + 1 := ⟨j - 1, by omega⟩
        rw [spent_cons]
        by_cases hj : j1 = 0
        · subst hj
          rw [spent_zero]
          constructor
          · intro _; omega
          · intro _; omega
        · have := hiff j1 (by omega) (by simpa using h2)
          constructor
          · intro h
            have := this.mp (by omega)
            omega
          · intro h
            have := this.mpr (by omega)
            omega
      · rw [if_neg hgt, hres]
        by_cases hkl : k < rest.length
        · rw [if_pos hkl, if_pos (by simp; omega)]
          congr 1
          omega
        · rw [if_neg hkl, if_neg (by simp; omega)]

/-- The second loop of `calcoffsets`, when no sum leaves the range of `int`:
`prev` goes back over `k` items whose accumulated cost is within the budget, and
over at least one when the nearest one fits. -/
theorem prevLoop_spec (f : Nat → Int) (n : Int) (hn : n < 1073741824) :
    ∀ (l : List Nat) (i : Int) (p : Nat), 0 ≤ i → i < 1073741824 →
      (∀ m ∈ l, 0 ≤ f m ∧ f m < 1073741824) → l.length ≤ p →
      ∃ k, k ≤ l.length ∧ prevLoop f n l i p = p - k ∧
        (1 ≤ k → i + spent f l k ≤ n) ∧
        (∀ m rest, l = m :: rest → i + f m ≤ n → 1 ≤ k) := by
  intro l
  induction l with
  | nil =>
    intro i p _ _ _ _
    exact ⟨0, le_refl _, rfl, fun h => by omega, fun m rest h => by simp at h⟩
  | cons m rest ih =>
    intro i p hi0 hi1 hf hp
    obtain ⟨hm0, hm1⟩ := hf m (List.mem_cons_self _ _)
    have hrest : ∀ x ∈ rest, 0 ≤ f x ∧ f x < 1073741824 :=
      fun x hx => hf x (List.mem_cons_of_mem _ hx)
    have hw : wrapInt (i + f m) = i + f m := wrapInt_small _ (by omega) (by omega)
    unfold prevLoop
    rw [hw]
    by_cases hgt : i + f m > n
    · refine ⟨0, Nat.zero_le _, by rw [if_pos hgt]; rfl, fun h => by omega, ?_⟩
      intro m1 rest1 h hfit
      simp only [List.cons.injEq] at h
      rw [← h.1] at hfit
      omega
    · simp only [List.length_cons] at hp
      obtain ⟨k, hk, hres, hsum, _⟩ :=
        ih (i + f m) (p - 1) (by omega) (by omega) hrest (by omega)
      refine ⟨k + 1, by simp; omega, ?_, ?_, fun _ _ _ _ => by omega⟩
      · rw [if_neg hgt, hres]
        omega
      · intro _
        rw [spent_cons]
        by_cases hk0 : k = 0
        · subst hk0
          rw [spent_zero]
          omega
        · have := hsum (by omega)
          omega

theorem wrapUInt_nonneg (x : Int) : 0 ≤ wrapUInt x := by
  unfold wrapUInt
  omega

theorem cost_nonneg (env : Env) (s : State) (m : Nat) : 0 ≤ cost env s m := by
  unfold cost
  split
  · exact wrapUInt_nonneg _
  · unfold textw_clamp
    exact le_min (wrapUInt_nonneg _) (wrapUInt_nonneg _)

theorem spent_const (f : Nat → Int) (b : Int) : ∀ (l : List Nat) (j : Nat),
    (∀ m ∈ l, f m = b) → j ≤ l.length → spent f l j = j * b := by
  intro l
  induction l with
  | nil =>
    intro j _ hj
    have : j = 0 := by simpa using hj
    subst this
    simp [spent]
  | cons m rest ih =>
    intro j h hj
    cases j with
    | zero => simp [spent]
    | succ j =>
      rw [spent_cons, h m (List.mem_cons_self _ _),
        ih j (fun x hx => h x (List.mem_cons_of_mem _ hx)) (by simpa using hj)]
      push_cast
      ring

/-- C13. For every match list, anchor and budget (all sums inside the range of
`int`: budget and costs below 2^30), the window that `calcoffsets` computes is
the longest run of consecutive matches starting at the anchor whose accumulated
cost does not exceed the budget: there is a length `k` such that a run of
`1 ≤ j` matches from the anchor is within the budget exactly when `j ≤ k`, and
`next` is the match behind that run, `NULL` when the run reaches the end. In
fixed-count mode (`lines > 0`) the cost of an item is the line height `bh`, the
budget is `lines * bh`, and `k` is `lines` when that many matches remain from
the anchor and the number of remaining matches otherwise. In measured mode
(`lines = 0`, budget not negative) the cost of an item is its rendered width,
as `drw_fontset_getwidth_clamp` measures its text up to the budget, plus the
padding `lrpad` (an `unsigned int`), clamped to the budget. -/
theorem calcoffsets_window (env : Env) (s : State) (c : Nat) (hc : s.curr = some c)
    (hB : budget env s < 1073741824)
    (hcost : ∀ m ∈ s.matches_.drop c, cost env s m < 1073741824) :
    ∃ k, k ≤ (s.matches_.drop c).length ∧
      (∀ j, 1 ≤ j → j ≤ (s.matches_.drop c).length →
        (spent (cost env s) (s.matches_.drop c) j ≤ budget env s ↔ j ≤ k)) ∧
      (calcoffsets env s).next =
        (if k < (s.matches_.drop c).length then some (c + k) else none) ∧
      (s.lines > 0 → 0 < env.bh → (s.lines : Int) * env.bh < 1073741824 →
        (∀ m, cost env s m = env.bh) ∧ budget env s = s.lines * env.bh ∧
        k = min s.lines (s.matches_.drop c).length) ∧
      (s.lines = 0 → 0 ≤ budget env s →
        ∀ m, cost env s m =
          min (wrapUInt ((env.drw_fontset_getwidth_clamp (itemText s.items m)
            (budget env s).toNat : Int) + env.lrpad)) (budget env s)) := by
  obtain ⟨k, hk, hiff, hres⟩ := nextLoop_spec (cost env s) (budget env s) hB
    (s.matches_.drop c) 0 c (le_refl _) (by omega)
    (fun m hm => ⟨cost_nonneg env s m, hcost m hm⟩)
  have hiff2 : ∀ j, 1 ≤ j → j ≤ (s.matches_.drop c).length →
      (spent (cost env s) (s.matches_.drop c) j ≤ budget env s ↔ j ≤ k) := by
    intro j h1 h2
    have := hiff j h1 h2
    rwa [zero_add] at this
  refine ⟨k, hk, hiff2, ?_, ?_, ?hmeas⟩
  · unfold calcoffsets
    rw [hc]
    exact hres
  case hmeas =>
    intro hl hb m
    have hw : wrapUInt (budget env s) = budget env s := by
      unfold wrapUInt
      omega
    unfold cost
    rw [if_neg (by omega)]
    unfold textw_clamp
    rw [hw]
  · intro hl hbh hprod
    have hL : (1 : Int) ≤ s.lines := by omega
    have hbh2 : env.bh < 1073741824 := by nlinarith
    have hcst : ∀ m, cost env s m = env.bh := by
      intro m
      unfold cost
      rw [if_pos hl]
      unfold wrapUInt
      omega
    have hbud : budget env s = s.lines * env.bh := by
      unfold budget
      rw [if_pos hl]
      exact wrapInt_small _ (by nlinarith) (by omega)
    refine ⟨hcst, hbud, ?_⟩
    have hsp : ∀ j, j ≤ (s.matches_.drop c).length →
        spent (cost env s) (s.matches_.drop c) j = j * env.bh :=
      fun j hj => spent_const _ _ _ j (fun m _ => hcst m) hj
    have key : ∀ j, 1 ≤ j → j ≤ (s.matches_.drop c).length → (j ≤ s.lines ↔ j ≤ k) := by
      intro j h1 h2
      rw [← hiff2 j h1 h2, hsp j h2, hbud, mul_le_mul_right hbh]
      exact Nat.cast_le.symm
    rcases Nat.lt_or_ge s.lines (s.matches_.drop c).length with hlt | hge
    · have a1 := (key s.lines (by omega) (by omega)).mp (le_refl _)
      have a2 := key (s.lines + 1) (by omega) (by omega)
      have a3 : ¬ (s.lines + 1 ≤ k) := fun h => by have := a2.mpr h; omega
      rw [min_eq_left (by omega)]
      omega
    · rw [min_eq_right hge]
      by_cases h0 : (s.matches_.drop c).length = 0
      · omega
      · have := (key (s.matches_.drop c).length (by omega) (le_refl _)).mp hge
        omega

/-- C13, two instances. Fixed-count mode: three matches in a list of two lines;
the first page holds two of them and the next page starts at the third. Measured
mode: the same matches in a horizontal list with the budget 100, where apple and
apply are 40 pixels wide and cost 50 each with the padding, and banana costs 58;
the first page holds apple and apply and the next page starts at banana. -/
theorem calcoffsets_window_witness :
    (exLines.curr = some 0 ∧ budget exEnv exLines = 40 ∧
      (calcoffsets exEnv exLines).next = some 2 ∧
      ∃ k, k ≤ (exLines.matches_.drop 0).length ∧
        (∀ j, 1 ≤ j → j ≤ (exLines.matches_.drop 0).length →
          (spent (cost exEnv exLines) (exLines.matches_.drop 0) j ≤ budget exEnv exLines ↔
            j ≤ k)) ∧
        (calcoffsets exEnv exLines).next =
          (if k < (exLines.matches_.drop 0).length then some (0 + k) else none) ∧
        (exLines.lines > 0 → 0 < exEnv.bh → (exLines.lines : Int) * exEnv.bh < 1073741824 →
          (∀ m, cost exEnv exLines m = exEnv.bh) ∧
          budget exEnv exLines = exLines.lines * exEnv.bh ∧
          k = min exLines.lines (exLines.matches_.drop 0).length) ∧
        (exLines.lines = 0 → 0 ≤ budget exEnv exLines →
          ∀ m, cost exEnv exLines m =
            min (wrapUInt ((exEnv.drw_fontset_getwidth_clamp (itemText exLines.items m)
              (budget exEnv exLines).toNat : Int) + exEnv.lrpad)) (budget exEnv exLines))) ∧
    (exRow.lines = 0 ∧ exRow.curr = some 0 ∧ budget exEnvRow exRow = 100 ∧
      exEnvRow.drw_fontset_getwidth_clamp (itemText exRow.items 0) 100 = 40 ∧
      cost exEnvRow exRow 0 = 50 ∧ cost exEnvRow exRow 1 = 50 ∧ cost exEnvRow exRow 2 = 58 ∧
      (calcoffsets exEnvRow exRow).next = some 2 ∧
      ∃ k, k ≤ (exRow.matches_.drop 0).length ∧
        (∀ j, 1 ≤ j → j ≤ (exRow.matches_.drop 0).length →
          (spent (cost exEnvRow exRow) (exRow.matches_.drop 0) j ≤ budget exEnvRow exRow ↔
            j ≤ k)) ∧
        (calcoffsets exEnvRow exRow).next =
          (if k < (exRow.matches_.drop 0).length then some (0 + k) else none) ∧
        (exRow.lines > 0 → 0 < exEnvRow.bh → (exRow.lines : Int) * exEnvRow.bh < 1073741824 →
          (∀ m, cost exEnvRow exRow m = exEnvRow.bh) ∧
          budget exEnvRow exRow = exRow.lines * exEnvRow.bh ∧
          k = min exRow.lines (exRow.matches_.drop 0).length) ∧
        (exRow.lines = 0 → 0 ≤ budget exEnvRow exRow →
          ∀ m, cost exEnvRow exRow m =
            min (wrapUInt ((exEnvRow.drw_fontset_getwidth_clamp (itemText exRow.items m)
              (budget exEnvRow exRow).toNat : Int) + exEnvRow.lrpad))
              (budget exEnvRow exRow))) :=
  ⟨⟨by decide, by decide, by decide,
    calcoffsets_window exEnv exLines 0 (by decide) (by decide) (by decide)⟩,
   ⟨by decide, by decide, by decide, by decide, by decide, by decide, by decide, by decide,
    calcoffsets_window exEnvRow exRow 0 (by decide) (by decide) (by decide)⟩⟩

/-! ## Navigation -/

theorem spent_one (f : Nat → Int) (m : Nat) (l : List Nat) : spent f (m :: l) 1 = f m := by
  rw [spent_cons, spent_zero, add_zero]

theorem fits_range {env : Env} {s : State} (h : Fits env s) :
    ∀ m ∈ s.matches_, 0 ≤ cost env s m ∧ cost env s m < 1073741824 := by
  intro m hm
  have := h.2 m hm
  have := h.1
  exact ⟨cost_nonneg env s m, by omega⟩

/-- When every item fits the budget, `next` lies behind the anchor and inside
the list. -/
theorem next_bounds (f : Nat → Int) (B : Int) (ms : List Nat) (c : Nat)
    (hB : B < 1073741824) (hfit : ∀ m ∈ ms, 0 ≤ f m ∧ f m ≤ B) (hc : c < ms.length) :
    ∀ q, nextLoop f B (ms.drop c) 0 c = some q → c < q ∧ q < ms.length := by
  intro q hq
  have hsub : ∀ m ∈ ms.drop c, m ∈ ms := fun m hm => List.mem_of_mem_drop hm
  obtain ⟨k, hk, hiff, hres⟩ := nextLoop_spec f B hB (ms.drop c) 0 c (le_refl _) (by omega)
    (fun m hm => ⟨(hfit m (hsub m hm)).1, by have := (hfit m (hsub m hm)).2; omega⟩)
  have hlen : (ms.drop c).length = ms.length - c := List.length_drop _ _
  rw [hres] at hq
  split at hq
  · rename_i hkl
    simp only [Option.some.injEq] at hq
    have h1 : 1 ≤ k := by
      cases hl : ms.drop c with
      | nil => rw [hl] at hlen; simp at hlen; omega
      | cons m rest =>
        have hm : m ∈ ms := hsub m (by rw [hl]; exact List.mem_cons_self _ _)
        have := (hiff 1 (le_refl _) (by rw [hl]; simp)).mp (by
          rw [hl, spent_one, zero_add]; exact (hfit m hm).2)
        exact this
    omega
  · simp at hq

/-- A run from the anchor that is within the budget ends before `next`. -/
theorem next_after_run (f : Nat → Int) (B : Int) (ms : List Nat) (r j : Nat)
    (hB : B < 1073741824) (hfit : ∀ m ∈ ms, 0 ≤ f m ∧ f m ≤ B)
    (hj1 : 1 ≤ j) (hj2 : j ≤ (ms.drop r).length) (hrun : spent f (ms.drop r) j ≤ B) :
    ∀ q, nextLoop f B (ms.drop r) 0 r = some q → r + j ≤ q := by
  intro q hq
  have hsub : ∀ m ∈ ms.drop r, m ∈ ms := fun m hm => List.mem_of_mem_drop hm
  obtain ⟨k, hk, hiff, hres⟩ := nextLoop_spec f B hB (ms.drop r) 0 r (le_refl _) (by omega)
    (fun m hm => ⟨(hfit m (hsub m hm)).1, by have := (hfit m (hsub m hm)).2; omega⟩)
  have := (hiff j hj1 hj2).mp (by rw [zero_add]; exact hrun)
  rw [hres] at hq
  split at hq
  · simp only [Option.some.injEq] at hq
    omega
  · simp at hq

/-- The items before position `c`, nearest first, are the items from `c - k` on,
backwards. -/
theorem take_reverse_take (ms : List Nat) (c k : Nat) (hk : k ≤ c) (hc : c ≤ ms.length) :
    ((ms.take c).reverse).take k = ((ms.drop (c - k)).take k).reverse := by
  have h1 : ms.take c = ms.take (c - k) ++ (ms.drop (c - k)).take k := by
    have : c = (c - k) + k := by omega
    conv_lhs => rw [this]
    exact List.take_add _ _ _
  rw [h1, List.reverse_append]
  apply List.take_left'
  simp
  omega

theorem spent_reverse_take (f : Nat → Int) (ms : List Nat) (c k : Nat) (hk : k ≤ c)
    (hc : c ≤ ms.length) :
    spent f (ms.take c).reverse k = spent f (ms.drop (c - k)) k := by
  unfold spent
  rw [take_reverse_take ms c k hk hc, List.map_reverse, List.sum_reverse]

/-- When every item fits the budget, `prev` lies before an anchor that is not
the first match, and the run from `prev` up to the anchor is within the budget. -/
theorem prev_bounds (f : Nat → Int) (B : Int) (ms : List Nat) (c : Nat)
    (hB : B < 1073741824) (hfit : ∀ m ∈ ms, 0 ≤ f m ∧ f m ≤ B) (hc : c < ms.length) :
    prevLoop f B (ms.take c).reverse 0 c ≤ c ∧
    (0 < c → prevLoop f B (ms.take c).reverse 0 c < c ∧
      spent f (ms.drop (prevLoop f B (ms.take c).reverse 0 c))
        (c - prevLoop f B (ms.take c).reverse 0 c) ≤ B) := by
  have hsub : ∀ m ∈ (ms.take c).reverse, m ∈ ms :=
    fun m hm => List.mem_of_mem_take (List.mem_reverse.mp hm)
  have hlen : (ms.take c).reverse.length = c := by simp; omega
  obtain ⟨k, hk, hres, hsum, hfirst⟩ := prevLoop_spec f B hB (ms.take c).reverse 0 c
    (le_refl _) (by omega)
    (fun m hm => ⟨(hfit m (hsub m hm)).1, by have := (hfit m (hsub m hm)).2; omega⟩)
    (by omega)
  rw [hres]
  refine ⟨by omega, ?_⟩
  intro hc0
  have h1 : 1 ≤ k := by
    cases hl : (ms.take c).reverse with
    | nil => rw [hl] at hlen; simp at hlen; omega
    | cons m rest =>
      have hm : m ∈ ms := hsub m (by rw [hl]; exact List.mem_cons_self _ _)
      exact hfirst m rest hl (by rw [zero_add]; exact (hfit m hm).2)
  rw [hlen] at hk
  refine ⟨by omega, ?_⟩
  have hs := hsum h1
  rw [zero_add, spent_reverse_take f ms c k hk (by omega)] at hs
  have : c - (c - k) = k := by omega
  rw [this]
  exact hs

theorem calcoffsets_some (env : Env) (t : State) (c : Nat) (hc : t.curr = some c) :
    calcoffsets env t =
      { t with
        next := nextLoop (cost env t) (budget env t) (t.matches_.drop c) 0 c
        prev := some (prevLoop (cost env t) (budget env t) (t.matches_.take c).reverse 0 c) } := by
  unfold calcoffsets
  rw [hc]

theorem fits_all {env : Env} {s : State} (h : Fits env s) :
    ∀ m ∈ s.matches_, 0 ≤ cost env s m ∧ cost env s m ≤ budget env s :=
  fun m hm => ⟨cost_nonneg env s m, h.2 m hm⟩

/-- After `calcoffsets` on an anchor inside the list, with the selection at or
behind the anchor and before the new `next`, the invariant holds. -/
theorem calc_paged (env : Env) (t : State) (c p : Nat)
    (hvi : t.using_vi_mode = false) (hF : Fits env t)
    (hc : t.curr = some c) (hlt : c < t.matches_.length)
    (hsel : t.sel = some p) (hcp : c ≤ p) (hp : p < t.matches_.length)
    (hwin : ∀ q, nextLoop (cost env t) (budget env t) (t.matches_.drop c) 0 c = some q → p < q) :
    Paged env (calcoffsets env t) := by
  rw [calcoffsets_some env t c hc]
  exact ⟨hvi, hF, fun _ => ⟨⟨c, hc, hlt, rfl, rfl⟩, ⟨c, p, hc, hsel, hcp, hp, hwin⟩⟩⟩

/-- The same with the selection on the anchor. -/
theorem calc_paged_at (env : Env) (t : State) (c : Nat)
    (hvi : t.using_vi_mode = false) (hF : Fits env t)
    (hc : t.curr = some c) (hlt : c < t.matches_.length) (hsel : t.sel = some c) :
    Paged env (calcoffsets env t) :=
  calc_paged env t c c hvi hF hc hlt hsel (le_refl _) hlt
    (fun q hq => (next_bounds _ _ _ c hF.1 (fits_all hF) hlt q hq).1)

theorem calcoffsets_base (env : Env) (t : State) :
    (calcoffsets env t).using_vi_mode = t.using_vi_mode ∧
    (calcoffsets env t).matches_ = t.matches_ ∧
    (Fits env t → Fits env (calcoffsets env t)) := by
  unfold calcoffsets
  cases t.curr with
  | none => exact ⟨rfl, rfl, fun h => h⟩
  | some c => exact ⟨rfl, rfl, fun h => h⟩

/-- With an empty list of matches the invariant asks for nothing about the
pointers. -/
theorem calc_paged_nil (env : Env) (t : State) (hvi : t.using_vi_mode = false)
    (hF : Fits env t) (hnil : t.matches_ = []) : Paged env (calcoffsets env t) := by
  obtain ⟨h1, h2, h3⟩ := calcoffsets_base env t
  exact ⟨h1.trans hvi, h3 hF, fun h => absurd (h2.trans hnil) h⟩

theorem keyUp_paged (env : Env) (s : State) (h : Paged env s) :
    Paged env (flowState (keyUp env s)) := by
  obtain ⟨hvi, hF, himp⟩ := h
  unfold keyUp
  split
  · rename_i p hsel
    by_cases hne : s.matches_ = []
    · split
      · exact calc_paged_nil env { s with sel := some p, curr := s.prev } hvi hF hne
      · exact ⟨hvi, hF, fun h => absurd hne h⟩
    · obtain ⟨⟨c, hc, hlt, hnx, hpv⟩, ⟨c2, p2, hc2, hs2, hcp, hp, hwin⟩⟩ := himp hne
      rw [hc] at hc2
      rw [hsel] at hs2
      simp only [Option.some.injEq] at hc2 hs2
      subst hc2
      subst hs2
      split
      · rename_i hcur
        rw [hc] at hcur
        simp only [Option.some.injEq] at hcur
        subst hcur
        obtain ⟨hb1, hb2⟩ := prev_bounds (cost env s) (budget env s) s.matches_ (p + 1) hF.1
          (fits_all hF) hlt
        obtain ⟨hb3, hb4⟩ := hb2 (by omega)
        refine calc_paged env { s with sel := some p, curr := s.prev } _ p hvi hF hpv
          (by show _ < s.matches_.length; omega) rfl (by omega)
          (by show _ < s.matches_.length; omega) ?_
        intro q hq
        have := next_after_run (cost env s) (budget env s) s.matches_ _ _ hF.1 (fits_all hF)
          (by omega) (by simp; omega) hb4 q hq
        omega
      · rename_i hcur
        have hcp2 : c ≤ p := by
          rcases Nat.lt_or_ge p c with hlt2 | hge
          · exact absurd (by rw [hc]; congr 1; omega) hcur
          · exact hge
        exact ⟨hvi, hF, fun _ => ⟨⟨c, hc, hlt, hnx, hpv⟩,
          ⟨c, p, hc, rfl, hcp2, (by show p < s.matches_.length; omega),
            fun q hq => by have := hwin q hq; omega⟩⟩⟩
  · exact ⟨hvi, hF, himp⟩

theorem keyDown_paged (env : Env) (s : State) (h : Paged env s) :
    Paged env (flowState (keyDown env s)) := by
  obtain ⟨hvi, hF, himp⟩ := h
  unfold keyDown
  split
  · rename_i p hsel
    by_cases hne : s.matches_ = []
    · split
      · split
        · exact calc_paged_nil env { s with sel := some (p + 1), curr := s.next } hvi hF hne
        · exact ⟨hvi, hF, fun h => absurd hne h⟩
      · exact ⟨hvi, hF, fun h => absurd hne h⟩
    · obtain ⟨⟨c, hc, hlt, hnx, hpv⟩, ⟨c2, p2, hc2, hs2, hcp, hp, hwin⟩⟩ := himp hne
      rw [hc] at hc2
      rw [hsel] at hs2
      simp only [Option.some.injEq] at hc2 hs2
      subst hc2
      subst hs2
      split
      · rename_i hp1
        split
        · rename_i hnext
          exact calc_paged_at env { s with sel := some (p + 1), curr := s.next } (p + 1) hvi hF
            hnext hp1 rfl
        · rename_i hnext
          exact ⟨hvi, hF, fun _ => ⟨⟨c, hc, hlt, hnx, hpv⟩,
            ⟨c, p + 1, hc, rfl, by omega, hp1, fun q hq => by
              have h1 := hwin q hq
              have hq2 : s.next = some q := hq
              have h2 : q ≠ p + 1 := fun e => hnext (by rw [hq2, e])
              omega⟩⟩⟩
      · exact ⟨hvi, hF, himp⟩
  · exact ⟨hvi, hF, himp⟩

theorem keyNext_paged (env : Env) (s : State) (h : Paged env s) :
    Paged env (flowState (keyNext env s)) := by
  obtain ⟨hvi, hF, himp⟩ := h
  unfold keyNext
  split
  · exact ⟨hvi, hF, himp⟩
  · rename_i hnext
    by_cases hne : s.matches_ = []
    · exact calc_paged_nil env { s with sel := s.next, curr := s.next } hvi hF hne
    · obtain ⟨⟨c, hc, hlt, hnx, hpv⟩, _⟩ := himp hne
      obtain ⟨q, hq⟩ := Option.ne_none_iff_exists'.mp hnext
      have hb := next_bounds (cost env s) (budget env s) s.matches_ c hF.1 (fits_all hF) hlt q
        (by rw [← hnx]; exact hq)
      exact calc_paged_at env { s with sel := s.next, curr := s.next } q hvi hF hq hb.2 hq

theorem keyPrior_paged (env : Env) (s : State) (h : Paged env s) :
    Paged env (flowState (keyPrior env s)) := by
  obtain ⟨hvi, hF, himp⟩ := h
  unfold keyPrior
  split
  · exact ⟨hvi, hF, himp⟩
  · by_cases hne : s.matches_ = []
    · exact calc_paged_nil env { s with sel := s.prev, curr := s.prev } hvi hF hne
    · obtain ⟨⟨c, hc, hlt, hnx, hpv⟩, _⟩ := himp hne
      have hb := (prev_bounds (cost env s) (budget env s) s.matches_ c hF.1 (fits_all hF) hlt).1
      exact calc_paged_at env { s with sel := s.prev, curr := s.prev } _ hvi hF hpv
        (by show _ < s.matches_.length; omega) hpv

theorem keyHome_paged (env : Env) (s : State) (h : Paged env s) :
    Paged env (flowState (keyHome env s)) := by
  obtain ⟨hvi, hF, himp⟩ := h
  unfold keyHome
  split
  · exact ⟨hvi, hF, himp⟩
  · by_cases hne : s.matches_ = []
    · exact calc_paged_nil env
        { s with sel := headPos s.matches_, curr := headPos s.matches_ } hvi hF hne
    · have hh : headPos s.matches_ = some 0 := by unfold headPos; rw [if_neg hne]
      exact calc_paged_at env { s with sel := headPos s.matches_, curr := headPos s.matches_ } 0
        hvi hF hh (List.length_pos.mpr hne) hh

theorem endLoop_base (env : Env) : ∀ (fuel : Nat) (t : State),
    (endLoop env fuel t).using_vi_mode = t.using_vi_mode ∧
    (endLoop env fuel t).matches_ = t.matches_ ∧
    (Fits env t → Fits env (endLoop env fuel t)) := by
  intro fuel
  induction fuel with
  | zero => intro t; exact ⟨rfl, rfl, fun h => h⟩
  | succ fuel ih =>
    intro t
    unfold endLoop
    split
    · split
      · exact ⟨rfl, rfl, fun h => h⟩
      · rename_i c _
        split
        · obtain ⟨h1, h2, h3⟩ := ih (calcoffsets env { t with curr := some (c + 1) })
          obtain ⟨b1, b2, b3⟩ := calcoffsets_base env { t with curr := some (c + 1) }
          exact ⟨h1.trans b1, h2.trans b2, fun h => h3 (b3 h)⟩
        · exact ⟨rfl, rfl, fun h => h⟩
    · exact ⟨rfl, rfl, fun h => h⟩

/-- The walk of the case `XK_End` from an anchored page, with every item fitting
the budget: it ends, on a page without a next page, and leaves everything but the
paging pointers alone. -/
theorem endLoop_spec (env : Env) : ∀ (fuel : Nat) (t : State) (c : Nat),
    Fits env t → t.curr = some c → AnchoredAt env t c → t.matches_.length - c < fuel →
    (endLoop env fuel t).next = none ∧
    (∃ c2, (endLoop env fuel t).curr = some c2 ∧ AnchoredAt env (endLoop env fuel t) c2) ∧
    (endLoop env fuel t).status = t.status ∧ (endLoop env fuel t).text = t.text ∧
    (endLoop env fuel t).sel = t.sel := by
  intro fuel
  induction fuel with
  | zero => intro t c _ _ _ h; omega
  | succ fuel ih =>
    intro t c hF hc hA hfuel
    unfold endLoop
    by_cases hn : t.next = none
    · rw [if_neg (not_not.mpr hn)]
      exact ⟨hn, ⟨c, hc, hA⟩, rfl, rfl, rfl⟩
    · rw [if_pos hn]
      simp only [hc]
      obtain ⟨q, hq⟩ := Option.ne_none_iff_exists'.mp hn
      have hb := next_bounds (cost env t) (budget env t) t.matches_ c hF.1 (fits_all hF) hA.1 q
        (by rw [← hA.2.1]; exact hq)
      rw [if_pos (by omega)]
      have hcs := calcoffsets_some env { t with curr := some (c + 1) } (c + 1) rfl
      have hA2 : AnchoredAt env (calcoffsets env { t with curr := some (c + 1) }) (c + 1) := by
        rw [hcs]
        exact ⟨by show c + 1 < t.matches_.length; omega, rfl, rfl⟩
      have hc2 : (calcoffsets env { t with curr := some (c + 1) }).curr = some (c + 1) := by
        rw [hcs]
      obtain ⟨_, b2, b3⟩ := calcoffsets_base env { t with curr := some (c + 1) }
      obtain ⟨r1, r2, r3, r4, r5⟩ := ih (calcoffsets env { t with curr := some (c + 1) }) (c + 1)
        (b3 hF) hc2 hA2 (by rw [b2]; show t.matches_.length - (c + 1) < fuel; omega)
      obtain ⟨f1, _, _, _, _, f6, _, f8⟩ := calcoffsets_fields env { t with curr := some (c + 1) }
      exact ⟨r1, r2, r3.trans f8, r4.trans f1, r5.trans f6⟩

theorem matchend_some (s : State) (hne : s.matches_ ≠ []) :
    matchend s = some (s.matches_.length - 1) := by
  unfold matchend
  rw [if_neg hne]

/-- The three steps of the case `XK_End` behind `if (next)`: from the last match
back one page, then forward page by page; they end on the last page. -/
theorem end_walk (env : Env) (s : State) (hF : Fits env s) (hne : s.matches_ ≠ []) :
    (endLoop env
      ((calcoffsets env { (calcoffsets env { s with curr := matchend s }) with
        curr := (calcoffsets env { s with curr := matchend s }).prev }).matches_.length + 1)
      (calcoffsets env { (calcoffsets env { s with curr := matchend s }) with
        curr := (calcoffsets env { s with curr := matchend s }).prev })).next = none ∧
    (∃ c, (endLoop env
      ((calcoffsets env { (calcoffsets env { s with curr := matchend s }) with
        curr := (calcoffsets env { s with curr := matchend s }).prev }).matches_.length + 1)
      (calcoffsets env { (calcoffsets env { s with curr := matchend s }) with
        curr := (calcoffsets env { s with curr := matchend s }).prev })).curr = some c ∧
      AnchoredAt env (endLoop env
      ((calcoffsets env { (calcoffsets env { s with curr := matchend s }) with
        curr := (calcoffsets env { s with curr := matchend s }).prev }).matches_.length + 1)
      (calcoffsets env { (calcoffsets env { s with curr := matchend s }) with
        curr := (calcoffsets env { s with curr := matchend s }).prev })) c) ∧
    (endLoop env
      ((calcoffsets env { (calcoffsets env { s with curr := matchend s }) with
        curr := (calcoffsets env { s with curr := matchend s }).prev }).matches_.length + 1)
      (calcoffsets env { (calcoffsets env { s with curr := matchend s }) with
        curr := (calcoffsets env { s with curr := matchend s }).prev })).status = s.status ∧
    (endLoop env
      ((calcoffsets env { (calcoffsets env { s with curr := matchend s }) with
        curr := (calcoffsets env { s with curr := matchend s }).prev }).matches_.length + 1)
      (calcoffsets env { (calcoffsets env { s with curr := matchend s }) with
        curr := (calcoffsets env { s with curr := matchend s }).prev })).text = s.text := by
  have hlen : 0 < s.matches_.length := List.length_pos.mpr hne
  have hme := matchend_some s hne
  have hcs1 := calcoffsets_some env { s with curr := matchend s } (s.matches_.length - 1) hme
  obtain ⟨a1, a2, a3⟩ := calcoffsets_base env { s with curr := matchend s }
  obtain ⟨g1, _, _, _, _, _, _, g8⟩ := calcoffsets_fields env { s with curr := matchend s }
  have hF1 : Fits env (calcoffsets env { s with curr := matchend s }) := a3 hF
  have hpb := (prev_bounds (cost env s) (budget env s) s.matches_ (s.matches_.length - 1) hF.1
    (fits_all hF) (by omega)).1
  have hprev : (calcoffsets env { s with curr := matchend s }).prev =
      some (prevLoop (cost env s) (budget env s)
        (s.matches_.take (s.matches_.length - 1)).reverse 0 (s.matches_.length - 1)) := by
    rw [hcs1]
    rfl
  obtain ⟨b1, b2, b3⟩ := calcoffsets_base env
    { (calcoffsets env { s with curr := matchend s }) with
      curr := (calcoffsets env { s with curr := matchend s }).prev }
  obtain ⟨k1, _, _, _, _, _, _, k8⟩ := calcoffsets_fields env
    { (calcoffsets env { s with curr := matchend s }) with
      curr := (calcoffsets env { s with curr := matchend s }).prev }
  have hcs2 := calcoffsets_some env
    { (calcoffsets env { s with curr := matchend s }) with
      curr := (calcoffsets env { s with curr := matchend s }).prev } _ hprev
  have hm2 : (calcoffsets env { (calcoffsets env { s with curr := matchend s }) with
      curr := (calcoffsets env { s with curr := matchend s }).prev }).matches_ = s.matches_ :=
    b2.trans a2
  have hA2 : AnchoredAt env (calcoffsets env
      { (calcoffsets env { s with curr := matchend s }) with
        curr := (calcoffsets env { s with curr := matchend s }).prev })
      (prevLoop (cost env s) (budget env s)
        (s.matches_.take (s.matches_.length - 1)).reverse 0 (s.matches_.length - 1)) := by
    refine ⟨by rw [hm2]; omega, ?_, ?_⟩
    · rw [hcs2]; rfl
    · rw [hcs2]; rfl
  have hc2 : (calcoffsets env { (calcoffsets env { s with curr := matchend s }) with
      curr := (calcoffsets env { s with curr := matchend s }).prev }).curr =
      some (prevLoop (cost env s) (budget env s)
        (s.matches_.take (s.matches_.length - 1)).reverse 0 (s.matches_.length - 1)) := by
    rw [hcs2]
    exact hprev
  obtain ⟨r1, r2, r3, r4, _⟩ := endLoop_spec env
    ((calcoffsets env { (calcoffsets env { s with curr := matchend s }) with
      curr := (calcoffsets env { s with curr := matchend s }).prev }).matches_.length + 1)
    _ _ (b3 hF1) hc2 hA2 (by omega)
  exact ⟨r1, r2, r3.trans (k8.trans g8), r4.trans (k1.trans g1)⟩

theorem prevLoop_le (c : Nat → Int) (n : Int) : ∀ (l : List Nat) (i : Int) (p : Nat),
    prevLoop c n l i p ≤ p := by
  intro l
  induction l with
  | nil => intro i p; unfold prevLoop; exact le_refl _
  | cons m rest ih =>
    intro i p
    unfold prevLoop
    split
    · exact le_refl _
    · exact le_trans (ih _ _) (Nat.sub_le _ _)

/-- The walk of the case `XK_End` ends from every anchor inside the list, whatever
the widths: each round moves `curr` one item to the right. -/
theorem endLoop_total (env : Env) : ∀ (fuel : Nat) (t : State) (c : Nat),
    t.curr = some c → c < t.matches_.length → t.matches_.length - c < fuel →
    (endLoop env fuel t).status = t.status ∧ (endLoop env fuel t).text = t.text ∧
    (endLoop env fuel t).sel = t.sel := by
  intro fuel
  induction fuel with
  | zero => intro t c _ _ h; omega
  | succ fuel ih =>
    intro t c hc hlt hfuel
    unfold endLoop
    split
    · simp only [hc]
      split
      · have hcs := calcoffsets_some env { t with curr := some (c + 1) } (c + 1) rfl
        have hc2 : (calcoffsets env { t with curr := some (c + 1) }).curr = some (c + 1) := by
          rw [hcs]
        obtain ⟨_, b2, _⟩ := calcoffsets_base env { t with curr := some (c + 1) }
        obtain ⟨r3, r4, r5⟩ := ih (calcoffsets env { t with curr := some (c + 1) }) (c + 1)
          hc2 (by rw [b2]; assumption)
          (by rw [b2]; show t.matches_.length - (c + 1) < fuel; omega)
        obtain ⟨f1, _, _, _, _, f6, _, f8⟩ := calcoffsets_fields env { t with curr := some (c + 1) }
        exact ⟨r3.trans f8, r4.trans f1, r5.trans f6⟩
      · exact ⟨rfl, rfl, rfl⟩
    · exact ⟨rfl, rfl, rfl⟩

/-- The three steps of the case `XK_End` behind `if (next)` end for every list of
matches that is not empty, and touch nothing but the paging pointers. -/
theorem end_walk_total (env : Env) (s : State) (hne : s.matches_ ≠ []) :
    (endLoop env
      ((calcoffsets env { (calcoffsets env { s with curr := matchend s }) with
        curr := (calcoffsets env { s with curr := matchend s }).prev }).matches_.length + 1)
      (calcoffsets env { (calcoffsets env { s with curr := matchend s }) with
        curr := (calcoffsets env { s with curr := matchend s }).prev })).status = s.status ∧
    (endLoop env
      ((calcoffsets env { (calcoffsets env { s with curr := matchend s }) with
        curr := (calcoffsets env { s with curr := matchend s }).prev }).matches_.length + 1)
      (calcoffsets env { (calcoffsets env { s with curr := matchend s }) with
        curr := (calcoffsets env { s with curr := matchend s }).prev })).text = s.text ∧
    (endLoop env
      ((calcoffsets env { (calcoffsets env { s with curr := matchend s }) with
        curr := (calcoffsets env { s with curr := matchend s }).prev }).matches_.length + 1)
      (calcoffsets env { (calcoffsets env { s with curr := matchend s }) with
        curr := (calcoffsets env { s with curr := matchend s }).prev })).matches_ = s.matches_ ∧
    (endLoop env
      ((calcoffsets env { (calcoffsets env { s with curr := matchend s }) with
        curr := (calcoffsets env { s with curr := matchend s }).prev }).matches_.length + 1)
      (calcoffsets env { (calcoffsets env { s with curr := matchend s }) with
        curr := (calcoffsets env { s with curr := matchend s }).prev })).using_vi_mode = s.using_vi_mode ∧
    (Fits env s → Fits env (endLoop env
      ((calcoffsets env { (calcoffsets env { s with curr := matchend s }) with
        curr := (calcoffsets env { s with curr := matchend s }).prev }).matches_.length + 1)
      (calcoffsets env { (calcoffsets env { s with curr := matchend s }) with
        curr := (calcoffsets env { s with curr := matchend s }).prev }))) := by
  have hlen : 0 < s.matches_.length := List.length_pos.mpr hne
  have hme := matchend_some s hne
  have hcs1 := calcoffsets_some env { s with curr := matchend s } (s.matches_.length - 1) hme
  obtain ⟨a1, a2, a3⟩ := calcoffsets_base env { s with curr := matchend s }
  obtain ⟨g1, _, _, _, _, _, _, g8⟩ := calcoffsets_fields env { s with curr := matchend s }
  have hpb := prevLoop_le (cost env s) (budget env s)
    (s.matches_.take (s.matches_.length - 1)).reverse 0 (s.matches_.length - 1)
  have hprev : (calcoffsets env { s with curr := matchend s }).prev =
      some (prevLoop (cost env s) (budget env s)
        (s.matches_.take (s.matches_.length - 1)).reverse 0 (s.matches_.length - 1)) := by
    rw [hcs1]
    rfl
  obtain ⟨b1, b2, b3⟩ := calcoffsets_base env
    { (calcoffsets env { s with curr := matchend s }) with
      curr := (calcoffsets env { s with curr := matchend s }).prev }
  obtain ⟨k1, _, _, _, _, _, _, k8⟩ := calcoffsets_fields env
    { (calcoffsets env { s with curr := matchend s }) with
      curr := (calcoffsets env { s with curr := matchend s }).prev }
  have hcs2 := calcoffsets_some env
    { (calcoffsets env { s with curr := matchend s }) with
      curr := (calcoffsets env { s with curr := matchend s }).prev } _ hprev
  have hm2 : (calcoffsets env { (calcoffsets env { s with curr := matchend s }) with
        curr := (calcoffsets env { s with curr := matchend s }).prev }).matches_ = s.matches_ :=
    b2.trans a2
  have hc2 : (calcoffsets env { (calcoffsets env { s with curr := matchend s }) with
        curr := (calcoffsets env { s with curr := matchend s }).prev }).curr =
      some (prevLoop (cost env s) (budget env s)
        (s.matches_.take (s.matches_.length - 1)).reverse 0 (s.matches_.length - 1)) := by
    rw [hcs2]
    exact hprev
  obtain ⟨r3, r4, _⟩ := endLoop_total env
    ((calcoffsets env { (calcoffsets env { s with curr := matchend s }) with
        curr := (calcoffsets env { s with curr := matchend s }).prev }).matches_.length + 1)
    _ _ hc2 (by rw [hm2]; omega) (by omega)
  obtain ⟨e1, e2, e3⟩ := endLoop_base env
    ((calcoffsets env { (calcoffsets env { s with curr := matchend s }) with
        curr := (calcoffsets env { s with curr := matchend s }).prev }).matches_.length + 1)
    (calcoffsets env { (calcoffsets env { s with curr := matchend s }) with
        curr := (calcoffsets env { s with curr := matchend s }).prev })
  exact ⟨r3.trans (k8.trans g8), r4.trans (k1.trans g1), e2.trans hm2,
    e1.trans (b1.trans a1), fun h => e3 (b3 (a3 h))⟩

/-- Case `XK_End` with the cursor at the end of the query and a list of matches
that is not empty: the selection goes to the last match; with every item fitting
the budget no page follows. -/
theorem keyEnd_nav (env : Env) (s : State) (hcur : s.text.get? s.cursor = some 0)
    (hne : s.matches_ ≠ []) :
    ∃ r, keyEnd env s = Flow.draw r ∧ r.sel = some (s.matches_.length - 1) ∧
      r.status = s.status ∧ r.text = s.text ∧ r.matches_ = s.matches_ ∧
      r.using_vi_mode = s.using_vi_mode ∧ (Fits env s → r.next = none) := by
  obtain ⟨t1, t2, t3, t4, _⟩ := end_walk_total env s hne
  unfold keyEnd
  rw [hcur]
  simp only [ne_eq, not_true_eq_false, if_false]
  by_cases hn : s.next = none
  · rw [if_neg (not_not.mpr hn)]
    exact ⟨_, rfl, matchend_some s hne, rfl, rfl, rfl, rfl, fun _ => hn⟩
  · rw [if_pos hn]
    refine ⟨_, rfl, ?_, t1, t2, t3, t4, fun hF => (end_walk env s hF hne).1⟩
    show matchend (endLoop env
      ((calcoffsets env { (calcoffsets env { s with curr := matchend s }) with
        curr := (calcoffsets env { s with curr := matchend s }).prev }).matches_.length + 1)
      (calcoffsets env { (calcoffsets env { s with curr := matchend s }) with
        curr := (calcoffsets env { s with curr := matchend s }).prev })) = some (s.matches_.length - 1)
    rw [matchend_some _ (by rw [t3]; exact hne), t3]

theorem matchend_congr (a b : State) (h : a.matches_ = b.matches_) :
    matchend a = matchend b := by
  unfold matchend
  rw [h]

theorem keyEnd_paged (env : Env) (s : State) (h : Paged env s) :
    Paged env (flowState (keyEnd env s)) := by
  obtain ⟨hvi, hF, himp⟩ := h
  by_cases hne : s.matches_ = []
  · unfold keyEnd
    split
    · exact ⟨hvi, hF, himp⟩
    · split
      · exact ⟨hvi, hF, himp⟩
      · split
        · obtain ⟨a1, a2, a3⟩ := calcoffsets_base env { s with curr := matchend s }
          obtain ⟨b1, b2, b3⟩ := calcoffsets_base env
            { (calcoffsets env { s with curr := matchend s }) with
              curr := (calcoffsets env { s with curr := matchend s }).prev }
          obtain ⟨e1, e2, e3⟩ := endLoop_base env
            ((calcoffsets env { (calcoffsets env { s with curr := matchend s }) with
              curr := (calcoffsets env { s with curr := matchend s }).prev }).matches_.length + 1)
            (calcoffsets env { (calcoffsets env { s with curr := matchend s }) with
              curr := (calcoffsets env { s with curr := matchend s }).prev })
          exact ⟨e1.trans (b1.trans (a1.trans hvi)), e3 (b3 (a3 hF)),
            fun hx => absurd ((e2.trans (b2.trans a2)).trans hne) hx⟩
        · exact ⟨hvi, hF, fun hx => absurd hne hx⟩
  · have hlen : 0 < s.matches_.length := List.length_pos.mpr hne
    unfold keyEnd
    split
    · exact ⟨hvi, hF, himp⟩
    · split
      · exact ⟨hvi, hF, himp⟩
      · split
        · obtain ⟨t1, t2, t3, t4, t5⟩ := end_walk_total env s hne
          obtain ⟨w1, ⟨c, w2, w3⟩, _, _⟩ := end_walk env s hF hne
          refine ⟨t4.trans hvi, t5 hF, fun _ => ⟨⟨c, w2, w3⟩, ?_⟩⟩
          have hlenE := congrArg List.length t3
          have hc := w3.1
          rw [hlenE] at hc
          refine ⟨c, s.matches_.length - 1, w2, ?_, by omega,
            lt_of_lt_of_eq (by omega : s.matches_.length - 1 < s.matches_.length) hlenE.symm, ?_⟩
          · exact (matchend_congr _ s t3).trans (matchend_some s hne)
          · intro q hq
            exact absurd (w1.symm.trans hq) (by simp)
        · rename_i hn
          obtain ⟨⟨c, hc, hA⟩, _⟩ := himp hne
          refine ⟨hvi, hF, fun _ => ⟨⟨c, hc, hA⟩, ?_⟩⟩
          have hlt := hA.1
          refine ⟨c, s.matches_.length - 1, hc, matchend_some s hne, by omega,
            by show s.matches_.length - 1 < s.matches_.length; omega, ?_⟩
          intro q hq
          have hq2 : s.next = some q := hq
          rw [not_not.mp hn] at hq2
          exact absurd hq2 (by simp)

theorem budget_congr (env : Env) (s t : State) (hl : t.lines = s.lines)
    (hi : t.inputw = s.inputw) (hn : t.numbers = s.numbers) : budget env t = budget env s := by
  unfold budget
  rw [hl, hi, hn]

/-- With `lines > 0` the budget is `lines * bh`, whatever the counter shows. -/
theorem budget_lines (env : Env) (s t : State) (hl : t.lines = s.lines) (hpos : 0 < s.lines) :
    budget env t = budget env s := by
  unfold budget
  rw [hl, if_pos hpos, if_pos hpos]

/-- The invariant reads the page and the budget only. -/
theorem paged_congr (env : Env) (s t : State) (hs : SamePage s t)
    (hb : budget env t = budget env s) (h : Paged env s) : Paged env t := by
  obtain ⟨hv, hl, hi, _, hm, hc, hn, hp, hsel⟩ := hs
  have hcost : cost env t = cost env s := by
    funext m
    unfold cost
    rw [hl, hi, hb]
  unfold Paged Fits AnchoredAt Visible at *
  rw [hv, hm, hc, hn, hp, hsel, hb, hcost]
  exact h

theorem drawmenu_same (env : Env) (s : State) : SamePage s (drawmenu env s) := by
  unfold drawmenu
  split <;> exact ⟨rfl, rfl, rfl, rfl, rfl, rfl, rfl, rfl, rfl⟩

/-- The statements behind the label `draw:` outside vi mode: the echo of `-r`,
then `drawmenu`. -/
theorem draw_eq (cfg : Config) (env : Env) (s : State) (hrun : s.status = Status.running)
    (hvi : s.using_vi_mode = false) :
    draw cfg env s =
      if cfg.incremental = true then
        if 0 ∈ s.text then drawmenu env (puts (cstr s.text) s) else undef s
      else drawmenu env s := by
  unfold draw
  rw [if_neg (not_not.mpr hrun)]
  cases cfg.incremental
  · simp only [Bool.false_eq_true, if_false]
    rw [if_neg (not_not.mpr hrun), if_neg (by rw [hvi]; simp)]
  · simp only [if_true]
    unfold putsText
    split
    · rw [if_neg (show ¬ (puts (cstr s.text) s).status ≠ Status.running from not_not.mpr hrun),
        if_neg (show ¬ (puts (cstr s.text) s).using_vi_mode = true by
          show ¬ s.using_vi_mode = true
          rw [hvi]; simp)]
    · rw [if_pos (show (undef s).status ≠ Status.running by simp [undef])]

theorem draw_same (cfg : Config) (env : Env) (s : State) (hvi : s.using_vi_mode = false) :
    SamePage s (draw cfg env s) := by
  by_cases hrun : s.status = Status.running
  · rw [draw_eq cfg env s hrun hvi]
    split
    · split
      · exact drawmenu_same env (puts (cstr s.text) s)
      · exact ⟨rfl, rfl, rfl, rfl, rfl, rfl, rfl, rfl, rfl⟩
    · exact drawmenu_same env s
  · unfold draw
    rw [if_pos hrun]
    exact ⟨rfl, rfl, rfl, rfl, rfl, rfl, rfl, rfl, rfl⟩

theorem calcoffsets_geom (env : Env) (s : State) :
    (calcoffsets env s).lines = s.lines ∧ (calcoffsets env s).inputw = s.inputw ∧
    (calcoffsets env s).numbers = s.numbers := by
  unfold calcoffsets
  cases s.curr <;> exact ⟨rfl, rfl, rfl⟩

theorem endLoop_geom (env : Env) : ∀ (fuel : Nat) (t : State),
    (endLoop env fuel t).lines = t.lines ∧ (endLoop env fuel t).inputw = t.inputw ∧
    (endLoop env fuel t).numbers = t.numbers := by
  intro fuel
  induction fuel with
  | zero => intro t; exact ⟨rfl, rfl, rfl⟩
  | succ fuel ih =>
    intro t
    unfold endLoop
    split
    · split
      · exact ⟨rfl, rfl, rfl⟩
      · rename_i c _
        split
        · obtain ⟨h1, h2, h3⟩ := ih (calcoffsets env { t with curr := some (c + 1) })
          obtain ⟨b1, b2, b3⟩ := calcoffsets_geom env { t with curr := some (c + 1) }
          exact ⟨h1.trans b1, h2.trans b2, h3.trans b3⟩
        · exact ⟨rfl, rfl, rfl⟩
    · exact ⟨rfl, rfl, rfl⟩

theorem keyUp_geom (env : Env) (s : State) :
    (flowState (keyUp env s)).lines = s.lines ∧ (flowState (keyUp env s)).inputw = s.inputw ∧
    (flowState (keyUp env s)).numbers = s.numbers := by
  unfold keyUp
  split
  · split
    · exact calcoffsets_geom env _
    · exact ⟨rfl, rfl, rfl⟩
  · exact ⟨rfl, rfl, rfl⟩

theorem keyDown_geom (env : Env) (s : State) :
    (flowState (keyDown env s)).lines = s.lines ∧
    (flowState (keyDown env s)).inputw = s.inputw ∧
    (flowState (keyDown env s)).numbers = s.numbers := by
  unfold keyDown
  split
  · split
    · split
      · exact calcoffsets_geom env _
      · exact ⟨rfl, rfl, rfl⟩
    · exact ⟨rfl, rfl, rfl⟩
  · exact ⟨rfl, rfl, rfl⟩

theorem keyNext_geom (env : Env) (s : State) :
    (flowState (keyNext env s)).lines = s.lines ∧
    (flowState (keyNext env s)).inputw = s.inputw ∧
    (flowState (keyNext env s)).numbers = s.numbers := by
  unfold keyNext
  split
  · exact ⟨rfl, rfl, rfl⟩
  · exact calcoffsets_geom env _

theorem keyPrior_geom (env : Env) (s : State) :
    (flowState (keyPrior env s)).lines = s.lines ∧
    (flowState (keyPrior env s)).inputw = s.inputw ∧
    (flowState (keyPrior env s)).numbers = s.numbers := by
  unfold keyPrior
  split
  · exact ⟨rfl, rfl, rfl⟩
  · exact calcoffsets_geom env _

theorem keyHome_geom (env : Env) (s : State) :
    (flowState (keyHome env s)).lines = s.lines ∧
    (flowState (keyHome env s)).inputw = s.inputw ∧
    (flowState (keyHome env s)).numbers = s.numbers := by
  unfold keyHome
  split
  · exact ⟨rfl, rfl, rfl⟩
  · exact calcoffsets_geom env _

theorem keyEnd_geom (env : Env) (s : State) :
    (flowState (keyEnd env s)).lines = s.lines ∧
    (flowState (keyEnd env s)).inputw = s.inputw ∧
    (flowState (keyEnd env s)).numbers = s.numbers := by
  unfold keyEnd
  split
  · exact ⟨rfl, rfl, rfl⟩
  · split
    · exact ⟨rfl, rfl, rfl⟩
    · split
      · obtain ⟨a1, a2, a3⟩ := calcoffsets_geom env { s with curr := matchend s }
        obtain ⟨b1, b2, b3⟩ := calcoffsets_geom env
          { (calcoffsets env { s with curr := matchend s }) with
            curr := (calcoffsets env { s with curr := matchend s }).prev }
        obtain ⟨e1, e2, e3⟩ := endLoop_geom env
          ((calcoffsets env { (calcoffsets env { s with curr := matchend s }) with
            curr := (calcoffsets env { s with curr := matchend s }).prev }).matches_.length + 1)
          (calcoffsets env { (calcoffsets env { s with curr := matchend s }) with
            curr := (calcoffsets env { s with curr := matchend s }).prev })
        exact ⟨e1.trans (b1.trans a1), e2.trans (b2.trans a2), e3.trans (b3.trans a3)⟩
      · exact ⟨rfl, rfl, rfl⟩

/-- A key without modifiers, outside vi mode and not the key that enters it, goes
to the last switch of `keypress`. -/
theorem keypress_plain (cfg : Config) (env : Env) (s : State) (ks : KeySym)
    (hrun : s.status = Status.running) (hvi : s.using_vi_mode = false)
    (hesc : cfg.vi_mode = false ∨ cfg.global_esc_state ≠ 0 ∨ cfg.global_esc_ksym ≠ ks) :
    keypress cfg env (keyEv ks 0) s =
      finish cfg env (mainSwitch cfg env (keyEv ks 0) ks 0 s) := by
  have hno : ¬ (cfg.vi_mode = true ∧ (keyEv ks 0).ksym = cfg.global_esc_ksym ∧
      (keyEv ks 0).state &&& cfg.global_esc_state = cfg.global_esc_state) := by
    rintro ⟨a, b, c⟩
    have c2 : (0 : Nat) &&& cfg.global_esc_state = cfg.global_esc_state := c
    rw [Nat.zero_and] at c2
    rcases hesc with h | h | h
    · rw [h] at a; exact absurd a (by simp)
    · exact h c2.symm
    · exact h b.symm
  unfold keypress
  rw [if_neg (by rw [hrun]; simp)]
  show (if s.using_vi_mode = true then _ else _) = _
  rw [if_neg (by rw [hvi]; simp), if_neg hno]
  unfold dispatch
  rw [if_neg (by show ¬ (0 : Nat) &&& ControlMask ≠ 0; rw [Nat.zero_and]; simp),
    if_neg (by show ¬ (0 : Nat) &&& Mod1Mask ≠ 0; rw [Nat.zero_and]; simp)]
  rfl

/-- The case of a navigation key keeps the invariant and the quantities the
budget is computed from. -/
theorem nav_flow (cfg : Config) (env : Env) (ev : XKeyEvent) (s : State) (cmd : NavCmd)
    (h : Paged env s) :
    Paged env (flowState (mainSwitch cfg env ev (navKey cmd) 0 s)) ∧
    (flowState (mainSwitch cfg env ev (navKey cmd) 0 s)).lines = s.lines ∧
    (flowState (mainSwitch cfg env ev (navKey cmd) 0 s)).inputw = s.inputw ∧
    (flowState (mainSwitch cfg env ev (navKey cmd) 0 s)).numbers = s.numbers := by
  cases cmd with
  | up => exact ⟨keyUp_paged env s h, keyUp_geom env s⟩
  | down => exact ⟨keyDown_paged env s h, keyDown_geom env s⟩
  | pageUp => exact ⟨keyPrior_paged env s h, keyPrior_geom env s⟩
  | pageDown => exact ⟨keyNext_paged env s h, keyNext_geom env s⟩
  | home => exact ⟨keyHome_paged env s h, keyHome_geom env s⟩
  | toEnd => exact ⟨keyEnd_paged env s h, keyEnd_geom env s⟩

theorem finish_same (cfg : Config) (env : Env) (fl : Flow)
    (hvi : (flowState fl).using_vi_mode = false) :
    SamePage (flowState fl) (finish cfg env fl) := by
  cases fl with
  | cont ksym st t => exact ⟨rfl, rfl, rfl, rfl, rfl, rfl, rfl, rfl, rfl⟩
  | draw t => exact draw_same cfg env t hvi
  | ret t => exact ⟨rfl, rfl, rfl, rfl, rfl, rfl, rfl, rfl, rfl⟩

theorem keypress_nav_eq (cfg : Config) (env : Env) (s : State) (cmd : NavCmd)
    (hesc : cfg.vi_mode = false ∨ cfg.global_esc_state ≠ 0 ∨
      ∀ c, cfg.global_esc_ksym ≠ navKey c)
    (hrun : s.status = Status.running) (hvi : s.using_vi_mode = false) :
    keypress cfg env (keyEv (navKey cmd) 0) s =
      finish cfg env (mainSwitch cfg env (keyEv (navKey cmd) 0) (navKey cmd) 0 s) := by
  have hesc2 : cfg.vi_mode = false ∨ cfg.global_esc_state ≠ 0 ∨
      cfg.global_esc_ksym ≠ navKey cmd := by
    rcases hesc with e | e | e
    · exact Or.inl e
    · exact Or.inr (Or.inl e)
    · exact Or.inr (Or.inr (e cmd))
  exact keypress_plain cfg env s (navKey cmd) hrun hvi hesc2

/-- A navigation key leaves `lines` as it is. -/
theorem keypress_nav_lines (cfg : Config) (env : Env) (s : State) (cmd : NavCmd)
    (hesc : cfg.vi_mode = false ∨ cfg.global_esc_state ≠ 0 ∨
      ∀ c, cfg.global_esc_ksym ≠ navKey c)
    (h : Paged env s) : (keypress cfg env (keyEv (navKey cmd) 0) s).lines = s.lines := by
  by_cases hrun : s.status = Status.running
  · rw [keypress_nav_eq cfg env s cmd hesc hrun h.1]
    obtain ⟨hp, hl, _, _⟩ := nav_flow cfg env (keyEv (navKey cmd) 0) s cmd h
    exact (finish_same cfg env _ hp.1).2.1.trans hl
  · unfold keypress
    rw [if_pos hrun]

/-- Each navigation key keeps the invariant when the budget after it is the
budget before it. -/
theorem keypress_nav_paged (cfg : Config) (env : Env) (s : State) (cmd : NavCmd)
    (hesc : cfg.vi_mode = false ∨ cfg.global_esc_state ≠ 0 ∨
      ∀ c, cfg.global_esc_ksym ≠ navKey c)
    (h : Paged env s)
    (hb : budget env (keypress cfg env (keyEv (navKey cmd) 0) s) = budget env s) :
    Paged env (keypress cfg env (keyEv (navKey cmd) 0) s) := by
  by_cases hrun : s.status = Status.running
  · rw [keypress_nav_eq cfg env s cmd hesc hrun h.1] at hb ⊢
    obtain ⟨hp, hl, hi, hn⟩ := nav_flow cfg env (keyEv (navKey cmd) 0) s cmd h
    exact paged_congr env _ _ (finish_same cfg env _ hp.1)
      (hb.trans (budget_congr env s _ hl hi hn).symm) hp
  · unfold keypress
    rw [if_pos hrun]
    exact h

/-- A sequence of navigation keys keeps the invariant when the budget stays what
it is: in a vertical list (`lines > 0`) it always does, otherwise it is asked of
the states along the sequence. -/
theorem navigate_paged (cfg : Config) (env : Env)
    (hesc : cfg.vi_mode = false ∨ cfg.global_esc_state ≠ 0 ∨
      ∀ c, cfg.global_esc_ksym ≠ navKey c) :
    ∀ (cmds : List NavCmd) (s : State), Paged env s →
      (0 < s.lines ∨
        ∀ pre, pre <+: cmds → budget env (navigate cfg env pre s) = budget env s) →
      Paged env (navigate cfg env cmds s) := by
  intro cmds
  induction cmds with
  | nil => intro s h _; exact h
  | cons cmd rest ih =>
    intro s h hfix
    have hl := keypress_nav_lines cfg env s cmd hesc h
    have hb : budget env (keypress cfg env (keyEv (navKey cmd) 0) s) = budget env s := by
      rcases hfix with hpos | ht
      · exact budget_lines env s _ hl hpos
      · exact ht [cmd] ⟨rest, rfl⟩
    refine ih _ (keypress_nav_paged cfg env s cmd hesc h hb) ?_
    rcases hfix with hpos | ht
    · left
      rw [hl]
      exact hpos
    · right
      intro pre hpre
      obtain ⟨t, ht2⟩ := hpre
      have h2 := ht (cmd :: pre) ⟨t, by rw [List.cons_append, ht2]⟩
      exact h2.trans hb.symm

theorem refreshed_vi (cfg : Config) (env : Env) (s : State) :
    (refreshed cfg env s).using_vi_mode = s.using_vi_mode := by
  unfold refreshed
  split
  · unfold refreshoptions readstream
    split
    · rfl
    · split <;> rfl
  · rfl

theorem calcoffsets_fits (env : Env) (t : State) :
    Fits env (calcoffsets env t) ↔ Fits env t := by
  unfold calcoffsets
  cases t.curr with
  | none => exact Iff.rfl
  | some c => exact Iff.rfl

/-- When `match` returns in classed mode, the first match is selected and the
page that starts with it is computed. -/
theorem match__paged (cfg : Config) (env : Env) (s0 : State) (hf : cfg.fuzzy = false)
    (hrun : (match_ cfg env s0).status = Status.running)
    (hvi : s0.using_vi_mode = false) (hF : Fits env (match_ cfg env s0)) :
    Paged env (match_ cfg env s0) := by
  have hv : (refreshed cfg env s0).using_vi_mode = false := (refreshed_vi cfg env s0).trans hvi
  revert hrun hF
  unfold match_
  simp only [hf, Bool.false_eq_true, if_false]
  split
  · intro hrun _
    exact absurd hrun (by simp)
  · intro _ hF
    have hF1 := (calcoffsets_fits env _).mp hF
    by_cases hnil : classed cfg (refreshed cfg env s0).text (refreshed cfg env s0).items = []
    · exact calc_paged_nil env _ hv hF1 hnil
    · have hh : headPos (classed cfg (refreshed cfg env s0).text (refreshed cfg env s0).items) =
          some 0 := by
        unfold headPos
        rw [if_neg hnil]
      exact calc_paged_at env _ 0 hv hF1 hh (List.length_pos.mpr hnil) hh

/-- C11. In classed mode and outside vi mode, with every single item fitting the
budget (sums inside the range of `int`) and a fixed budget, every state reached
from a returning `match` by any sequence of the keys Up, Down, PageUp, PageDown,
Home and End has the selection inside the visible window whenever a selection is
set and the list of matches is not empty: `curr` is set, the selection is at or
behind `curr`, inside the list, and before `next` when there is a next page. The
budget is fixed in every vertical list (`lines > 0`, where it is `lines * bh`);
in a horizontal list it is asked to be the same in all states along the
sequence, the counter that `drawmenu` recomputes being part of it. -/
theorem navigation_keeps_selection_visible (cfg : Config) (env : Env) (s0 : State)
    (cmds : List NavCmd) (hf : cfg.fuzzy = false)
    (hesc : cfg.vi_mode = false ∨ cfg.global_esc_state ≠ 0 ∨
      ∀ c, cfg.global_esc_ksym ≠ navKey c)
    (hrun : (match_ cfg env s0).status = Status.running)
    (hvi : s0.using_vi_mode = false)
    (hfix : 0 < (match_ cfg env s0).lines ∨
      ∀ pre, pre <+: cmds →
        budget env (navigate cfg env pre (match_ cfg env s0)) = budget env (match_ cfg env s0))
    (hF : Fits env (match_ cfg env s0)) :
    ∀ p, (navigate cfg env cmds (match_ cfg env s0)).sel = some p →
      (navigate cfg env cmds (match_ cfg env s0)).matches_ ≠ [] →
      ∃ c, (navigate cfg env cmds (match_ cfg env s0)).curr = some c ∧ c ≤ p ∧
        p < (navigate cfg env cmds (match_ cfg env s0)).matches_.length ∧
        ∀ q, (navigate cfg env cmds (match_ cfg env s0)).next = some q → p < q := by
  intro p hp hne
  obtain ⟨_, _, himp⟩ := navigate_paged cfg env hesc cmds _
    (match__paged cfg env s0 hf hrun hvi hF) hfix
  obtain ⟨_, c, p2, hc, hs, hcp, hlt, hwin⟩ := himp hne
  rw [hp] at hs
  simp only [Option.some.injEq] at hs
  subst hs
  exact ⟨c, hc, hcp, hlt, hwin⟩

/-- C11, two instances with a counter that `drawmenu` recomputes ("3/3"), after
Down, Down, Up and End. In a vertical list of two lines the page starts at the
second of three matches and the third is selected; in a horizontal list with the
budget 100, the same in all states along the sequence, the page starts at the
third match, which is selected. -/
theorem navigation_keeps_selection_visible_witness :
    ((navigate exCfg exEnvCount [NavCmd.down, NavCmd.down, NavCmd.up, NavCmd.toEnd]
        exLinesCount).numbers = str "3/3" ∧
      (navigate exCfg exEnvCount [NavCmd.down, NavCmd.down, NavCmd.up, NavCmd.toEnd]
        exLinesCount).curr = some 1 ∧
      (navigate exCfg exEnvCount [NavCmd.down, NavCmd.down, NavCmd.up, NavCmd.toEnd]
        exLinesCount).sel = some 2 ∧
      ∀ p, (navigate exCfg exEnvCount [NavCmd.down, NavCmd.down, NavCmd.up, NavCmd.toEnd]
        exLinesCount).sel = some p →
        (navigate exCfg exEnvCount [NavCmd.down, NavCmd.down, NavCmd.up, NavCmd.toEnd]
        exLinesCount).matches_ ≠ [] →
        ∃ c, (navigate exCfg exEnvCount [NavCmd.down, NavCmd.down, NavCmd.up, NavCmd.toEnd]
        exLinesCount).curr = some c ∧ c ≤ p ∧
          p < (navigate exCfg exEnvCount [NavCmd.down, NavCmd.down, NavCmd.up, NavCmd.toEnd]
        exLinesCount).matches_.length ∧
          ∀ q, (navigate exCfg exEnvCount [NavCmd.down, NavCmd.down, NavCmd.up, NavCmd.toEnd]
        exLinesCount).next = some q → p < q) ∧
    (exRow.lines = 0 ∧ budget exEnvRow exRow = 100 ∧
      (navigate exCfg exEnvRow [NavCmd.down, NavCmd.down, NavCmd.up, NavCmd.toEnd]
        exRow).curr = some 2 ∧
      (navigate exCfg exEnvRow [NavCmd.down, NavCmd.down, NavCmd.up, NavCmd.toEnd]
        exRow).sel = some 2 ∧
      ∀ p, (navigate exCfg exEnvRow [NavCmd.down, NavCmd.down, NavCmd.up, NavCmd.toEnd]
        exRow).sel = some p →
        (navigate exCfg exEnvRow [NavCmd.down, NavCmd.down, NavCmd.up, NavCmd.toEnd]
        exRow).matches_ ≠ [] →
        ∃ c, (navigate exCfg exEnvRow [NavCmd.down, NavCmd.down, NavCmd.up, NavCmd.toEnd]
        exRow).curr = some c ∧ c ≤ p ∧
          p < (navigate exCfg exEnvRow [NavCmd.down, NavCmd.down, NavCmd.up, NavCmd.toEnd]
        exRow).matches_.length ∧
          ∀ q, (navigate exCfg exEnvRow [NavCmd.down, NavCmd.down, NavCmd.up, NavCmd.toEnd]
        exRow).next = some q → p < q) :=
  ⟨⟨by decide, by decide, by decide,
    navigation_keeps_selection_visible exCfg exEnvCount
      { exState "" [plainItem "apple", plainItem "apply", plainItem "banana"] with lines := 2 }
      [NavCmd.down, NavCmd.down, NavCmd.up, NavCmd.toEnd] (by decide)
      (Or.inr (Or.inl (by decide))) (by decide) (by decide) (Or.inl (by decide))
      (by unfold Fits; decide)⟩,
   ⟨by decide, by decide, by decide, by decide,
    navigation_keeps_selection_visible exCfg exEnvRow
      { exState "" [plainItem "apple", plainItem "apply", plainItem "banana"] with
        numbers := str "3/3" }
      [NavCmd.down, NavCmd.down, NavCmd.up, NavCmd.toEnd] (by decide)
      (Or.inr (Or.inl (by decide))) (by decide) (by decide)
      (Or.inr (fun pre hpre =>
        (by decide : ∀ pre ∈ List.inits [NavCmd.down, NavCmd.down, NavCmd.up, NavCmd.toEnd],
          budget exEnvRow (navigate exCfg exEnvRow pre exRow) = budget exEnvRow exRow)
          pre ((List.mem_inits _ _).mpr hpre)))
      (by unfold Fits; decide)⟩⟩

/-! ## The key End when no item fits the budget -/

theorem nextLoop_over (c : Nat → Int) (n : Int) (hn : n < 0) (m : Nat) (rest : List Nat)
    (p : Nat) (h0 : 0 ≤ c m) (h1 : c m < 2147483648) :
    nextLoop c n (m :: rest) 0 p = some p := by
  unfold nextLoop
  rw [if_pos]
  rw [zero_add, wrapInt_small _ (by omega) h1]
  omega

theorem prevLoop_over (c : Nat → Int) (n : Int) (hn : n < 0) (l : List Nat) (p : Nat)
    (h : ∀ m ∈ l, 0 ≤ c m ∧ c m < 2147483648) : prevLoop c n l 0 p = p := by
  cases l with
  | nil => unfold prevLoop; rfl
  | cons m rest =>
    unfold prevLoop
    rw [if_pos]
    rw [zero_add, wrapInt_small _ (by have := (h m (List.mem_cons_self _ _)).1; omega)
      (h m (List.mem_cons_self _ _)).2]
    have := (h m (List.mem_cons_self _ _)).1
    omega

theorem calcoffsets_budget (env : Env) (t : State) :
    budget env (calcoffsets env t) = budget env t ∧
    cost env (calcoffsets env t) = cost env t := by
  unfold calcoffsets
  cases t.curr <;> exact ⟨rfl, rfl⟩

/-- With a negative budget the first item already exceeds it: both loops of
`calcoffsets` stop at once, and `next` and `prev` are `curr`. -/
theorem calc_over (env : Env) (t : State) (c : Nat) (hc : t.curr = some c)
    (hlt : c < t.matches_.length) (hneg : budget env t < 0)
    (hcost : ∀ m ∈ t.matches_, cost env t m < 2147483648) :
    (calcoffsets env t).next = some c ∧ (calcoffsets env t).prev = some c := by
  rw [calcoffsets_some env t c hc]
  constructor
  · show nextLoop (cost env t) (budget env t) (t.matches_.drop c) 0 c = some c
    rw [List.drop_eq_getElem_cons hlt]
    exact nextLoop_over _ _ hneg _ _ _ (cost_nonneg env t _)
      (hcost _ (List.getElem_mem _))
  · show some (prevLoop (cost env t) (budget env t) (t.matches_.take c).reverse 0 c) = some c
    rw [prevLoop_over _ _ hneg _ _ (fun m hm =>
      ⟨cost_nonneg env t m, hcost m (List.mem_of_mem_take (List.mem_reverse.mp hm))⟩)]

/-- The walk of the case `XK_End` from the last match with a page behind it:
`curr = curr->right` is `NULL` and ends the walk. -/
theorem endLoop_last (env : Env) (fuel : Nat) (t : State) (c : Nat) (hn : t.next ≠ none)
    (hc : t.curr = some c) (hlast : ¬ c + 1 < t.matches_.length) :
    (endLoop env (fuel + 1) t).curr = none := by
  unfold endLoop
  rw [if_pos hn]
  simp only [hc]
  rw [if_neg hlast]

/-- Case `XK_End` with a negative budget: the walk leaves `curr` at `NULL`. -/
theorem keyEnd_over (env : Env) (s : State) (hcur : s.text.get? s.cursor = some 0)
    (hne : s.matches_ ≠ []) (hnext : s.next ≠ none) (hneg : budget env s < 0)
    (hcost : ∀ m ∈ s.matches_, cost env s m < 2147483648) :
    (flowState (keyEnd env s)).curr = none := by
  have hlen : 0 < s.matches_.length := List.length_pos.mpr hne
  have hme := matchend_some s hne
  obtain ⟨a1, a2⟩ := calc_over env { s with curr := matchend s } (s.matches_.length - 1) hme
    (by show s.matches_.length - 1 < s.matches_.length; omega) hneg hcost
  obtain ⟨g1, g2⟩ := calcoffsets_budget env { s with curr := matchend s }
  obtain ⟨_, _, _, f4, _⟩ := calcoffsets_fields env { s with curr := matchend s }
  have hm1 : (calcoffsets env { s with curr := matchend s }).matches_ = s.matches_ := f4
  obtain ⟨b1, _⟩ := calc_over env { (calcoffsets env { s with curr := matchend s }) with
      curr := (calcoffsets env { s with curr := matchend s }).prev } (s.matches_.length - 1) a2
    (lt_of_lt_of_eq (by omega : s.matches_.length - 1 < s.matches_.length)
      (congrArg List.length hm1).symm)
    (lt_of_eq_of_lt g1 hneg)
    (fun m hm => lt_of_eq_of_lt (congrFun g2 m)
      (hcost m (Eq.mp (congrArg (fun l => m ∈ l) hm1) hm)))
  obtain ⟨_, _, _, k4, k5, _⟩ := calcoffsets_fields env { (calcoffsets env { s with curr := matchend s }) with
      curr := (calcoffsets env { s with curr := matchend s }).prev }
  have hm2 : (calcoffsets env { (calcoffsets env { s with curr := matchend s }) with
      curr := (calcoffsets env { s with curr := matchend s }).prev }).matches_ = s.matches_ := k4.trans hm1
  have hc2 : (calcoffsets env { (calcoffsets env { s with curr := matchend s }) with
      curr := (calcoffsets env { s with curr := matchend s }).prev }).curr = some (s.matches_.length - 1) := k5.trans a2
  unfold keyEnd
  rw [hcur]
  simp only [ne_eq, not_true_eq_false, if_false]
  rw [if_pos hnext]
  show (endLoop env ((calcoffsets env { (calcoffsets env { s with curr := matchend s }) with
      curr := (calcoffsets env { s with curr := matchend s }).prev }).matches_.length + 1) (calcoffsets env { (calcoffsets env { s with curr := matchend s }) with
      curr := (calcoffsets env { s with curr := matchend s }).prev })).curr = none
  exact endLoop_last env _ (calcoffsets env { (calcoffsets env { s with curr := matchend s }) with
      curr := (calcoffsets env { s with curr := matchend s }).prev }) (s.matches_.length - 1) (by rw [b1]; simp) hc2
    (by rw [hm2]; omega)

theorem listReadable_row (t : State) (hl : t.lines = 0) (hm : t.matches_ ≠ [])
    (hc : t.curr = none) : listReadable t = false := by
  unfold listReadable
  rw [hl, hc]
  simp [hm]

/-- C12, what the code does when no item fits the budget. For every running
session outside vi mode with a horizontal list (`lines = 0`) that is not empty, a
negative budget (the prompt and the input field are wider than the menu) and a
page behind the shown one, the key End with the cursor at the end of the query
puts the selection on the last match, but the forward walk at dmenu.c:585 leaves
`curr` at `NULL`, and `drawmenu` then reads `curr->left` (dmenu.c:256): the
behaviour is undefined. -/
theorem end_walk_loses_anchor (cfg : Config) (env : Env) (s : State)
    (hrun : s.status = Status.running) (hvi : s.using_vi_mode = false)
    (hesc : cfg.vi_mode = false ∨ cfg.global_esc_state ≠ 0 ∨
      cfg.global_esc_ksym ≠ KeySym.End)
    (hcur : s.text.get? s.cursor = some 0) (hne : s.matches_ ≠ [])
    (hlines : s.lines = 0) (hnext : s.next ≠ none) (hneg : budget env s < 0)
    (hcost : ∀ m ∈ s.matches_, cost env s m < 2147483648) :
    (keypress cfg env (keyEv KeySym.End 0) s).sel = some (s.matches_.length - 1) ∧
    (keypress cfg env (keyEv KeySym.End 0) s).matches_ = s.matches_ ∧
    (keypress cfg env (keyEv KeySym.End 0) s).curr = none ∧
    (keypress cfg env (keyEv KeySym.End 0) s).status = Status.undefined := by
  obtain ⟨r, hr, r1, r2, r3, r4, r5, _⟩ := keyEnd_nav env s hcur hne
  have hcurr : r.curr = none := by
    have h := keyEnd_over env s hcur hne hnext hneg hcost
    rw [hr] at h
    exact h
  have hl : r.lines = 0 := by
    have h := (keyEnd_geom env s).1
    rw [hr] at h
    exact h.trans hlines
  have h0 : 0 ∈ r.text := by
    rw [r3]
    exact List.get?_mem hcur
  have hk : keypress cfg env (keyEv KeySym.End 0) s = draw cfg env r := by
    rw [keypress_plain cfg env s KeySym.End hrun hvi hesc]
    show finish cfg env (keyEnd env s) = _
    rw [hr]
    rfl
  obtain ⟨_, _, _, _, d5, d6, _, _, d9⟩ := draw_same cfg env r (r5.trans hvi)
  have hst : (draw cfg env r).status = Status.undefined := by
    rw [draw_eq cfg env r (r2.trans hrun) (r5.trans hvi)]
    by_cases hi : cfg.incremental = true
    · rw [if_pos hi, if_pos h0, drawmenu_status,
        listReadable_row (puts (cstr r.text) r) hl (fun h => hne (r4.symm.trans h)) hcurr,
        if_neg (fun h => absurd h.2 (by simp))]
    · rw [if_neg hi, drawmenu_status,
        listReadable_row r hl (fun h => hne (r4.symm.trans h)) hcurr,
        if_neg (fun h => absurd h.2 (by simp))]
  rw [hk]
  exact ⟨d9.trans r1, d5.trans r4, d6.trans hcurr, hst⟩

/-- C12, the failing input: a prompt of 200 pixels in a menu of 100 pixels, the
items apple and banana in a horizontal list, an empty query, the key End. The
budget is -146, `next` is `curr` after `match`; after End the selection is on
banana, `curr` is `NULL` and `drawmenu` reads through it. -/
theorem end_walk_loses_anchor_witness :
    budget exEnvNoRoom exNoRoom = -146 ∧ exNoRoom.matches_ = [0, 1] ∧
    exNoRoom.curr = some 0 ∧ exNoRoom.next = some 0 ∧
    (keypress exCfg exEnvNoRoom (keyEv KeySym.End 0) exNoRoom).sel = some (exNoRoom.matches_.length - 1) ∧
    (keypress exCfg exEnvNoRoom (keyEv KeySym.End 0) exNoRoom).matches_ = exNoRoom.matches_ ∧
    (keypress exCfg exEnvNoRoom (keyEv KeySym.End 0) exNoRoom).curr = none ∧
    (keypress exCfg exEnvNoRoom (keyEv KeySym.End 0) exNoRoom).status = Status.undefined :=
  ⟨by decide, by decide, by decide, by decide,
   end_walk_loses_anchor exCfg exEnvNoRoom exNoRoom (by decide) (by decide)
     (Or.inr (Or.inl (by decide))) (by decide) (by decide) (by decide) (by decide)
     (by decide) (by decide)⟩

/-- The invariant of navigation lets `drawmenu` read the list of a state whose
list of matches is not empty. -/
theorem paged_readable (env : Env) (s : State) (h : Paged env s) (hne : s.matches_ ≠ []) :
    listReadable s = true := by
  obtain ⟨_, hF, himp⟩ := h
  obtain ⟨⟨c, hc, hlt, hnx, _⟩, _⟩ := himp hne
  have hw : walkMeetsNext s = true := by
    unfold walkMeetsNext
    rw [hc]
    cases hq : s.next with
    | none => simp [hlt]
    | some q =>
      have hb := next_bounds (cost env s) (budget env s) s.matches_ c hF.1 (fits_all hF) hlt q
        (hnx.symm.trans hq)
      simp only [decide_eq_true_eq]
      omega
  unfold listReadable
  by_cases hl : s.lines > 0
  · rw [if_pos hl]
    exact hw
  · rw [if_neg hl, if_pos hne, if_neg (by rw [hc]; simp)]
    exact hw

/-- Where every item fits the budget the key End does what C12 says: from a
state of the navigation invariant with a list that is not empty and the cursor at
the end of the query, it returns with the process running, the selection on the
last match and no page behind the shown one. -/
theorem end_selects_last_fitting (cfg : Config) (env : Env) (s : State)
    (hrun : s.status = Status.running)
    (hesc : cfg.vi_mode = false ∨ cfg.global_esc_state ≠ 0 ∨
      cfg.global_esc_ksym ≠ KeySym.End)
    (hcur : s.text.get? s.cursor = some 0) (hne : s.matches_ ≠ []) (h : Paged env s) :
    (keypress cfg env (keyEv KeySym.End 0) s).status = Status.running ∧
    (keypress cfg env (keyEv KeySym.End 0) s).matches_ = s.matches_ ∧
    (keypress cfg env (keyEv KeySym.End 0) s).sel = some (s.matches_.length - 1) ∧
    (keypress cfg env (keyEv KeySym.End 0) s).next = none := by
  have hvi := h.1
  obtain ⟨r, hr, r1, r2, r3, r4, r5, r6⟩ := keyEnd_nav env s hcur hne
  have hpr : Paged env r := by
    have hp := keyEnd_paged env s h
    rw [hr] at hp
    exact hp
  have hread : listReadable r = true := paged_readable env r hpr (fun e => hne (r4.symm.trans e))
  have h0 : 0 ∈ r.text := by
    rw [r3]
    exact List.get?_mem hcur
  have hk : keypress cfg env (keyEv KeySym.End 0) s = draw cfg env r := by
    rw [keypress_plain cfg env s KeySym.End hrun hvi hesc]
    show finish cfg env (keyEnd env s) = _
    rw [hr]
    rfl
  obtain ⟨_, _, _, _, d5, _, d7, _, d9⟩ := draw_same cfg env r (r5.trans hvi)
  have hst : (draw cfg env r).status = Status.running := by
    rw [draw_eq cfg env r (r2.trans hrun) (r5.trans hvi)]
    by_cases hi : cfg.incremental = true
    · rw [if_pos hi, if_pos h0, drawmenu_status,
        (listReadable_congr r (puts (cstr r.text) r) rfl rfl rfl rfl).trans hread,
        if_pos ⟨viCharReadable_off _ (r5.trans hvi), rfl⟩]
      exact r2.trans hrun
    · rw [if_neg hi, drawmenu_status, hread,
        if_pos ⟨viCharReadable_off _ (r5.trans hvi), rfl⟩]
      exact r2.trans hrun
  rw [hk]
  exact ⟨hst, d5.trans r4, d9.trans r1, d7.trans (r6 h.2.1)⟩

end Dmenu
